import Mathlib

/-!
# fastcgi++ SQL codec: parameters and results

A shallow embedding of the PostgreSQL binary codec of fastcgi++
(`include/fastcgi++/sql/parameters.hpp`, `src/parameters.cpp`,
`src/results.cpp`, `include/sqlTraits.hpp`) together with the properties
its specification states about it.

Conventions of the embedding:

* a byte is a natural number (`Byte`), a `char` array is a list of bytes
  (`Buffer`);
* C++ machine integers are `Int`/`Nat` with explicit reduction modulo
  `2 ^ width` at every conversion the source performs;
* an access outside an allocated array, a thrown `std::length_error` and a
  signed overflow end the computation with a `Fault` (`Except Fault`);
* `new char[n]` yields `n` bytes of arbitrary content, given by a function
  `heap : Nat → Byte` that every property quantifies over.
-/

namespace Fastcgipp

/-! ## Memory -/

/-- One `char` of storage, as its unsigned value. -/
abbrev Byte := Nat

/-- The content of a `char` array. -/
abbrev Buffer := List Byte

/-- The ways an execution leaves the defined behaviour of the codec. -/
inductive Fault where
  /-- A read or write outside the bounds of the array it addresses. -/
  | outOfBounds
  /-- The exception `std::length_error` of the standard containers. -/
  | lengthError
  /-- A signed arithmetic result that its type cannot represent. -/
  | overflow
  deriving DecidableEq, Repr

/-- Computations of the codec: a value or a `Fault`. -/
abbrev Exec := Except Fault

deriving instance DecidableEq for Except

/-- The array `new char[n]`: `n` bytes whose content is whatever the
allocator left there, `heap k` at index `k`. -/
def alloc (heap : Nat → Byte) (n : Nat) : Buffer :=
  (List.range n).map heap

/-- Writing the bytes `bs` into `buf` from offset `off` on. -/
def store (buf : Buffer) (off : Nat) (bs : List Byte) : Exec Buffer :=
  if off + bs.length ≤ buf.length then
    .ok (buf.take off ++ bs ++ buf.drop (off + bs.length))
  else
    .error .outOfBounds

/-- Reading `n` bytes of `buf` from offset `off` on. -/
def load (buf : Buffer) (off n : Nat) : Exec (List Byte) :=
  if off + n ≤ buf.length then
    .ok ((buf.drop off).take n)
  else
    .error .outOfBounds

/-! ## Byte-order primitive -/

/-- The value of a `w`-byte two's-complement object holding `v`, as an
unsigned number: conversion of `v` to the unsigned type of that width. -/
def toUnsigned (w : Nat) (v : Int) : Nat :=
  (v % 2 ^ (8 * w)).toNat

/-- The signed value of the `w`-byte two's-complement object whose unsigned
value is `u`. -/
def toSigned (w : Nat) (u : Nat) : Int :=
  if u % 2 ^ (8 * w) < 2 ^ (8 * w - 1) then
    ((u % 2 ^ (8 * w) : Nat) : Int)
  else
    ((u % 2 ^ (8 * w) : Nat) : Int) - 2 ^ (8 * w)

/-- The `w` low-order base-256 digits of `n`, most significant first. -/
def beBytes : Nat → Nat → List Byte
  | 0, _ => []
  | w + 1, n => (n / 256 ^ w % 256) :: beBytes w n

/-- The number whose base-256 digits, most significant first, are `bs`. -/
def beValue (bs : List Byte) : Nat :=
  bs.foldl (fun acc b => acc * 256 + b) 0

/-- Modelled from the spec: `fastcgi++/endian.hpp`, which defines
`BigEndian<T>`, is not among the sources. Section 4.1: "`write(value)`:
stores in network order". The stored object is the `w = sizeof(T)` bytes of
the two's-complement representation of `v`, most significant byte first. -/
def BigEndian.write (w : Nat) (v : Int) : List Byte :=
  beBytes w (toUnsigned w v)

/-- Modelled from the spec: `fastcgi++/endian.hpp` is not among the sources.
Section 4.1: "`read(ptr) -> T`: loads `sizeof(T)` bytes, reverses on
little-endian hosts". The `w` bytes at `ptr` are taken as a two's-complement
number, most significant byte first. -/
def BigEndian.read (w : Nat) (bs : List Byte) : Int :=
  toSigned w (beValue bs)

/-- Modelled from the spec: `BigEndian<T>::size()` of the absent
`fastcgi++/endian.hpp`; section 4.1: "the storage *is* the on-wire bytes",
section 3: `sizeof(T)` bytes on the wire. -/
def BigEndian.size (w : Nat) : Nat := w

/-- Assignment `ref = v` through a `BigEndian<T>&` that designates the `w`
bytes of `buf` at offset `off`. -/
def BigEndian.assign (w : Nat) (buf : Buffer) (off : Nat) (v : Int) : Exec Buffer :=
  store buf off (BigEndian.write w v)

/-- Conversion to `T` of the `BigEndian<T>` object at offset `off` of `buf`. -/
def BigEndian.deref (w : Nat) (buf : Buffer) (off : Nat) : Exec Int := do
  let bs ← load buf off w
  pure (BigEndian.read w bs)

/-! ## Types and their catalog -/

/-- The element types `Numeric` for which the sources instantiate
`Parameter<ARRAY<Numeric>>` and the numeric array decoder. A value of an
integer type is its mathematical value; a value of `REAL` or
`DOUBLE_PRECISION` is represented by the integer that has the same object
representation (its IEEE-754 bit pattern read as a signed integer of the same
width), since the codec only moves those bytes. -/
inductive Numeric where
  | SMALLINT
  | INTEGER
  | BIGINT
  | REAL
  | DOUBLE_PRECISION
  deriving DecidableEq, Repr

/-- The logical types of the codec (`types.hpp`, `sqlTraits.hpp`). -/
inductive SqlType where
  | BOOL
  | SMALLINT
  | INTEGER
  | BIGINT
  | REAL
  | DOUBLE_PRECISION
  | TEXT
  | WTEXT
  | TIMESTAMPTZ
  | DATE
  | INET
  | BYTEA
  | ARRAY_SMALLINT
  | ARRAY_INTEGER
  | ARRAY_BIGINT
  | ARRAY_REAL
  | ARRAY_DOUBLE_PRECISION
  | ARRAY_TEXT
  | ARRAY_WTEXT
  deriving DecidableEq, Repr

/-- The logical type `Numeric` itself. -/
def Numeric.toType : Numeric → SqlType
  | .SMALLINT => .SMALLINT
  | .INTEGER => .INTEGER
  | .BIGINT => .BIGINT
  | .REAL => .REAL
  | .DOUBLE_PRECISION => .DOUBLE_PRECISION

/-- The logical type `ARRAY<Numeric>`. -/
def Numeric.array : Numeric → SqlType
  | .SMALLINT => .ARRAY_SMALLINT
  | .INTEGER => .ARRAY_INTEGER
  | .BIGINT => .ARRAY_BIGINT
  | .REAL => .ARRAY_REAL
  | .DOUBLE_PRECISION => .ARRAY_DOUBLE_PRECISION

/-- The value `sizeof(Numeric)` (`types.hpp`: `int16_t`, `int32_t`, `int64_t`,
`float`, `double`). -/
def Numeric.sizeof : Numeric → Nat
  | .SMALLINT => 2
  | .INTEGER => 4
  | .BIGINT => 8
  | .REAL => 4
  | .DOUBLE_PRECISION => 8

/-- The values of type `T`: the integers of `sizeof(T)` bytes. -/
def Numeric.InRange (T : Numeric) (v : Int) : Prop :=
  -(2 ^ (8 * T.sizeof - 1)) ≤ v ∧ v < 2 ^ (8 * T.sizeof - 1)

instance (T : Numeric) (v : Int) : Decidable (T.InRange v) :=
  inferInstanceAs (Decidable (_ ∧ _))

/-- Modelled from the spec: the type identifiers of PostgreSQL's
`catalog/pg_type.h`, which `sqlTraits.hpp` includes and the repository does
not contain; values of section 6, "OID assignments". -/
def BOOLOID : Nat := 16
/-- Modelled from the spec: see `BOOLOID`. -/
def BYTEAOID : Nat := 17
/-- Modelled from the spec: see `BOOLOID`. -/
def INT8OID : Nat := 20
/-- Modelled from the spec: see `BOOLOID`. -/
def INT2OID : Nat := 21
/-- Modelled from the spec: see `BOOLOID`. -/
def INT4OID : Nat := 23
/-- Modelled from the spec: see `BOOLOID`. -/
def TEXTOID : Nat := 25
/-- Modelled from the spec: see `BOOLOID`. -/
def FLOAT4OID : Nat := 700
/-- Modelled from the spec: see `BOOLOID`. -/
def FLOAT8OID : Nat := 701
/-- Modelled from the spec: see `BOOLOID`. -/
def INETOID : Nat := 869
/-- Modelled from the spec: see `BOOLOID`. -/
def INT2ARRAYOID : Nat := 1005
/-- Modelled from the spec: see `BOOLOID`. -/
def INT4ARRAYOID : Nat := 1007
/-- Modelled from the spec: see `BOOLOID`. -/
def TEXTARRAYOID : Nat := 1009
/-- Modelled from the spec: see `BOOLOID`. -/
def INT8ARRAYOID : Nat := 1016
/-- Modelled from the spec: see `BOOLOID`. -/
def FLOAT4ARRAYOID : Nat := 1021
/-- Modelled from the spec: see `BOOLOID`. -/
def FLOAT8ARRAYOID : Nat := 1022
/-- Modelled from the spec: see `BOOLOID`. -/
def DATEOID : Nat := 1082
/-- Modelled from the spec: see `BOOLOID`. -/
def TIMESTAMPTZOID : Nat := 1184

/-- The constant `Traits<T>::oid` of `sqlTraits.hpp`. -/
def Traits.oid : SqlType → Nat
  | .BOOL => BOOLOID
  | .SMALLINT => INT2OID
  | .INTEGER => INT4OID
  | .BIGINT => INT8OID
  | .REAL => FLOAT4OID
  | .DOUBLE_PRECISION => FLOAT8OID
  | .TEXT => TEXTOID
  | .WTEXT => TEXTOID
  | .TIMESTAMPTZ => TIMESTAMPTZOID
  | .DATE => DATEOID
  | .INET => INETOID
  | .BYTEA => BYTEAOID
  | .ARRAY_SMALLINT => INT2ARRAYOID
  | .ARRAY_INTEGER => INT4ARRAYOID
  | .ARRAY_BIGINT => INT8ARRAYOID
  | .ARRAY_REAL => FLOAT4ARRAYOID
  | .ARRAY_DOUBLE_PRECISION => FLOAT8ARRAYOID
  | .ARRAY_TEXT => TEXTARRAYOID
  | .ARRAY_WTEXT => TEXTARRAYOID

/-- The constant `Parameter<T>::oid`, definition by definition
(`parameters.cpp`, lines 52 to 67); the five numeric arrays come from the one
template definition of line 66, and `Parameter<ARRAY<WTEXT>>` has no `oid` of its
own: it inherits the member of its base `Parameter<ARRAY<TEXT>>`. -/
def Parameter.oid : SqlType → Nat
  | .BOOL => Traits.oid .BOOL
  | .SMALLINT => Traits.oid .SMALLINT
  | .INTEGER => Traits.oid .INTEGER
  | .BIGINT => Traits.oid .BIGINT
  | .REAL => Traits.oid .REAL
  | .DOUBLE_PRECISION => Traits.oid .DOUBLE_PRECISION
  | .TEXT => Traits.oid .TEXT
  | .WTEXT => Traits.oid .WTEXT
  | .BYTEA => Traits.oid .BYTEA
  | .TIMESTAMPTZ => Traits.oid .TIMESTAMPTZ
  | .DATE => Traits.oid .DATE
  | .INET => Traits.oid .INET
  | .ARRAY_SMALLINT => Traits.oid (Numeric.array .SMALLINT)
  | .ARRAY_INTEGER => Traits.oid (Numeric.array .INTEGER)
  | .ARRAY_BIGINT => Traits.oid (Numeric.array .BIGINT)
  | .ARRAY_REAL => Traits.oid (Numeric.array .REAL)
  | .ARRAY_DOUBLE_PRECISION => Traits.oid (Numeric.array .DOUBLE_PRECISION)
  | .ARRAY_TEXT => Traits.oid .ARRAY_TEXT
  | .ARRAY_WTEXT => Traits.oid .ARRAY_TEXT

/-- Modelled from the spec: `sizeof(ARRAY_SIZE)`, the size of
`BigEndian<int32_t>` (`types.hpp`), whose definition in
`fastcgi++/endian.hpp` is not among the sources; section 6 gives every header
word of an array four bytes. -/
def ARRAY_SIZE.sizeof : Nat := 4

/-- Conversion of a mathematical integer to `unsigned` (32 bits). -/
def toUInt32 (n : Int) : Nat := toUnsigned 4 n

/-- Conversion of a mathematical integer to `int` (32 bits, two's
complement, modular as of C++20). -/
def toInt32 (n : Int) : Int := toSigned 4 (toUnsigned 4 n)

/-! ## Scalar integer parameters -/

/-- The classes `Parameter<SMALLINT>`, `Parameter<INTEGER>`,
`Parameter<BIGINT>`, `Parameter<REAL>` and `Parameter<DOUBLE_PRECISION>`
(`parameters.hpp`, lines 78 to 116): each is a `BigEndian<T>` and nothing
more, so the object is its stored bytes. -/
structure Parameter_Numeric (T : Numeric) where
  /-- The storage of the inherited `BigEndian<T>`. -/
  m_data : List Byte
  deriving DecidableEq, Repr

/-- The inherited constructor `BigEndian<T>(x)`. -/
def Parameter_Numeric.mk_of (T : Numeric) (x : Int) : Parameter_Numeric T :=
  ⟨BigEndian.write T.sizeof x⟩

/-- The inherited member `data()`. -/
def Parameter_Numeric.data {T : Numeric} (p : Parameter_Numeric T) : List Byte :=
  p.m_data

/-- The inherited member `size()`. -/
def Parameter_Numeric.size {T : Numeric} (_p : Parameter_Numeric T) : Nat :=
  BigEndian.size T.sizeof

/-! ## Array parameters -/

/-- The data members shared by `Parameter<ARRAY<Numeric>>` and
`Parameter<ARRAY<TEXT>>`: `unsigned m_size` and the array owned by
`std::unique_ptr<char[]> m_data`. -/
structure ArrayParameter where
  m_size : Nat
  m_data : Buffer
  deriving DecidableEq, Repr

/-- The member `size()` of both array parameter classes. -/
def ArrayParameter.size (p : ArrayParameter) : Nat := p.m_size

/-- The member `data()` of both array parameter classes: the owned array. -/
def ArrayParameter.data (p : ArrayParameter) : Buffer := p.m_data

/-- The five header words every array encoder writes right after
allocating (`parameters.cpp`, lines 75 to 90 and 130 to 145): `ndim = 1`,
`hasNull = 0`, `elementType`, `dim`, `lBound = 1`, each assigned through a
`BigEndian<int32_t>&` into `m_data`. -/
def writeHeader (m_data : Buffer) (elementType dim : Int) : Exec Buffer := do
  let m_data ← BigEndian.assign ARRAY_SIZE.sizeof m_data (0 * ARRAY_SIZE.sizeof) 1
  let m_data ← BigEndian.assign ARRAY_SIZE.sizeof m_data (1 * ARRAY_SIZE.sizeof) 0
  let m_data ← BigEndian.assign ARRAY_SIZE.sizeof m_data (2 * ARRAY_SIZE.sizeof) elementType
  let m_data ← BigEndian.assign ARRAY_SIZE.sizeof m_data (3 * ARRAY_SIZE.sizeof) dim
  BigEndian.assign ARRAY_SIZE.sizeof m_data (4 * ARRAY_SIZE.sizeof) 1

/-- The member `Parameter<ARRAY<Numeric>>::resize(const unsigned size)`
(`parameters.cpp`, lines 69 to 91). `size` arrives converted to `unsigned`;
`5+size` is computed in `unsigned`, the products and the sum in `size_t`, and
the result is stored in the `unsigned` member `m_size`. -/
def Parameter_ARRAY.resize (T : Numeric) (heap : Nat → Byte) (size : Nat) :
    Exec ArrayParameter := do
  let size := size % 2 ^ 32
  let m_size := (ARRAY_SIZE.sizeof * ((5 + size) % 2 ^ 32) + size * T.sizeof) % 2 ^ 32
  let m_data := alloc heap m_size
  let m_data ← writeHeader m_data (Traits.oid T.toType) size
  pure ⟨m_size, m_data⟩

/-- The loop of `Parameter<ARRAY<Numeric>>::operator=` (`parameters.cpp`,
lines 99 to 110), from index `i` on, over the elements not yet stored. The
counter `i` is `unsigned`; it cannot wrap before a store faults, because the
array has fewer than `2 ^ 32` bytes. -/
def Parameter_ARRAY.assignLoop (T : Numeric) : List Int → Nat → Buffer → Exec Buffer
  | [], _, m_data => pure m_data
  | v :: rest, i, m_data => do
    let ptr := 5 * ARRAY_SIZE.sizeof + i * (ARRAY_SIZE.sizeof + T.sizeof)
    let m_data ← BigEndian.assign ARRAY_SIZE.sizeof m_data ptr T.sizeof
    let m_data ← BigEndian.assign T.sizeof m_data (ptr + ARRAY_SIZE.sizeof) v
    Parameter_ARRAY.assignLoop T rest (i + 1) m_data

/-- The member `Parameter<ARRAY<Numeric>>::operator=(const ARRAY<Numeric>& x)`
(`parameters.cpp`, lines 93 to 113), which the constructor from an array
calls on the fresh object. -/
def Parameter_ARRAY.assign (T : Numeric) (heap : Nat → Byte) (x : List Int) :
    Exec ArrayParameter := do
  let p ← Parameter_ARRAY.resize T heap x.length
  let m_data ← Parameter_ARRAY.assignLoop T x 0 p.m_data
  pure ⟨p.m_size, m_data⟩

/-- The loop that sums the string sizes in `Parameter<ARRAY<TEXT>>::assign`
(`parameters.cpp`, lines 125 to 127): `dataSize` is `unsigned`. -/
def Parameter_ARRAY_TEXT.dataSize (x : List (List Byte)) : Nat :=
  x.foldl (fun dataSize string => (dataSize + string.length) % 2 ^ 32) 0

/-- The second loop of `Parameter<ARRAY<TEXT>>::assign` (`parameters.cpp`,
lines 148 to 155): `ptr` is the offset of the write cursor in `m_data`. -/
def Parameter_ARRAY_TEXT.assignLoop : List (List Byte) → Nat → Buffer → Exec Buffer
  | [], _, m_data => pure m_data
  | string :: rest, ptr, m_data => do
    let m_data ← BigEndian.assign ARRAY_SIZE.sizeof m_data ptr string.length
    let m_data ← store m_data (ptr + ARRAY_SIZE.sizeof) string
    Parameter_ARRAY_TEXT.assignLoop rest (ptr + ARRAY_SIZE.sizeof + string.length) m_data

/-- The member `Parameter<ARRAY<TEXT>>::assign(const ARRAY<TEXT>& x)`
(`parameters.cpp`, lines 121 to 156). The sum for `m_size` is computed in
`size_t` and stored in the `unsigned` member. -/
def Parameter_ARRAY_TEXT.assign (heap : Nat → Byte) (x : List (List Byte)) :
    Exec ArrayParameter := do
  let dataSize := Parameter_ARRAY_TEXT.dataSize x
  let m_size := (ARRAY_SIZE.sizeof * (5 + x.length) + dataSize) % 2 ^ 32
  let m_data := alloc heap m_size
  let m_data ← writeHeader m_data (Traits.oid .TEXT) x.length
  let m_data ← Parameter_ARRAY_TEXT.assignLoop x (5 * ARRAY_SIZE.sizeof) m_data
  pure ⟨m_size, m_data⟩

/-! ## Array result decoders -/

/-- The loop of the numeric array decoder (`results.cpp`, lines 257 to 272):
`n` iterations remain, `i` is the loop counter, `value` the output vector.
The comparison of `length` with `sizeof(Numeric)` is made in `size_t`, where a
negative `length` stays different from it. -/
def Results_base.fieldLoop_ARRAY (T : Numeric) (start : Buffer) :
    Nat → Nat → List Int → Exec (List Int)
  | 0, _, value => pure value
  | n + 1, i, value => do
    let length ← BigEndian.deref ARRAY_SIZE.sizeof start
      (5 * ARRAY_SIZE.sizeof + i * (ARRAY_SIZE.sizeof + T.sizeof))
    if length ≠ T.sizeof then
      Results_base.fieldLoop_ARRAY T start n (i + 1) value
    else do
      let element ← BigEndian.deref T.sizeof start
        (6 * ARRAY_SIZE.sizeof + i * (ARRAY_SIZE.sizeof + T.sizeof))
      Results_base.fieldLoop_ARRAY T start n (i + 1) (value ++ [element])

/-- The decoder `Results_base::field(int, int, ARRAY<Numeric>&)`
(`results.cpp`, lines 210 to 273) on a field whose bytes are `start`; `value`
is the content of the output vector at the call, the result its content at
the return. The comparison with the `unsigned` constant `Traits<Numeric>::oid`
converts `elementType` to `unsigned`; `reserve` of a negative `size`,
converted to `size_t`, throws `std::length_error`. -/
def Results_base.field_ARRAY (T : Numeric) (start : Buffer) (value : List Int) :
    Exec (List Int) := do
  let ndim ← BigEndian.deref ARRAY_SIZE.sizeof start (0 * ARRAY_SIZE.sizeof)
  if ndim ≠ 1 then
    pure value
  else do
    let hasNull ← BigEndian.deref ARRAY_SIZE.sizeof start (1 * ARRAY_SIZE.sizeof)
    if hasNull ≠ 0 then
      pure value
    else do
      let elementType ← BigEndian.deref ARRAY_SIZE.sizeof start (2 * ARRAY_SIZE.sizeof)
      if toUInt32 elementType ≠ Traits.oid T.toType then
        pure value
      else do
        let size ← BigEndian.deref ARRAY_SIZE.sizeof start (3 * ARRAY_SIZE.sizeof)
        if size < 0 then
          throw Fault.lengthError
        else
          Results_base.fieldLoop_ARRAY T start size.toNat 0 []

/-- The loop of the `ARRAY<TEXT>` decoder (`results.cpp`, lines 357 to 364):
`n` iterations remain, `ptr` is the offset of the read cursor in the field.
The constructor `std::string(ptr, length)` takes `length` as `size_t` and
throws `std::length_error` when it was negative. -/
def Results_base.fieldLoop_ARRAY_TEXT (start : Buffer) :
    Nat → Nat → List (List Byte) → Exec (List (List Byte))
  | 0, _, value => pure value
  | n + 1, ptr, value => do
    let length ← BigEndian.deref ARRAY_SIZE.sizeof start ptr
    let ptr := ptr + ARRAY_SIZE.sizeof
    if length < 0 then
      throw Fault.lengthError
    else do
      let string ← load start ptr length.toNat
      Results_base.fieldLoop_ARRAY_TEXT start n (ptr + length.toNat) (value ++ [string])

/-- The decoder `Results_base::field<TEXT>(int, int, ARRAY<TEXT>&)`
(`results.cpp`, lines 314 to 365) on a field whose bytes are `start`. -/
def Results_base.field_ARRAY_TEXT (start : Buffer) (value : List (List Byte)) :
    Exec (List (List Byte)) := do
  let ndim ← BigEndian.deref ARRAY_SIZE.sizeof start 0
  if ndim ≠ 1 then
    pure value
  else do
    let hasNull ← BigEndian.deref ARRAY_SIZE.sizeof start ARRAY_SIZE.sizeof
    if hasNull ≠ 0 then
      pure value
    else do
      let elementType ← BigEndian.deref ARRAY_SIZE.sizeof start (2 * ARRAY_SIZE.sizeof)
      if toUInt32 elementType ≠ Traits.oid .TEXT then
        pure value
      else do
        let size ← BigEndian.deref ARRAY_SIZE.sizeof start (3 * ARRAY_SIZE.sizeof)
        if size < 0 then
          throw Fault.lengthError
        else
          Results_base.fieldLoop_ARRAY_TEXT start size.toNat (5 * ARRAY_SIZE.sizeof) []

/-- The array `properEight` of the test (`tests/sql.cpp`, lines 525 to 541). -/
def properEight : List Byte :=
  [0x00, 0x00, 0x00, 0x01,
   0x00, 0x00, 0x00, 0x00,
   0x00, 0x00, 0x00, 0x15,
   0x00, 0x00, 0x00, 0x05,
   0x00, 0x00, 0x00, 0x01,
   0x00, 0x00, 0x00, 0x02,
   0x39, 0x46,
   0x00, 0x00, 0x00, 0x02,
   0x14, 0xc0,
   0x00, 0x00, 0x00, 0x02,
   0xeb, 0xa7,
   0x00, 0x00, 0x00, 0x02,
   0x60, 0xb3,
   0x00, 0x00, 0x00, 0x02,
   0xbc, 0x76]

/-- The bytes of a string literal of the test, one per character. -/
def bytesOf (s : String) : List Byte := s.toList.map Char.toNat

/-- The array `nine` of the test (`tests/sql.cpp`, lines 542 to 546). -/
def nine : List (List Byte) :=
  [bytesOf "The Fellowship of the Ring", bytesOf "The Two Towers",
   bytesOf "The Return of the King"]

/-- The array `properNine` of the test (`tests/sql.cpp`, lines 547 to 559). -/
def properNine : List Byte :=
  [0x00, 0x00, 0x00, 0x01,
   0x00, 0x00, 0x00, 0x00,
   0x00, 0x00, 0x00, 0x19,
   0x00, 0x00, 0x00, 0x03,
   0x00, 0x00, 0x00, 0x01,
   0x00, 0x00, 0x00, 26] ++ bytesOf "The Fellowship of the Ring" ++
  [0x00, 0x00, 0x00, 14] ++ bytesOf "The Two Towers" ++
  [0x00, 0x00, 0x00, 22] ++ bytesOf "The Return of the King"


/-! ## The wire layout, as the specification words it -/

/-- The array header of section 6, "Array wire layout": the words `ndim = 1`,
`hasNull = 0`, `elementOid`, `dim[0]`, `lBound[0] = 1`, each a big-endian
32-bit integer. -/
def wireHeader (elementOid dim : Int) : List Byte :=
  BigEndian.write 4 1 ++ BigEndian.write 4 0 ++ BigEndian.write 4 elementOid
    ++ BigEndian.write 4 dim ++ BigEndian.write 4 1

/-- The element part of the layout for a numeric array: for each value in
order, the word `sizeof(T)` and the big-endian value. -/
def wireNumericElements (T : Numeric) : List Int → List Byte
  | [] => []
  | v :: rest =>
    BigEndian.write 4 T.sizeof ++ BigEndian.write T.sizeof v ++ wireNumericElements T rest

/-- The element part of the layout for a text array: for each string in
order, its length as a 32-bit word and its bytes, no terminator. -/
def wireTextElements : List (List Byte) → List Byte
  | [] => []
  | s :: rest => BigEndian.write 4 s.length ++ s ++ wireTextElements rest

/-- The sum of the lengths of the strings of `x`. -/
def totalLength : List (List Byte) → Nat
  | [] => 0
  | s :: rest => s.length + totalLength rest

/-! ## The parameter tuple -/

/-- A `const char*`: the null pointer or the address of a byte. -/
abbrev Pointer := Option Nat

/-- The null pointer. -/
def nullptr : Pointer := none

/-- One element `Parameter<T>` of the tuple `std::tuple<Parameter<Types>...>`,
as `Parameters` uses it: its type `T`, and the results of its members
`data()` and `size()` (for `TEXT` and `BYTEA` the inherited members of
`std::string` and `std::vector<char>`). -/
structure Parameter where
  type : SqlType
  data : Pointer
  size : Nat
  deriving DecidableEq, Repr

/-- Element access `v[i]` of a `std::vector` or `std::get<i>` of a tuple. -/
def vget {α : Type} (v : List α) (i : Nat) : Exec α :=
  match v[i]? with
  | some a => .ok a
  | none => .error .outOfBounds

/-- The assignment `v[i] = a` to an element of a `std::vector`. -/
def vset {α : Type} (v : List α) (i : Nat) (a : α) : Exec (List α) :=
  if i < v.length then .ok (v.set i a) else .error .outOfBounds

/-- The static member `Parameters<Types...>::s_oids` (`parameters.hpp`, lines
531 to 535): `Parameter<Types>::oid...`. -/
def Parameters.s_oids (Types : List SqlType) : List Nat :=
  Types.map Parameter.oid

/-- The static member `Parameters<Types...>::s_formats` (`parameters.hpp`,
lines 537 to 540): `sizeof...(Types)` copies of `1`. -/
def Parameters.s_formats (Types : List SqlType) : List Int :=
  List.replicate Types.length 1

/-- The class `Parameters<Types...>` with its base `Parameters_base`
(`parameters.hpp`, lines 345 to 505): the tuple of parameters and the data
members of the base. `m_size` is an `int` initialised from `oids.size()`,
the number of types of the pack, which the conversion leaves as it is. -/
structure Parameters where
  tuple : List Parameter
  m_size : Nat
  m_nulls : List Bool
  m_oids : List Nat
  m_raws : List Pointer
  m_sizes : List Int
  m_formats : List Int
  deriving DecidableEq, Repr

/-- The constructors of `Parameters<Types...>` (`parameters.hpp`, lines 491 to
499) with the constructor of the base (lines 380 to 389), on the tuple of
encoders built from the arguments: `m_nulls(m_size, false)`,
`m_raws(m_size)` and `m_sizes(m_size)` value-initialised. -/
def Parameters.mk_of (tuple : List Parameter) : Parameters :=
  let oids := Parameters.s_oids (tuple.map Parameter.type)
  let formats := Parameters.s_formats (tuple.map Parameter.type)
  let m_size := oids.length
  { tuple := tuple
    m_size := m_size
    m_nulls := List.replicate m_size false
    m_oids := oids
    m_raws := List.replicate m_size nullptr
    m_sizes := List.replicate m_size 0
    m_formats := formats }

/-- The member `oids()`: the array it points to. -/
def Parameters.oids (p : Parameters) : List Nat := p.m_oids

/-- The member `raws()`: the array it points to. -/
def Parameters.raws (p : Parameters) : List Pointer := p.m_raws

/-- The member `sizes()`: the array it points to. -/
def Parameters.sizes (p : Parameters) : List Int := p.m_sizes

/-- The member `formats()`: the array it points to. -/
def Parameters.formats (p : Parameters) : List Int := p.m_formats

/-- The member `size()`. -/
def Parameters.size (p : Parameters) : Nat := p.m_size

/-- The member `setNull(size_t column)`: `m_nulls[column] = true`. -/
def Parameters.setNull (p : Parameters) (column : Nat) : Exec Parameters := do
  let m_nulls ← vset p.m_nulls column true
  pure { p with m_nulls := m_nulls }

/-- The member `isNull(size_t column)`: `m_nulls[column]`. -/
def Parameters.isNull (p : Parameters) (column : Nat) : Exec Bool :=
  vget p.m_nulls column

/-- The body that both overloads of `build_impl` run for their first index
`column` (`parameters.hpp`, lines 470 to 474 and 482 to 486). The `int`
element of `m_sizes` receives the converted result of `size()`. -/
def Parameters.build_column (p : Parameters) (column : Nat) : Exec Parameters := do
  let parameter ← vget p.tuple column
  let m_raws ←
    if (← p.isNull column) then
      vset p.m_raws column nullptr
    else
      vset p.m_raws column parameter.data
  let m_sizes ← vset p.m_sizes column (toInt32 parameter.size)
  pure { p with m_raws := m_raws, m_sizes := m_sizes }

/-- The member template `build_impl(std::index_sequence<column, columns...>)`
(`parameters.hpp`, lines 467 to 487): the body for `column`, then the call for
`columns...`; the recursion ends at the overload for a single index. -/
def Parameters.build_impl : List Nat → Parameters → Exec Parameters
  | [], p => pure p
  | column :: columns, p => do
    let p ← p.build_column column
    Parameters.build_impl columns p

/-- The member `build()` (`parameters.hpp`, lines 525 to 529):
`build_impl(std::index_sequence_for<Types...>{})`. -/
def Parameters.build (p : Parameters) : Exec Parameters :=
  Parameters.build_impl (List.range p.tuple.length) p

/-- The operations a holder of a `Parameters` object can apply to it:
`setNull(column)`, `build()`, and the assignment of a new value to the
element `column` of the tuple, after which that element answers `data()` and
`size()` with `data` and `size`. -/
inductive Operation where
  | setNull (column : Nat)
  | build
  | assign (column : Nat) (data : Pointer) (size : Nat)
  deriving DecidableEq, Repr

/-- The effect of one operation. -/
def Parameters.apply (p : Parameters) : Operation → Exec Parameters
  | .setNull column => p.setNull column
  | .build => p.build
  | .assign column data size => do
    let parameter ← vget p.tuple column
    let tuple ← vset p.tuple column ⟨parameter.type, data, size⟩
    pure { p with tuple := tuple }

/-- The effect of a sequence of operations, first to last. -/
def Parameters.run (p : Parameters) : List Operation → Exec Parameters
  | [] => pure p
  | op :: ops => do
    let p ← p.apply op
    Parameters.run p ops

/-- The length invariant of `Parameters_base`: every parallel array, the
null flags and the tuple have `m_size` elements. -/
def Parameters.WellFormed (p : Parameters) : Prop :=
  p.tuple.length = p.m_size ∧ p.m_nulls.length = p.m_size ∧ p.m_oids.length = p.m_size
    ∧ p.m_raws.length = p.m_size ∧ p.m_sizes.length = p.m_size
    ∧ p.m_formats.length = p.m_size

/-- The parallel arrays, the null flags and `size()` of `p` all have the
length `N`. -/
def Parameters.LengthsAre (p : Parameters) (N : Nat) : Prop :=
  p.oids.length = N ∧ p.raws.length = N ∧ p.sizes.length = N ∧ p.formats.length = N
    ∧ p.m_nulls.length = N ∧ p.size = N

/-- The array `eight` of the test (`tests/sql.cpp`, line 524). -/
def eight : List Int := [14662, 5312, -5209, 24755, -17290]

/-- A tuple of two columns, a `SMALLINT` and a `BOOL`, each with the address
of its storage and its size. -/
def twoColumns : List Parameter :=
  [⟨.SMALLINT, some 4096, 2⟩, ⟨.BOOL, some 8192, 1⟩]

/-- The object built from `twoColumns` after `setNull(1)`. -/
def twoColumnsNull : Parameters :=
  ⟨twoColumns, 2, [false, true], [21, 16], [none, none], [0, 0], [1, 1]⟩

/-- A tuple of three columns, a `BIGINT`, a `TEXT` of 21 bytes and a `BOOL`. -/
def threeColumns : List Parameter :=
  [⟨.BIGINT, some 64, 8⟩, ⟨.TEXT, some 128, 21⟩, ⟨.BOOL, some 256, 1⟩]

/-- The object built from `threeColumns` after `setNull(2)` and `build()`. -/
def threeColumnsBuilt : Parameters :=
  ⟨threeColumns, 3, [false, false, true], [20, 25, 16], [some 64, some 128, none],
    [8, 21, 1], [1, 1, 1]⟩

/-- The object built from an `INTEGER` and a `TEXT` of 5 bytes after
`setNull(1)`, `build()`, an assignment that moves the first element to the
address 48, and `build()`. -/
def reassigned : Parameters :=
  ⟨[⟨.INTEGER, some 48, 4⟩, ⟨.TEXT, some 32, 5⟩], 2, [false, true], [23, 25],
    [some 48, none], [4, 5], [1, 1]⟩

/-! ## Column type verification -/

/-- The enumeration `ExecStatusType` of libpq (`libpq-fe.h`): the ten
enumerators that `results.cpp` names, and `other` for every further code a
server library may report. -/
inductive ExecStatusType where
  | PGRES_EMPTY_QUERY
  | PGRES_COMMAND_OK
  | PGRES_TUPLES_OK
  | PGRES_COPY_OUT
  | PGRES_COPY_IN
  | PGRES_BAD_RESPONSE
  | PGRES_NONFATAL_ERROR
  | PGRES_FATAL_ERROR
  | PGRES_COPY_BOTH
  | PGRES_SINGLE_TUPLE
  | other (code : Nat)
  deriving DecidableEq, Repr

/-- The result handle `PGresult` of libpq as the codec reads it: what
`PQftype(result, column)`, an `Oid`, and `PQfsize(result, column)`, an `int`,
return for each column, what `PQresultStatus(result)` returns, the
characters of the string `PQcmdTuples(result)` points to, without its
terminator, and what `PQnfields(result)`, an `int`, returns. -/
structure PGresult where
  PQftype : Int → Nat
  PQfsize : Int → Int
  PQresultStatus : ExecStatusType
  PQcmdTuples : List Byte
  PQnfields : Int

/-- The predicate `Traits<T>::verifyType(result, column)` of `sqlTraits.hpp`,
specialisation by specialisation. -/
def Traits.verifyType : SqlType → PGresult → Int → Bool
  | .BOOL, result, column =>
    result.PQftype column == Traits.oid .BOOL && result.PQfsize column == 1
  | .SMALLINT, result, column =>
    result.PQftype column == Traits.oid .SMALLINT && result.PQfsize column == 2
  | .INTEGER, result, column =>
    result.PQftype column == Traits.oid .INTEGER && result.PQfsize column == 4
  | .BIGINT, result, column =>
    result.PQftype column == Traits.oid .BIGINT && result.PQfsize column == 8
  | .REAL, result, column =>
    result.PQftype column == Traits.oid .REAL && result.PQfsize column == 4
  | .DOUBLE_PRECISION, result, column =>
    result.PQftype column == Traits.oid .DOUBLE_PRECISION && result.PQfsize column == 8
  | .TEXT, result, column => result.PQftype column == Traits.oid .TEXT
  | .WTEXT, result, column => result.PQftype column == Traits.oid .WTEXT
  | .TIMESTAMPTZ, result, column =>
    result.PQftype column == Traits.oid .TIMESTAMPTZ && result.PQfsize column == 8
  | .DATE, result, column =>
    result.PQftype column == Traits.oid .DATE && result.PQfsize column == 4
  | .INET, result, column => result.PQftype column == Traits.oid .INET
  | .BYTEA, result, column => result.PQftype column == Traits.oid .BYTEA
  | .ARRAY_SMALLINT, result, column => result.PQftype column == Traits.oid .ARRAY_SMALLINT
  | .ARRAY_INTEGER, result, column => result.PQftype column == Traits.oid .ARRAY_INTEGER
  | .ARRAY_BIGINT, result, column => result.PQftype column == Traits.oid .ARRAY_BIGINT
  | .ARRAY_REAL, result, column => result.PQftype column == Traits.oid .ARRAY_REAL
  | .ARRAY_DOUBLE_PRECISION, result, column =>
    result.PQftype column == Traits.oid .ARRAY_DOUBLE_PRECISION
  | .ARRAY_TEXT, result, column => result.PQftype column == Traits.oid .ARRAY_TEXT
  | .ARRAY_WTEXT, result, column => result.PQftype column == Traits.oid .ARRAY_WTEXT

/-- The field size the specification expects of a fixed-width scalar (section
3, "On-wire size"), and none for the types of variable width, `INET` and the
arrays. -/
def expectedFieldSize : SqlType → Option Int
  | .BOOL => some 1
  | .SMALLINT => some 2
  | .INTEGER => some 4
  | .BIGINT => some 8
  | .REAL => some 4
  | .DOUBLE_PRECISION => some 8
  | .TIMESTAMPTZ => some 8
  | .DATE => some 4
  | _ => none

/-- The types of the tuple `data` of the test (`tests/sql.cpp`, lines 563 to
576), column by column. -/
def testTypes : List SqlType :=
  [.SMALLINT, .INTEGER, .BIGINT, .TEXT, .REAL, .DOUBLE_PRECISION, .BYTEA, .WTEXT,
   .ARRAY_SMALLINT, .ARRAY_TEXT, .ARRAY_WTEXT, .BOOL, .BOOL]

/-! ## Fields of a result -/

/-- The accessor `PQgetlength(result, row, column)` of libpq on a field whose
bytes are `start` (what `PQgetvalue` points to): their number, an `int`. -/
def PQgetlength (start : Buffer) : Int := start.length

/-! ## BOOL, TEXT and BYTEA -/

/-- The class `Parameter<BOOL>` (`parameters.hpp`, lines 53 to 76): the one
`char` member `m_data`. -/
structure Parameter_BOOL where
  m_data : Byte
  deriving DecidableEq, Repr

/-- The constructor `Parameter<BOOL>(BOOL x)`: `m_data(static_cast<char>(x))`. -/
def Parameter_BOOL.mk_of (x : Bool) : Parameter_BOOL :=
  ⟨if x then 1 else 0⟩

/-- The member `data()`: the address of `m_data`, one byte. -/
def Parameter_BOOL.data (p : Parameter_BOOL) : List Byte := [p.m_data]

/-- The member `size()`. -/
def Parameter_BOOL.size (_p : Parameter_BOOL) : Nat := 1

/-- The decoder `Results_base::field<BOOL>` (`results.cpp`, lines 104 to 111)
on a field whose bytes are `start`: `static_cast<BOOL>(*PQgetvalue(...))`. -/
def Results_base.field_BOOL (start : Buffer) : Exec Bool := do
  let c ← load start 0 1
  pure (c != [0])

/-- The class `Parameter<TEXT>` (`parameters.hpp`, lines 118 to 127): a
`std::string` and nothing more. -/
structure Parameter_TEXT where
  /-- The characters of the inherited `std::string`. -/
  string : List Byte
  deriving DecidableEq, Repr

/-- The constructor `Parameter<TEXT>(const TEXT& x)`: `TEXT(x)`, a copy. -/
def Parameter_TEXT.mk_of (x : List Byte) : Parameter_TEXT := ⟨x⟩

/-- The inherited member `std::string::data()`: the characters. -/
def Parameter_TEXT.data (p : Parameter_TEXT) : List Byte := p.string

/-- The inherited member `std::string::size()`. -/
def Parameter_TEXT.size (p : Parameter_TEXT) : Nat := p.string.length

/-- The class `Parameter<BYTEA>` (`parameters.hpp`, lines 129 to 138): a
`std::vector<char>` and nothing more. -/
structure Parameter_BYTEA where
  /-- The elements of the inherited `std::vector<char>`. -/
  vector : List Byte
  deriving DecidableEq, Repr

/-- The constructor `Parameter<BYTEA>(const BYTEA& x)`: `BYTEA(x)`, a copy. -/
def Parameter_BYTEA.mk_of (x : List Byte) : Parameter_BYTEA := ⟨x⟩

/-- The inherited member `std::vector<char>::data()`: the elements. -/
def Parameter_BYTEA.data (p : Parameter_BYTEA) : List Byte := p.vector

/-- The inherited member `std::vector<char>::size()`. -/
def Parameter_BYTEA.size (p : Parameter_BYTEA) : Nat := p.vector.length

/-- The decoder `Results_base::field<TEXT>` (`results.cpp`, lines 113 to 121) on
a field whose bytes are `start`: `value.assign(PQgetvalue(...),
PQgetlength(...))`, which takes the length as `size_t` and replaces the
content of `value`. -/
def Results_base.field_TEXT (start : Buffer) (_value : List Byte) : Exec (List Byte) :=
  if PQgetlength start < 0 then
    throw Fault.lengthError
  else
    load start 0 (PQgetlength start).toNat

/-- The decoder `Results_base::field<char>` for `ARRAY<char>` (`results.cpp`,
lines 295 to 312) on a field whose bytes are `start`: `size` is the `unsigned`
conversion of `PQgetlength(...)`, and `value.assign(start, start+size)`
replaces the content of `value`. -/
def Results_base.field_char (start : Buffer) (_value : List Byte) : Exec (List Byte) :=
  let size := toUInt32 (PQgetlength start)
  load start 0 size

/-! ## INET -/

/-- Modelled from the spec: `Address::size` of `fastcgi++/address.hpp`, which is
not among the sources; section 4.5: "Canonicalize to a 16-byte address". An
`Address` object is its 16 address bytes. -/
def Address.size : Nat := 16

/-- Modelled from the spec: the macro `PGSQL_AF_INET6` of PostgreSQL's
`utils/inet.h`, which the repository does not contain; section 6: "numerically
3". -/
def PGSQL_AF_INET6 : Byte := 3

/-- The constant `Traits<INET>::addressFamily` (`sqlTraits.hpp`, line 187). -/
def Traits.addressFamily : Byte := PGSQL_AF_INET6

/-- The constant `Parameter<INET>::addressFamily` (`parameters.cpp`, line 64). -/
def Parameter_INET.addressFamily : Byte := Traits.addressFamily

/-- The member `Parameter<INET>::operator=(const INET& x)` (`parameters.hpp`,
lines 218 to 230), which the constructor calls: `array` is the content of the
`std::array<char, 20>` at the call, `x` the bytes of the `Address` object; the
four stores through `next` and `std::copy_n` of `INET::size` bytes. -/
def Parameter_INET.assign (array : Buffer) (x : Buffer) : Exec Buffer := do
  let next := 0
  let array ← store array next [Parameter_INET.addressFamily]
  let next := next + 1
  let array ← store array next [128]
  let next := next + 1
  let array ← store array next [0]
  let next := next + 1
  let array ← store array next [16]
  let next := next + 1
  let bytes ← load x 0 Address.size
  store array next bytes

/-- The inherited member `std::array<char, 20>::size()`. -/
def Parameter_INET.size : Nat := 20

/-- The decoder `Results_base::field<INET>` (`results.cpp`, lines 177 to 206) on
a field whose bytes are `data`; `value` is the content of the `Address` object
at the call, the result its content at the return. `char(-1)` is the byte
`0xFF`. -/
def Results_base.field_INET (data : Buffer) (value : Buffer) : Exec Buffer :=
  let address_p := 0
  if PQgetlength data = 8 then do
    let value ← store value address_p (List.replicate 10 0)
    let address_p := address_p + 10
    let value ← store value address_p (List.replicate 2 255)
    let address_p := address_p + 2
    let bytes ← load data 4 4
    store value address_p bytes
  else if PQgetlength data = 20 then do
    let bytes ← load data 4 Address.size
    store value address_p bytes
  else
    pure value

/-! ## TIMESTAMPTZ and DATE -/

/-- The result of an arithmetic operation on `w`-byte signed integers. -/
def checked (w : Nat) (v : Int) : Exec Int :=
  if -(2 ^ (8 * w - 1)) ≤ v ∧ v < 2 ^ (8 * w - 1) then .ok v else .error .overflow

/-- The class `std::chrono::year_month_day`: a `year` (a `short`), a `month`
and a `day` (each an `unsigned char`). -/
structure year_month_day where
  year : Int
  month : Nat
  day : Nat
  deriving DecidableEq, Repr

/-- The predicate `year::is_leap()`. -/
def is_leap (y : Int) : Bool :=
  y % 4 == 0 && (y % 100 != 0 || y % 400 == 0)

/-- The last day of the month `m` of the year `y`. -/
def last_day_of_month (y : Int) (m : Nat) : Nat :=
  if m = 2 then (if is_leap y then 29 else 28)
  else if m = 4 ∨ m = 6 ∨ m = 9 ∨ m = 11 then 30
  else 31

/-- The member `year_month_day::ok()`: a year of `[-32767, 32767]`, a month of
`[1, 12]` and a day of that month. -/
def year_month_day.ok (ymd : year_month_day) : Bool :=
  decide (-32767 ≤ ymd.year) && decide (ymd.year ≤ 32767) && decide (1 ≤ ymd.month)
    && decide (ymd.month ≤ 12) && decide (1 ≤ ymd.day)
    && decide (ymd.day ≤ last_day_of_month ymd.year ymd.month)

/-- The conversion `sys_days(ymd)` of `std::chrono`: the number of days from
1970-01-01 to the date `ymd` of the proleptic Gregorian calendar, computed by
eras of 400 years that start on the first of March. -/
def year_month_day.toSysDays (ymd : year_month_day) : Int :=
  let y : Int := if ymd.month ≤ 2 then ymd.year - 1 else ymd.year
  let era : Int := y / 400
  let yoe : Int := y - era * 400
  let mp : Int := if ymd.month > 2 then (ymd.month : Int) - 3 else (ymd.month : Int) + 9
  let doy : Int := (153 * mp + 2) / 5 + (ymd.day : Int) - 1
  let doe : Int := yoe * 365 + yoe / 4 - yoe / 100 + doy
  era * 146097 + doe - 719468

/-- The conversion `year_month_day(sys_days)` of `std::chrono`, the inverse of
`toSysDays`; the year is stored in a `short`. -/
def year_month_day.ofSysDays (z : Int) : year_month_day :=
  let z : Int := z + 719468
  let era : Int := z / 146097
  let doe : Int := z - era * 146097
  let yoe : Int := (doe - doe / 1460 + doe / 36524 - doe / 146096) / 365
  let y : Int := yoe + era * 400
  let doy : Int := doe - (365 * yoe + yoe / 4 - yoe / 100)
  let mp : Int := (5 * doy + 2) / 153
  let d : Int := doy - (153 * mp + 2) / 5 + 1
  let m : Int := if mp < 10 then mp + 3 else mp - 9
  ⟨toSigned 2 (toUnsigned 2 (if m ≤ 2 then y + 1 else y)), m.toNat, d.toNat⟩

/-- The date `January/1/2000` of both `convert` functions and both decoders. -/
def epochDate : year_month_day := ⟨2000, 1, 1⟩

/-- The constant `epoch` of `Parameter<DATE>::convert` and of the `DATE`
decoder, a `time_point` in days: its count of days since 1970-01-01. -/
def epochDays : Int := epochDate.toSysDays

/-- The constant `epoch` of `Parameter<TIMESTAMPTZ>::convert` and of the
`TIMESTAMPTZ` decoder, the same day converted to a `time_point` in
microseconds: its count of microseconds since 1970-01-01T00:00:00Z. -/
def epochMicroseconds : Int := epochDate.toSysDays * 86400000000

/-- The function `Parameter<TIMESTAMPTZ>::convert` (`parameters.hpp`, lines 166
to 171): `(x-epoch).count()`, a subtraction of 64-bit counts of microseconds;
`x` is the count of the `TIMESTAMPTZ`. -/
def Parameter_TIMESTAMPTZ.convert (x : Int) : Exec Int :=
  checked 8 (x - epochMicroseconds)

/-- The constructor `Parameter<TIMESTAMPTZ>(const TIMESTAMPTZ& x)`
(`parameters.hpp`, lines 180 to 182): `BigEndian<BIGINT>(convert(x))`; the
result is the storage of the `BigEndian<BIGINT>`, which `data()` exposes. -/
def Parameter_TIMESTAMPTZ.mk_of (x : Int) : Exec (List Byte) := do
  let count ← Parameter_TIMESTAMPTZ.convert x
  pure (BigEndian.write 8 count)

/-- The decoder `Results_base::field<TIMESTAMPTZ>` (`results.cpp`, lines 147 to
160) on a field whose bytes are `start`: `epoch + microseconds`, an addition
of 64-bit counts; the result is the count of the `TIMESTAMPTZ`. -/
def Results_base.field_TIMESTAMPTZ (start : Buffer) : Exec Int := do
  let microseconds ← BigEndian.deref 8 start 0
  checked 8 (epochMicroseconds + microseconds)

/-- The function `Parameter<DATE>::convert` (`parameters.hpp`, lines 193 to
199): `(sys_days(x)-epoch).count()`, returned as an `INTEGER`. -/
def Parameter_DATE.convert (x : year_month_day) : Int :=
  toInt32 (x.toSysDays - epochDays)

/-- The constructor `Parameter<DATE>(const DATE& x)` (`parameters.hpp`, lines
208 to 210): `BigEndian<INTEGER>(convert(x))`; the result is the storage of the
`BigEndian<INTEGER>`, which `data()` exposes. -/
def Parameter_DATE.mk_of (x : year_month_day) : List Byte :=
  BigEndian.write 4 (Parameter_DATE.convert x)

/-- The decoder `Results_base::field<DATE>` (`results.cpp`, lines 162 to 175) on
a field whose bytes are `start`: `epoch + days`, converted to a
`year_month_day` by the assignment to `value`. -/
def Results_base.field_DATE (start : Buffer) : Exec year_month_day := do
  let days ← BigEndian.deref 4 start 0
  pure (year_month_day.ofSysDays (epochDays + days))

/-- The address `::ffff:179.124.131.145` of the test (`tests/sql.cpp`, line
176), an IPv4 address mapped into IPv6. -/
def mappedAddress : Buffer :=
  [0, 0, 0, 0, 0, 0, 0, 0, 0, 0, 255, 255, 179, 124, 131, 145]

/-- A result of six columns whose column 0 is declared `int2` of size 2 and
whose every other column is declared `text`, of variable size. -/
def smallintThenText : PGresult :=
  ⟨fun column => if column = 0 then 21 else 25, fun column => if column = 0 then 2 else -1,
    .PGRES_TUPLES_OK, [], 6⟩

/-! ## Wide strings and UTF-8 -/

/-- The object `std::wstring_convert<std::codecvt_utf8<wchar_t>, wchar_t>` of
the standard library as the codec uses it: what its members `to_bytes` and
`from_bytes` return, `none` when they throw `std::range_error`. A wide string
is the list of the values of its `wchar_t`. -/
structure wstring_convert where
  to_bytes : List Nat → Option (List Byte)
  from_bytes : List Byte → Option (List Nat)

/-- Whether `c` is a Unicode scalar value: a code point up to U+10FFFF that
is no surrogate. -/
def isScalarValue (c : Nat) : Bool :=
  c < 0xD800 || (0xE000 ≤ c && c < 0x110000)

/-- The UTF-8 form that `codecvt_utf8<wchar_t>::out` of libstdc++ gives one
`wchar_t`: one to four bytes for a value up to `0x10FFFF`, the surrogates
among them, and the result `error` for every greater value. -/
def codecvt_utf8.encode (c : Nat) : Option (List Byte) :=
  if c < 0x80 then
    some [c]
  else if c < 0x800 then
    some [0xC0 + c / 64, 0x80 + c % 64]
  else if c < 0x10000 then
    some [0xE0 + c / 4096, 0x80 + c / 64 % 64, 0x80 + c % 64]
  else if c < 0x110000 then
    some [0xF0 + c / 262144, 0x80 + c / 4096 % 64, 0x80 + c / 64 % 64, 0x80 + c % 64]
  else
    none

/-- The conversion `codecvt_utf8<wchar_t>::out` over a whole wide string: the
UTF-8 forms of its characters one after the other, and a failure when one of
them has none. -/
def codecvt_utf8.do_out : List Nat → Option (List Byte)
  | [] => some []
  | c :: rest =>
    match codecvt_utf8.encode c, codecvt_utf8.do_out rest with
    | some first, some more => some (first ++ more)
    | _, _ => none

/-- Whether `b` is a continuation byte `10xxxxxx`. -/
def isContinuation (b : Byte) : Bool :=
  0x80 ≤ b && b < 0xC0

/-- What reading one character from a byte string comes to in libstdc++: a
character and the bytes after it, a sequence that the end of the string cuts
short, or a sequence that is no UTF-8. -/
inductive codecvt_utf8.Read where
  | character (c : Nat) (rest : List Byte)
  | incomplete
  | invalid
  deriving DecidableEq, Repr

/-- The character at the head of a byte string, as `codecvt_utf8<wchar_t>::in`
of libstdc++ reads it. The number of bytes the first byte announces is
compared with the bytes that are left before any of them is looked at, so a
string that ends early is `incomplete` whatever its bytes are. A stray
continuation byte, an overlong form and a value above U+10FFFF are `invalid`;
the surrogates are read like every other character. -/
def codecvt_utf8.decode : List Byte → codecvt_utf8.Read
  | [] => .incomplete
  | c1 :: rest =>
    if c1 < 0x80 then
      .character c1 rest
    else if c1 < 0xC2 then
      .invalid
    else if c1 < 0xE0 then
      match rest with
      | c2 :: rest =>
        if isContinuation c2 then
          .character ((c1 - 0xC0) * 64 + (c2 - 0x80)) rest
        else
          .invalid
      | _ => .incomplete
    else if c1 < 0xF0 then
      match rest with
      | c2 :: c3 :: rest =>
        if isContinuation c2 && isContinuation c3 && !(c1 == 0xE0 && c2 < 0xA0) then
          .character ((c1 - 0xE0) * 4096 + (c2 - 0x80) * 64 + (c3 - 0x80)) rest
        else
          .invalid
      | _ => .incomplete
    else if c1 < 0xF5 then
      match rest with
      | c2 :: c3 :: c4 :: rest =>
        if isContinuation c2 && isContinuation c3 && isContinuation c4
            && !(c1 == 0xF0 && c2 < 0x90) && !(c1 == 0xF4 && 0x90 ≤ c2) then
          .character
            ((c1 - 0xF0) * 262144 + (c2 - 0x80) * 4096 + (c3 - 0x80) * 64 + (c4 - 0x80)) rest
        else
          .invalid
      | _ => .incomplete
    else
      .invalid

/-- The loop of `wstring_convert::from_bytes` over `codecvt_utf8<wchar_t>::in`
in libstdc++: one character per step until the bytes are used up. An invalid
sequence makes the conversion fail; a sequence that the end of the string
cuts short ends it with the characters read so far, and without a failure.
Every step takes at least one byte, so a string of `fuel` bytes needs no more
than `fuel` steps. -/
def codecvt_utf8.do_in_loop : Nat → List Byte → Option (List Nat)
  | _, [] => some []
  | 0, _ :: _ => none
  | fuel + 1, c1 :: rest =>
    match codecvt_utf8.decode (c1 :: rest) with
    | .character c rest => (codecvt_utf8.do_in_loop fuel rest).map (fun more => c :: more)
    | .incomplete => some []
    | .invalid => none

/-- The conversion of a whole byte string by `from_bytes`: the characters
read, and a failure when an invalid sequence is met. -/
def codecvt_utf8.do_in (bytes : List Byte) : Option (List Nat) :=
  codecvt_utf8.do_in_loop bytes.length bytes

/-- The converter of the standard library as libstdc++ implements it: UTF-8 on
the byte side, one `wchar_t` of 32 bits per character on the wide side.
`to_bytes` throws on a value above `0x10FFFF` and on nothing else;
`from_bytes` throws on an invalid sequence and returns the characters before
a sequence that the end of the bytes cuts short. -/
def utf8_converter : wstring_convert :=
  ⟨codecvt_utf8.do_out, codecvt_utf8.do_in⟩

/-- The characters of a wide string literal of the test, one value each. -/
def wideOf (s : String) : List Nat := s.toList.map Char.toNat

/-- The string `seven` of the test (`tests/sql.cpp`, line 517). -/
def seven : List Nat := wideOf "インターネット"

/-- The array `properSeven` of the test (`tests/sql.cpp`, lines 518 to 522). -/
def properSeven : List Byte :=
  [0xe3, 0x82, 0xa4, 0xe3, 0x83, 0xb3, 0xe3, 0x82, 0xbf, 0xe3, 0x83,
   0xbc, 0xe3, 0x83, 0x8d, 0xe3, 0x83, 0x83, 0xe3, 0x83, 0x88]

/-! ## WTEXT and ARRAY<WTEXT> -/

/-- The class `Parameter<WTEXT>` (`parameters.hpp`, lines 140 to 158): a
`std::string`, filled through `convert`. -/
structure Parameter_WTEXT where
  /-- The characters of the inherited `std::string`. -/
  string : List Byte
  deriving DecidableEq, Repr

/-- The function `Parameter<WTEXT>::convert` (`parameters.cpp`, lines 38 to
50): the result of `converter.to_bytes(x)`, and `TEXT()` when it throws
`std::range_error`, which the function catches. -/
def Parameter_WTEXT.convert (converter : wstring_convert) (x : List Nat) : List Byte :=
  match converter.to_bytes x with
  | some bytes => bytes
  | none => []

/-- The constructor `Parameter<WTEXT>(const WTEXT& x)`: `TEXT(convert(x))`. -/
def Parameter_WTEXT.mk_of (converter : wstring_convert) (x : List Nat) : Parameter_WTEXT :=
  ⟨Parameter_WTEXT.convert converter x⟩

/-- The member `Parameter<WTEXT>::operator=(const WTEXT& x)`:
`assign(convert(x))`, which replaces the characters held so far. -/
def Parameter_WTEXT.assign (_p : Parameter_WTEXT) (converter : wstring_convert)
    (x : List Nat) : Parameter_WTEXT :=
  ⟨Parameter_WTEXT.convert converter x⟩

/-- The inherited member `std::string::data()`: the characters. -/
def Parameter_WTEXT.data (p : Parameter_WTEXT) : List Byte := p.string

/-- The inherited member `std::string::size()`. -/
def Parameter_WTEXT.size (p : Parameter_WTEXT) : Nat := p.string.length

/-- The decoder `Results_base::field<WTEXT>` (`results.cpp`, lines 123 to 145)
on a field whose bytes are `start`: `value = converter.from_bytes(start, end)`
with `end` at `PQgetlength(...)` bytes from `start`. When `from_bytes` throws,
the assignment does not take place and the handler only logs. -/
def Results_base.field_WTEXT (converter : wstring_convert) (start : Buffer)
    (value : List Nat) : List Nat :=
  match converter.from_bytes start with
  | some wide => wide
  | none => value

/-- The loop of `Parameter<ARRAY<WTEXT>>::convert` (`parameters.cpp`, lines
178 to 186) over the strings not yet converted. The `try` block encloses the
whole loop: when `to_bytes` throws, the loop is left and `result` holds what
was appended before. -/
def Parameter_ARRAY_WTEXT.convertLoop (converter : wstring_convert) :
    List (List Nat) → List (List Byte) → List (List Byte)
  | [], result => result
  | string :: rest, result =>
    match converter.to_bytes string with
    | some bytes => Parameter_ARRAY_WTEXT.convertLoop converter rest (result ++ [bytes])
    | none => result

/-- The function `Parameter<ARRAY<WTEXT>>::convert(const ARRAY<WTEXT>& x)`
(`parameters.cpp`, lines 172 to 188). -/
def Parameter_ARRAY_WTEXT.convert (converter : wstring_convert) (x : List (List Nat)) :
    List (List Byte) :=
  Parameter_ARRAY_WTEXT.convertLoop converter x []

/-- The constructor `Parameter<ARRAY<WTEXT>>(const ARRAY<WTEXT>& x)`
(`parameters.hpp`, lines 335 to 337): the base `Parameter<ARRAY<TEXT>>` built
from `convert(x)`. -/
def Parameter_ARRAY_WTEXT.mk_of (converter : wstring_convert) (heap : Nat → Byte)
    (x : List (List Nat)) : Exec ArrayParameter :=
  Parameter_ARRAY_TEXT.assign heap (Parameter_ARRAY_WTEXT.convert converter x)

/-- The loop of the `ARRAY<WTEXT>` decoder (`results.cpp`, lines 411 to 421):
`n` iterations remain, `ptr` is the offset of the read cursor in the field.
The range `[ptr, ptr+length)` handed to `from_bytes` has to lie in the field,
and a negative `length` makes no range at all. When `from_bytes` throws, the
handler that encloses the loop logs and the function returns with the elements
appended so far. -/
def Results_base.fieldLoop_ARRAY_WTEXT (converter : wstring_convert) (start : Buffer) :
    Nat → Nat → List (List Nat) → Exec (List (List Nat))
  | 0, _, value => pure value
  | n + 1, ptr, value => do
    let length ← BigEndian.deref ARRAY_SIZE.sizeof start ptr
    let ptr := ptr + ARRAY_SIZE.sizeof
    if length < 0 then
      throw Fault.outOfBounds
    else do
      let bytes ← load start ptr length.toNat
      match converter.from_bytes bytes with
      | some wide =>
        Results_base.fieldLoop_ARRAY_WTEXT converter start n (ptr + length.toNat)
          (value ++ [wide])
      | none => pure value

/-- The decoder `Results_base::field<WTEXT>(int, int, ARRAY<WTEXT>&)`
(`results.cpp`, lines 367 to 427) on a field whose bytes are `start`. The
call `value.reserve(size)` stands before the `try` block and throws
`std::length_error` on a negative `size`. -/
def Results_base.field_ARRAY_WTEXT (converter : wstring_convert) (start : Buffer)
    (value : List (List Nat)) : Exec (List (List Nat)) := do
  let ndim ← BigEndian.deref ARRAY_SIZE.sizeof start 0
  if ndim ≠ 1 then
    pure value
  else do
    let hasNull ← BigEndian.deref ARRAY_SIZE.sizeof start ARRAY_SIZE.sizeof
    if hasNull ≠ 0 then
      pure value
    else do
      let elementType ← BigEndian.deref ARRAY_SIZE.sizeof start (2 * ARRAY_SIZE.sizeof)
      if toUInt32 elementType ≠ Traits.oid .TEXT then
        pure value
      else do
        let size ← BigEndian.deref ARRAY_SIZE.sizeof start (3 * ARRAY_SIZE.sizeof)
        if size < 0 then
          throw Fault.lengthError
        else
          Results_base.fieldLoop_ARRAY_WTEXT converter start size.toNat
            (5 * ARRAY_SIZE.sizeof) []

/-- The array `ten` of the test (`tests/sql.cpp`, lines 560 to 564). -/
def ten : List (List Nat) := [wideOf "三体", wideOf "黑暗森林", wideOf "死神永生"]

/-- The array `properTen` of the test (`tests/sql.cpp`, lines 565 to 577). -/
def properTen : List Byte :=
  [0x00, 0x00, 0x00, 0x01,
   0x00, 0x00, 0x00, 0x00,
   0x00, 0x00, 0x00, 0x19,
   0x00, 0x00, 0x00, 0x03,
   0x00, 0x00, 0x00, 0x01,
   0x00, 0x00, 0x00, 6,
   0xe4, 0xb8, 0x89, 0xe4, 0xbd, 0x93,
   0x00, 0x00, 0x00, 12,
   0xe9, 0xbb, 0x91, 0xe6, 0x9a, 0x97, 0xe6, 0xa3, 0xae, 0xe6, 0x9e, 0x97,
   0x00, 0x00, 0x00, 12,
   0xe6, 0xad, 0xbb, 0xe7, 0xa5, 0x9e, 0xe6, 0xb0, 0xb8, 0xe7, 0x94, 0x9f]

/-! ## The elements a numeric array decoder keeps -/

/-- The bytes `[off, off+n)` of a field. -/
def slice (start : Buffer) (off n : Nat) : List Byte := (start.drop off).take n

/-- The element `i` of a numeric array field as the specification words it
(section 4.5, "Numeric arrays"): the value read big-endian from offset
`24 + i*(4+w)` when the length word at offset `20 + i*(4+w)` equals `w`, and
nothing otherwise. -/
def keptElement (T : Numeric) (start : Buffer) (i : Nat) : Option Int :=
  if BigEndian.read 4 (slice start (20 + i * (4 + T.sizeof)) 4) = T.sizeof then
    some (BigEndian.read T.sizeof (slice start (24 + i * (4 + T.sizeof)) T.sizeof))
  else
    none

/-- The elements of indices `0` to `n-1` that are kept, in increasing order
of index. -/
def keptElements (T : Numeric) (start : Buffer) (n : Nat) : List Int :=
  (List.range n).filterMap (keptElement T start)

/-- The word `k` of the header of an array field (section 6, "Array wire
layout"), read big-endian: `ndim` is word 0, `hasNull` word 1, `elementOid`
word 2 and `dim` word 3. -/
def headerWord (start : Buffer) (k : Nat) : Int :=
  BigEndian.read 4 (slice start (4 * k) 4)

/-- A field that holds an array header with `ndim = 2`: element type `int2`,
no element. -/
def twoDimensions : Buffer :=
  [0x00, 0x00, 0x00, 0x02,
   0x00, 0x00, 0x00, 0x00,
   0x00, 0x00, 0x00, 0x15,
   0x00, 0x00, 0x00, 0x00,
   0x00, 0x00, 0x00, 0x01]

/-- A field that holds a `TEXT` array header with the flag `hasNull` set. -/
def withNulls : Buffer :=
  [0x00, 0x00, 0x00, 0x01,
   0x00, 0x00, 0x00, 0x01,
   0x00, 0x00, 0x00, 0x19,
   0x00, 0x00, 0x00, 0x00,
   0x00, 0x00, 0x00, 0x01]

/-- A field that holds an `int2` array of three slots whose second length
word is 4 in place of 2. -/
def secondSlotMalformed : Buffer :=
  [0x00, 0x00, 0x00, 0x01,
   0x00, 0x00, 0x00, 0x00,
   0x00, 0x00, 0x00, 0x15,
   0x00, 0x00, 0x00, 0x03,
   0x00, 0x00, 0x00, 0x01,
   0x00, 0x00, 0x00, 0x02,
   0x00, 0x01,
   0x00, 0x00, 0x00, 0x04,
   0x00, 0x02,
   0x00, 0x00, 0x00, 0x02,
   0x00, 0x03]

/-! ## Status and schema of a result -/

/-- The enumeration `Status` of the result classes, with the enumerators that
`Results_base::status` and `statusString` of `results.cpp` name. -/
inductive Status where
  | noResult
  | emptyQuery
  | commandOk
  | rowsOk
  | copyOut
  | copyIn
  | badResponse
  | nonfatalError
  | copyBoth
  | singleTuple
  | fatalError
  deriving DecidableEq, Repr

/-- The static map `statuses` of `Results_base::status` (`results.cpp`, lines
433 to 443), entry by entry. -/
def Results_base.statuses : List (ExecStatusType × Status) :=
  [(.PGRES_EMPTY_QUERY, .emptyQuery),
   (.PGRES_COMMAND_OK, .commandOk),
   (.PGRES_TUPLES_OK, .rowsOk),
   (.PGRES_COPY_OUT, .copyOut),
   (.PGRES_COPY_IN, .copyIn),
   (.PGRES_BAD_RESPONSE, .badResponse),
   (.PGRES_NONFATAL_ERROR, .nonfatalError),
   (.PGRES_COPY_BOTH, .copyBoth),
   (.PGRES_SINGLE_TUPLE, .singleTuple)]

/-- The member `Results_base::status()` (`results.cpp`, lines 431 to 455) on
the handle `m_res`, which is null or points to a result. -/
def Results_base.status (m_res : Option PGresult) : Status :=
  match m_res with
  | none => .noResult
  | some result =>
    match Results_base.statuses.lookup result.PQresultStatus with
    | none => .fatalError
    | some status => status

/-- The member `Results_base::verifyColumn<T>(int column)` (`results.cpp`,
lines 42 to 46): `Traits<T>::verifyType(m_res, column)`. -/
def Results_base.verifyColumn (T : SqlType) (m_res : PGresult) (column : Int) : Bool :=
  Traits.verifyType T m_res column

/-- The member `Results_base::columns()` (`results.cpp`, lines 486 to 489):
`PQnfields(m_res)`. -/
def Results_base.columns (m_res : PGresult) : Int :=
  m_res.PQnfields

/-- The constructor `Parameter<ARRAY<Numeric>>(const unsigned size)`
(`parameters.hpp`, lines 259 to 262): `resize(size)` and nothing more. -/
def Parameter_ARRAY.mk_of_size (T : Numeric) (heap : Nat → Byte) (size : Nat) :
    Exec ArrayParameter :=
  Parameter_ARRAY.resize T heap size

/-- The offset in `m_data` of the object that `operator[](const unsigned i)`
designates (`parameters.hpp`, lines 264 to 269): `6*sizeof(ARRAY_SIZE) +
i*(sizeof(ARRAY_SIZE) + sizeof(Numeric))`, with `i` converted to `unsigned` and
the arithmetic in `size_t`. -/
def Parameter_ARRAY.slot (T : Numeric) (i : Nat) : Nat :=
  6 * ARRAY_SIZE.sizeof + (i % 2 ^ 32) * (ARRAY_SIZE.sizeof + T.sizeof)

/-- The expression `p[i] = v`: the assignment through the reference
`BigEndian<Numeric>&` that `operator[]` returns. -/
def Parameter_ARRAY.set (T : Numeric) (p : ArrayParameter) (i : Nat) (v : Int) :
    Exec ArrayParameter := do
  let m_data ← BigEndian.assign T.sizeof p.m_data (Parameter_ARRAY.slot T i) v
  pure ⟨p.m_size, m_data⟩

/-- The expression `p[i]` converted to `Numeric`. -/
def Parameter_ARRAY.get (T : Numeric) (p : ArrayParameter) (i : Nat) : Exec Int :=
  BigEndian.deref T.sizeof p.m_data (Parameter_ARRAY.slot T i)

/-- The stores `p[i] = x[i]`, `p[i+1] = x[i+1]` and so on for the values of
`x` in order, as the holder of a parameter built from a size performs them. -/
def Parameter_ARRAY.fill (T : Numeric) : List Int → Nat → ArrayParameter → Exec ArrayParameter
  | [], _, p => pure p
  | v :: rest, i, p => do
    let p ← Parameter_ARRAY.set T p i v
    Parameter_ARRAY.fill T rest (i + 1) p

/-- The loop of `Parameter<ARRAY<TEXT>>::operator[]` (`parameters.cpp`, lines
162 to 169): `i` is the counter, `remaining` the distance `x - i` that is left
to it, `ptr` the offset of the read cursor in `m_data`. The result is the
string and the number of length words read. The constructor
`TEXT(ptr, length)` takes `length` as `size_t` and throws `std::length_error`
when it was negative; `ptr += length` with a negative `length` moves the
cursor back. -/
def Parameter_ARRAY_TEXT.indexLoop (m_data : Buffer) :
    Nat → Nat → Nat → Exec (List Byte × Nat)
  | 0, i, ptr => do
    let length ← BigEndian.deref ARRAY_SIZE.sizeof m_data ptr
    let ptr := ptr + ARRAY_SIZE.sizeof
    if length < 0 then
      throw Fault.lengthError
    else do
      let string ← load m_data ptr length.toNat
      pure (string, i + 1)
  | remaining + 1, i, ptr => do
    let length ← BigEndian.deref ARRAY_SIZE.sizeof m_data ptr
    let ptr := ptr + ARRAY_SIZE.sizeof
    if (ptr : Int) + length < 0 then
      throw Fault.outOfBounds
    else
      Parameter_ARRAY_TEXT.indexLoop m_data remaining (i + 1) ((ptr : Int) + length).toNat

/-- The member `Parameter<ARRAY<TEXT>>::operator[](const unsigned x)`
(`parameters.cpp`, lines 158 to 170): the string of index `x` and the number
of length words read on the way. -/
def Parameter_ARRAY_TEXT.index (p : ArrayParameter) (x : Nat) : Exec (List Byte × Nat) :=
  Parameter_ARRAY_TEXT.indexLoop p.m_data (x % 2 ^ 32) 0 (5 * ARRAY_SIZE.sizeof)

/-! ## The stores of the TEXT array encoder -/

/-- The second loop of `Parameter<ARRAY<TEXT>>::assign` as
`Parameter_ARRAY_TEXT.assignLoop` runs it, with the cursor `ptr` it ends on
and the list of its stores, each as the offset and the number of bytes
written. -/
def Parameter_ARRAY_TEXT.tracedLoop :
    List (List Byte) → Nat → Buffer → List (Nat × Nat) →
      Exec (Buffer × Nat × List (Nat × Nat))
  | [], ptr, m_data, stores => pure (m_data, ptr, stores)
  | string :: rest, ptr, m_data, stores => do
    let m_data ← BigEndian.assign ARRAY_SIZE.sizeof m_data ptr string.length
    let m_data ← store m_data (ptr + ARRAY_SIZE.sizeof) string
    Parameter_ARRAY_TEXT.tracedLoop rest (ptr + ARRAY_SIZE.sizeof + string.length) m_data
      (stores ++ [(ptr, ARRAY_SIZE.sizeof), (ptr + ARRAY_SIZE.sizeof, string.length)])

/-- The member `Parameter<ARRAY<TEXT>>::assign` as
`Parameter_ARRAY_TEXT.assign` runs it, with the final cursor and the list of
the stores: the five header words first, then a length word and a string per
element. -/
def Parameter_ARRAY_TEXT.tracedAssign (heap : Nat → Byte) (x : List (List Byte)) :
    Exec (ArrayParameter × Nat × List (Nat × Nat)) := do
  let dataSize := Parameter_ARRAY_TEXT.dataSize x
  let m_size := (ARRAY_SIZE.sizeof * (5 + x.length) + dataSize) % 2 ^ 32
  let m_data := alloc heap m_size
  let m_data ← writeHeader m_data (Traits.oid .TEXT) x.length
  let header := (List.range 5).map
    (fun k => (k * ARRAY_SIZE.sizeof, ARRAY_SIZE.sizeof))
  let (m_data, ptr, stores) ←
    Parameter_ARRAY_TEXT.tracedLoop x (5 * ARRAY_SIZE.sizeof) m_data header
  pure (⟨m_size, m_data⟩, ptr, stores)

/-- Whether the store `w`, an offset and a number of bytes, writes the byte
of offset `k`. -/
def writes (k : Nat) (w : Nat × Nat) : Bool :=
  decide (w.1 ≤ k ∧ k < w.1 + w.2)

/-- Whether the stores follow one another without gap or overlap from the
offset `first` up to the offset `last`. -/
def contiguous : List (Nat × Nat) → Nat → Nat → Bool
  | [], first, last => decide (first = last)
  | w :: rest, first, last => decide (w.1 = first) && contiguous rest (first + w.2) last

/-! ## The count of affected rows -/

/-- The function `isspace` of the C library in the "C" locale. -/
def isspace (c : Byte) : Bool :=
  c == 0x20 || (0x09 ≤ c && c ≤ 0x0D)

/-- The digits that `atoi` consumes, accumulated in base ten: the loop ends at
the first character that is no decimal digit. -/
def atoi.digits : List Byte → Nat → Nat
  | [], acc => acc
  | c :: rest, acc =>
    if 0x30 ≤ c ∧ c ≤ 0x39 then
      atoi.digits rest (acc * 10 + (c - 0x30))
    else
      acc

/-- The number `atoi` reads after the white space: an optional sign and the
digits. -/
def atoi.number : List Byte → Int
  | 0x2D :: rest => -(atoi.digits rest 0 : Int)
  | 0x2B :: rest => (atoi.digits rest 0 : Int)
  | nptr => (atoi.digits nptr 0 : Int)

/-- The function `atoi` of the C library on the characters of a string: white
space is skipped, then a number is read; the behaviour is undefined when the
number is no value of `int`. -/
def atoi (nptr : List Byte) : Exec Int :=
  checked 4 (atoi.number (nptr.dropWhile isspace))

/-- The member `Results_base::affectedRows()` (`results.cpp`, lines 457 to
460): `std::atoi(PQcmdTuples(...))`, converted to the `unsigned` return
type. -/
def Results_base.affectedRows (m_res : PGresult) : Exec Nat := do
  let count ← atoi m_res.PQcmdTuples
  pure (toUInt32 count)

/-- The decimal numeral of `n` in ASCII: its digits from the most significant
on, without a leading zero, and the one digit `0` for zero. -/
def decimal (n : Nat) : List Byte :=
  if n = 0 then [0x30] else (Nat.digits 10 n).reverse.map (fun d => 0x30 + d)

/-- A result whose command tag counts one row, as the `DELETE` of the test
yields it: no column, status `PGRES_COMMAND_OK`. -/
def deleteResult : PGresult :=
  ⟨fun _ => 0, fun _ => 0, .PGRES_COMMAND_OK, [0x31], 0⟩

/-! ## Fields that a decoder cannot take -/

/-- Whether the `n` elements of a text array field that start at offset `ptr`
lie in the field: each has its length word, the word is not negative, and the
bytes it counts are there. -/
def framed (start : Buffer) : Nat → Nat → Bool
  | 0, _ => true
  | n + 1, ptr =>
    decide (ptr + 4 ≤ start.length)
      && decide (0 ≤ BigEndian.read 4 (slice start ptr 4))
      && decide (ptr + 4 + (BigEndian.read 4 (slice start ptr 4)).toNat ≤ start.length)
      && framed start n (ptr + 4 + (BigEndian.read 4 (slice start ptr 4)).toNat)

/-- A field that holds a valid `int2` array header with `dim = -1`. -/
def negativeDim : Buffer :=
  [0x00, 0x00, 0x00, 0x01,
   0x00, 0x00, 0x00, 0x00,
   0x00, 0x00, 0x00, 0x15,
   0xff, 0xff, 0xff, 0xff,
   0x00, 0x00, 0x00, 0x01]

/-- A field that holds a valid `text` array header with `dim = -1`. -/
def negativeDimText : Buffer :=
  [0x00, 0x00, 0x00, 0x01,
   0x00, 0x00, 0x00, 0x00,
   0x00, 0x00, 0x00, 0x19,
   0xff, 0xff, 0xff, 0xff,
   0x00, 0x00, 0x00, 0x01]

/-- A field that holds a valid `text` array header with `dim = 1` and one
element whose length word is -2. -/
def negativeLength : Buffer :=
  [0x00, 0x00, 0x00, 0x01,
   0x00, 0x00, 0x00, 0x00,
   0x00, 0x00, 0x00, 0x19,
   0x00, 0x00, 0x00, 0x01,
   0x00, 0x00, 0x00, 0x01,
   0xff, 0xff, 0xff, 0xfe]

/-- The field `properEight` with the lower bound 0 in place of 1. -/
def eightFromZero : Buffer := properEight.set 19 0

/-- The field `properNine` with the lower bound 7 in place of 1. -/
def nineFromSeven : Buffer := properNine.set 19 7

/-! ## Lemmas on the byte-order primitive and on memory -/

theorem length_beBytes (w n : Nat) : (beBytes w n).length = w := by
  induction w with
  | zero => rfl
  | succ w ih => simp [beBytes, ih]

theorem foldl_beValue (bs : List Byte) (acc : Nat) :
    bs.foldl (fun acc b => acc * 256 + b) acc = acc * 256 ^ bs.length + beValue bs := by
  induction bs generalizing acc with
  | nil => simp [beValue]
  | cons b bs ih =>
    simp only [List.foldl_cons, List.length_cons, beValue]
    rw [ih, ih (0 * 256 + b)]
    ring

theorem beValue_cons (b : Byte) (bs : List Byte) :
    beValue (b :: bs) = b * 256 ^ bs.length + beValue bs := by
  simp only [beValue, List.foldl_cons]
  rw [foldl_beValue]
  simp [beValue]

theorem beValue_beBytes (w n : Nat) : beValue (beBytes w n) = n % 256 ^ w := by
  induction w with
  | zero => simp [beBytes, beValue, Nat.mod_one]
  | succ w ih =>
    rw [beBytes, beValue_cons, ih, length_beBytes, Nat.mod_pow_succ]
    ring

theorem toUnsigned_lt (w : Nat) (v : Int) : toUnsigned w v < 2 ^ (8 * w) := by
  unfold toUnsigned
  have hpos : (0 : Int) < 2 ^ (8 * w) := by positivity
  have h1 := Int.emod_lt_of_pos v hpos
  have h0 := Int.emod_nonneg v (ne_of_gt hpos)
  zify
  rw [Int.toNat_of_nonneg h0]
  exact_mod_cast h1

theorem toSigned_toUnsigned (w : Nat) (hw : 0 < w) (v : Int)
    (hlo : -(2 ^ (8 * w - 1)) ≤ v) (hhi : v < 2 ^ (8 * w - 1)) :
    toSigned w (toUnsigned w v) = v := by
  have hM : (2 : Int) ^ (8 * w) = 2 * 2 ^ (8 * w - 1) := by
    rw [← pow_succ']
    congr 1
    omega
  have hMn : (2 : Nat) ^ (8 * w) = 2 * 2 ^ (8 * w - 1) := by
    rw [← pow_succ']
    congr 1
    omega
  have hpos : (0 : Int) < 2 ^ (8 * w - 1) := by positivity
  have hlt := toUnsigned_lt w v
  have hu : ((toUnsigned w v : Nat) : Int) = v % 2 ^ (8 * w) := by
    unfold toUnsigned
    exact Int.toNat_of_nonneg (Int.emod_nonneg v (by positivity))
  unfold toSigned
  rw [Nat.mod_eq_of_lt hlt]
  by_cases hv : 0 ≤ v
  · have hmod : v % 2 ^ (8 * w) = v := Int.emod_eq_of_lt hv (by omega)
    have hlt2 : toUnsigned w v < 2 ^ (8 * w - 1) := by
      zify
      rw [hu, hmod]
      exact hhi
    rw [if_pos hlt2, hu, hmod]
  · have hmod : v % 2 ^ (8 * w) = v + 2 ^ (8 * w) := by
      rw [← Int.add_emod_self]
      exact Int.emod_eq_of_lt (by omega) (by omega)
    have hge : ¬ toUnsigned w v < 2 ^ (8 * w - 1) := by
      zify
      rw [hu, hmod]
      omega
    rw [if_neg hge, hu, hmod]
    ring
theorem length_write (w : Nat) (v : Int) : (BigEndian.write w v).length = w := by
  simp [BigEndian.write, length_beBytes]

theorem read_write (w : Nat) (hw : 0 < w) (v : Int)
    (hlo : -(2 ^ (8 * w - 1)) ≤ v) (hhi : v < 2 ^ (8 * w - 1)) :
    BigEndian.read w (BigEndian.write w v) = v := by
  unfold BigEndian.read BigEndian.write
  rw [beValue_beBytes]
  have h256 : (256 : Nat) ^ w = 2 ^ (8 * w) := by
    rw [pow_mul]
    norm_num
  rw [h256, Nat.mod_eq_of_lt (toUnsigned_lt w v)]
  exact toSigned_toUnsigned w hw v hlo hhi

theorem store_at (pre suf bs : List Byte) (off : Nat) (hoff : off = pre.length)
    (h : bs.length ≤ suf.length) :
    store (pre ++ suf) off bs = .ok (pre ++ bs ++ suf.drop bs.length) := by
  subst hoff
  unfold store
  rw [if_pos (by simp only [List.length_append]; omega)]
  congr 2
  · simp
  · rw [List.drop_append_eq_append_drop]
    simp

theorem load_at (pre bs suf : List Byte) (off n : Nat) (hoff : off = pre.length)
    (hn : n = bs.length) :
    load (pre ++ bs ++ suf) off n = .ok bs := by
  subst hoff hn
  unfold load
  rw [if_pos (by simp only [List.length_append]; omega)]
  congr 1
  simp [List.append_assoc]
theorem ok_bind {α β : Type} (a : α) (f : α → Exec β) :
    (Except.ok a >>= f) = f a := rfl

theorem writeHeader_ok (buf : Buffer) (elementType dim : Int) (h : 20 ≤ buf.length) :
    writeHeader buf elementType dim = .ok (wireHeader elementType dim ++ buf.drop 20) := by
  unfold writeHeader BigEndian.assign ARRAY_SIZE.sizeof
  have e1 := store_at [] buf (BigEndian.write 4 1) (0 * 4) rfl
    (by rw [length_write]; omega)
  rw [List.nil_append] at e1
  rw [e1, ok_bind]
  have e2 := store_at ([] ++ BigEndian.write 4 1) (buf.drop (BigEndian.write 4 1).length)
    (BigEndian.write 4 0) (1 * 4) (by simp [length_write])
    (by simp only [length_write, List.length_drop]; omega)
  rw [e2, ok_bind]
  have e3 := store_at ([] ++ BigEndian.write 4 1 ++ BigEndian.write 4 0)
    ((buf.drop (BigEndian.write 4 1).length).drop (BigEndian.write 4 0).length)
    (BigEndian.write 4 elementType) (2 * 4) (by simp [length_write])
    (by simp only [length_write, List.length_drop]; omega)
  rw [e3, ok_bind]
  have e4 := store_at ([] ++ BigEndian.write 4 1 ++ BigEndian.write 4 0
      ++ BigEndian.write 4 elementType)
    (((buf.drop (BigEndian.write 4 1).length).drop (BigEndian.write 4 0).length).drop
      (BigEndian.write 4 elementType).length)
    (BigEndian.write 4 dim) (3 * 4) (by simp [length_write])
    (by simp only [length_write, List.length_drop]; omega)
  rw [e4, ok_bind]
  have e5 := store_at ([] ++ BigEndian.write 4 1 ++ BigEndian.write 4 0
      ++ BigEndian.write 4 elementType ++ BigEndian.write 4 dim)
    ((((buf.drop (BigEndian.write 4 1).length).drop (BigEndian.write 4 0).length).drop
      (BigEndian.write 4 elementType).length).drop (BigEndian.write 4 dim).length)
    (BigEndian.write 4 1) (4 * 4) (by simp [length_write])
    (by simp only [length_write, List.length_drop]; omega)
  rw [e5]
  simp only [length_write, List.drop_drop, List.nil_append, wireHeader]

theorem length_wireHeader (e d : Int) : (wireHeader e d).length = 20 := by
  simp [wireHeader, length_write]

theorem length_wireNumericElements (T : Numeric) (xs : List Int) :
    (wireNumericElements T xs).length = xs.length * (4 + T.sizeof) := by
  induction xs with
  | nil => simp [wireNumericElements]
  | cons v rest ih =>
    simp only [wireNumericElements, List.length_append, length_write, ih, List.length_cons]
    ring

theorem assignLoop_ok (T : Numeric) (xs : List Int) :
    ∀ (i : Nat) (pre suf : List Byte),
      pre.length = 20 + i * (4 + T.sizeof) →
      suf.length = xs.length * (4 + T.sizeof) →
      Parameter_ARRAY.assignLoop T xs i (pre ++ suf) = .ok (pre ++ wireNumericElements T xs) := by
  induction xs with
  | nil =>
    intro i pre suf _ hsuf
    have : suf = [] := List.eq_nil_of_length_eq_zero (by simpa using hsuf)
    subst this
    simp [Parameter_ARRAY.assignLoop, wireNumericElements, pure, Except.pure]
  | cons v rest ih =>
    intro i pre suf hpre hsuf
    rw [List.length_cons] at hsuf
    unfold Parameter_ARRAY.assignLoop BigEndian.assign ARRAY_SIZE.sizeof
    have e1 := store_at pre suf (BigEndian.write 4 T.sizeof)
      (5 * 4 + i * (4 + T.sizeof)) (by omega)
      (by rw [length_write, hsuf]; nlinarith)
    simp only []
    rw [e1, ok_bind]
    have e2 := store_at (pre ++ BigEndian.write 4 T.sizeof)
      (suf.drop (BigEndian.write 4 T.sizeof).length) (BigEndian.write T.sizeof v)
      (5 * 4 + i * (4 + T.sizeof) + 4)
      (by rw [List.length_append, length_write]; omega)
      (by simp only [length_write, List.length_drop, hsuf]
          have : (rest.length + 1) * (4 + T.sizeof) = rest.length * (4 + T.sizeof) + 4 + T.sizeof := by ring
          omega)
    rw [e2, ok_bind]
    have e3 := ih (i + 1) (pre ++ BigEndian.write 4 T.sizeof ++ BigEndian.write T.sizeof v)
      ((suf.drop (BigEndian.write 4 T.sizeof).length).drop (BigEndian.write T.sizeof v).length)
      (by simp only [List.length_append, length_write, hpre]; ring)
      (by simp only [length_write, List.length_drop, hsuf]
          have : (rest.length + 1) * (4 + T.sizeof) = rest.length * (4 + T.sizeof) + 4 + T.sizeof := by ring
          omega)
    rw [e3]
    simp [wireNumericElements, List.append_assoc]
theorem length_alloc (heap : Nat → Byte) (n : Nat) : (alloc heap n).length = n := by
  simp [alloc]

theorem assign_ARRAY_ok (T : Numeric) (heap : Nat → Byte) (xs : List Int)
    (h : 20 + xs.length * (4 + T.sizeof) < 2 ^ 32) :
    Parameter_ARRAY.assign T heap xs
      = .ok ⟨20 + xs.length * (4 + T.sizeof),
          wireHeader (Traits.oid T.toType) xs.length ++ wireNumericElements T xs⟩ := by
  have hle : xs.length * 4 ≤ xs.length * (4 + T.sizeof) :=
    Nat.mul_le_mul_left _ (by omega)
  have hN : xs.length % 2 ^ 32 = xs.length := Nat.mod_eq_of_lt (by omega)
  have h5 : (5 + xs.length) % 2 ^ 32 = 5 + xs.length := Nat.mod_eq_of_lt (by omega)
  have hsz : (4 * (5 + xs.length) + xs.length * T.sizeof) % 2 ^ 32
      = 20 + xs.length * (4 + T.sizeof) := by
    rw [Nat.mod_eq_of_lt (by nlinarith)]
    ring
  unfold Parameter_ARRAY.assign Parameter_ARRAY.resize ARRAY_SIZE.sizeof
  simp only [hN, h5, hsz]
  rw [writeHeader_ok _ _ _ (by rw [length_alloc]; omega), ok_bind]
  simp only [pure, Except.pure, ok_bind]
  rw [assignLoop_ok T xs 0 _ _ (by rw [length_wireHeader]; omega)
    (by rw [List.length_drop, length_alloc]; omega), ok_bind]

theorem deref_at (w : Nat) (pre bs suf : List Byte) (off : Nat) (start : Buffer)
    (hstart : start = pre ++ bs ++ suf) (hoff : off = pre.length) (hw : w = bs.length) :
    BigEndian.deref w start off = .ok (BigEndian.read w bs) := by
  unfold BigEndian.deref
  rw [hstart, load_at pre bs suf off w hoff hw, ok_bind]
  rfl

theorem fieldLoop_ARRAY_ok (T : Numeric) (xs : List Int) :
    ∀ (i : Nat) (pre : List Byte) (value : List Int) (start : Buffer),
      start = pre ++ wireNumericElements T xs →
      pre.length = 20 + i * (4 + T.sizeof) →
      (∀ v ∈ xs, T.InRange v) →
      Results_base.fieldLoop_ARRAY T start xs.length i value = .ok (value ++ xs) := by
  have hsz : BigEndian.read 4 (BigEndian.write 4 T.sizeof) = T.sizeof := by
    cases T <;> decide
  have hpos : 0 < T.sizeof := by cases T <;> decide
  induction xs with
  | nil =>
    intro i pre value start _ _ _
    simp [Results_base.fieldLoop_ARRAY, pure, Except.pure]
  | cons v rest ih =>
    intro i pre value start hstart hpre hrange
    have hv : T.InRange v := hrange v (List.mem_cons_self v rest)
    rw [List.length_cons]
    unfold Results_base.fieldLoop_ARRAY ARRAY_SIZE.sizeof
    rw [deref_at 4 pre (BigEndian.write 4 T.sizeof)
      (BigEndian.write T.sizeof v ++ wireNumericElements T rest) _ start
      (by rw [hstart, wireNumericElements]; simp only [List.append_assoc])
      (by omega) (by rw [length_write]), ok_bind, hsz]
    rw [if_neg (by simp)]
    rw [deref_at T.sizeof (pre ++ BigEndian.write 4 T.sizeof) (BigEndian.write T.sizeof v)
      (wireNumericElements T rest) _ start
      (by rw [hstart, wireNumericElements]; simp only [List.append_assoc])
      (by rw [List.length_append, length_write]; omega) (by rw [length_write]), ok_bind,
      read_write T.sizeof hpos v hv.1 hv.2]
    rw [ih (i + 1) (pre ++ BigEndian.write 4 T.sizeof ++ BigEndian.write T.sizeof v)
      (value ++ [v]) start
      (by rw [hstart, wireNumericElements]; simp only [List.append_assoc])
      (by simp only [List.length_append, length_write, hpre]; ring)
      (fun u hu => hrange u (List.mem_cons_of_mem v hu))]
    simp

theorem field_ARRAY_ok (T : Numeric) (xs value : List Int)
    (hN : xs.length < 2 ^ 31) (hrange : ∀ v ∈ xs, T.InRange v) :
    Results_base.field_ARRAY T
      (wireHeader (Traits.oid T.toType) xs.length ++ wireNumericElements T xs) value
      = .ok xs := by
  have h1 : BigEndian.read 4 (BigEndian.write 4 1) = 1 := by decide
  have h0 : BigEndian.read 4 (BigEndian.write 4 0) = 0 := by decide
  have he : toUInt32 (BigEndian.read 4 (BigEndian.write 4 (Traits.oid T.toType)))
      = Traits.oid T.toType := by
    cases T <;> decide
  have hd : BigEndian.read 4 (BigEndian.write 4 (xs.length : Int)) = xs.length :=
    read_write 4 (by omega) _ (by norm_num; omega) (by norm_num; omega)
  unfold Results_base.field_ARRAY ARRAY_SIZE.sizeof
  rw [deref_at 4 [] (BigEndian.write 4 1) _ (0 * 4) _
    (by simp only [wireHeader, List.append_assoc, List.nil_append]; rfl) rfl
    (by rw [length_write]), ok_bind, h1, if_neg (by simp)]
  rw [deref_at 4 (BigEndian.write 4 1) (BigEndian.write 4 0) _ (1 * 4) _
    (by simp only [wireHeader, List.append_assoc]; rfl) (by rw [length_write])
    (by rw [length_write]), ok_bind, h0, if_neg (by simp)]
  rw [deref_at 4 (BigEndian.write 4 1 ++ BigEndian.write 4 0)
    (BigEndian.write 4 (Traits.oid T.toType)) _ (2 * 4) _
    (by simp only [wireHeader, List.append_assoc]; rfl)
    (by simp [length_write]) (by rw [length_write]), ok_bind, if_neg (by rw [he]; simp)]
  rw [deref_at 4 (BigEndian.write 4 1 ++ BigEndian.write 4 0
      ++ BigEndian.write 4 (Traits.oid T.toType))
    (BigEndian.write 4 (xs.length : Int)) _ (3 * 4) _
    (by simp only [wireHeader, List.append_assoc]; rfl)
    (by simp [length_write]) (by rw [length_write]), ok_bind, hd,
    if_neg (by omega), Int.toNat_ofNat]
  rw [fieldLoop_ARRAY_ok T xs 0 (wireHeader (Traits.oid T.toType) xs.length) [] _ rfl
    (by rw [length_wireHeader]; omega) hrange]
  simp
theorem foldl_dataSize (x : List (List Byte)) :
    ∀ acc : Nat, acc + totalLength x < 2 ^ 32 →
      x.foldl (fun dataSize string => (dataSize + string.length) % 2 ^ 32) acc
        = acc + totalLength x := by
  induction x with
  | nil => intro acc _; simp [totalLength]
  | cons s rest ih =>
    intro acc h
    rw [totalLength] at h
    rw [List.foldl_cons, Nat.mod_eq_of_lt (by omega), ih _ (by omega), totalLength]
    omega

theorem dataSize_eq (x : List (List Byte)) (h : totalLength x < 2 ^ 32) :
    Parameter_ARRAY_TEXT.dataSize x = totalLength x := by
  unfold Parameter_ARRAY_TEXT.dataSize
  rw [foldl_dataSize x 0 (by omega)]
  omega

theorem length_wireTextElements (x : List (List Byte)) :
    (wireTextElements x).length = 4 * x.length + totalLength x := by
  induction x with
  | nil => simp [wireTextElements, totalLength]
  | cons s rest ih =>
    simp only [wireTextElements, List.length_append, length_write, ih, List.length_cons,
      totalLength]
    omega

theorem assignLoop_TEXT_ok (xs : List (List Byte)) :
    ∀ (ptr : Nat) (pre suf : List Byte),
      pre.length = ptr →
      suf.length = (wireTextElements xs).length →
      Parameter_ARRAY_TEXT.assignLoop xs ptr (pre ++ suf)
        = .ok (pre ++ wireTextElements xs) := by
  induction xs with
  | nil =>
    intro ptr pre suf _ hsuf
    have : suf = [] := List.eq_nil_of_length_eq_zero (by simpa [wireTextElements] using hsuf)
    subst this
    simp [Parameter_ARRAY_TEXT.assignLoop, wireTextElements, pure, Except.pure]
  | cons s rest ih =>
    intro ptr pre suf hpre hsuf
    simp only [wireTextElements, List.length_append, length_write] at hsuf
    unfold Parameter_ARRAY_TEXT.assignLoop BigEndian.assign ARRAY_SIZE.sizeof
    have e1 := store_at pre suf (BigEndian.write 4 s.length) ptr hpre.symm
      (by rw [length_write]; omega)
    rw [e1, ok_bind]
    have e2 := store_at (pre ++ BigEndian.write 4 s.length)
      (suf.drop (BigEndian.write 4 s.length).length) s (ptr + 4)
      (by rw [List.length_append, length_write]; omega)
      (by simp only [length_write, List.length_drop]; omega)
    rw [e2, ok_bind]
    have e3 := ih (ptr + 4 + s.length) (pre ++ BigEndian.write 4 s.length ++ s)
      ((suf.drop (BigEndian.write 4 s.length).length).drop s.length)
      (by simp only [List.length_append, length_write]; omega)
      (by simp only [length_write, List.length_drop]; omega)
    rw [e3]
    simp [wireTextElements, List.append_assoc]

theorem assign_ARRAY_TEXT_ok (heap : Nat → Byte) (xs : List (List Byte))
    (h : 20 + 4 * xs.length + totalLength xs < 2 ^ 32) :
    Parameter_ARRAY_TEXT.assign heap xs
      = .ok ⟨20 + 4 * xs.length + totalLength xs,
          wireHeader (Traits.oid .TEXT) xs.length ++ wireTextElements xs⟩ := by
  have hsz : (4 * (5 + xs.length) + totalLength xs) % 2 ^ 32
      = 20 + 4 * xs.length + totalLength xs := by
    rw [Nat.mod_eq_of_lt (by omega)]
    omega
  unfold Parameter_ARRAY_TEXT.assign ARRAY_SIZE.sizeof
  simp only [dataSize_eq xs (by omega), hsz]
  rw [writeHeader_ok _ _ _ (by rw [length_alloc]; omega), ok_bind]
  rw [assignLoop_TEXT_ok xs (5 * 4) _ _ (by rw [length_wireHeader])
    (by rw [List.length_drop, length_alloc, length_wireTextElements]; omega), ok_bind]
  rfl

theorem fieldLoop_ARRAY_TEXT_ok (xs : List (List Byte)) :
    ∀ (ptr : Nat) (pre : List Byte) (value : List (List Byte)) (start : Buffer),
      start = pre ++ wireTextElements xs →
      pre.length = ptr →
      (∀ s ∈ xs, s.length < 2 ^ 31) →
      Results_base.fieldLoop_ARRAY_TEXT start xs.length ptr value = .ok (value ++ xs) := by
  induction xs with
  | nil =>
    intro ptr pre value start _ _ _
    simp [Results_base.fieldLoop_ARRAY_TEXT, pure, Except.pure]
  | cons s rest ih =>
    intro ptr pre value start hstart hpre hlen
    have hs : s.length < 2 ^ 31 := hlen s (List.mem_cons_self s rest)
    have hrw : BigEndian.read 4 (BigEndian.write 4 (s.length : Int)) = s.length :=
      read_write 4 (by omega) _ (by norm_num; omega) (by norm_num; omega)
    rw [List.length_cons]
    unfold Results_base.fieldLoop_ARRAY_TEXT ARRAY_SIZE.sizeof
    rw [deref_at 4 pre (BigEndian.write 4 s.length) (s ++ wireTextElements rest) ptr start
      (by rw [hstart, wireTextElements]; simp only [List.append_assoc])
      hpre.symm (by rw [length_write]), ok_bind, hrw]
    simp only []
    rw [if_neg (by omega), Int.toNat_ofNat]
    rw [hstart, wireTextElements]
    rw [show pre ++ (BigEndian.write 4 (s.length : Int) ++ s ++ wireTextElements rest)
        = (pre ++ BigEndian.write 4 (s.length : Int)) ++ s ++ wireTextElements rest by
      simp only [List.append_assoc]]
    rw [load_at (pre ++ BigEndian.write 4 (s.length : Int)) s (wireTextElements rest)
      (ptr + 4) s.length (by rw [List.length_append, length_write]; omega) rfl, ok_bind]
    rw [ih (ptr + 4 + s.length) (pre ++ BigEndian.write 4 (s.length : Int) ++ s)
      (value ++ [s]) _ rfl
      (by simp only [List.length_append, length_write]; omega)
      (fun u hu => hlen u (List.mem_cons_of_mem s hu))]
    simp

theorem field_ARRAY_TEXT_ok (xs value : List (List Byte))
    (hN : xs.length < 2 ^ 31) (hlen : ∀ s ∈ xs, s.length < 2 ^ 31) :
    Results_base.field_ARRAY_TEXT
      (wireHeader (Traits.oid .TEXT) xs.length ++ wireTextElements xs) value
      = .ok xs := by
  have h1 : BigEndian.read 4 (BigEndian.write 4 1) = 1 := by decide
  have h0 : BigEndian.read 4 (BigEndian.write 4 0) = 0 := by decide
  have he : toUInt32 (BigEndian.read 4 (BigEndian.write 4 (Traits.oid .TEXT)))
      = Traits.oid .TEXT := by decide
  have hd : BigEndian.read 4 (BigEndian.write 4 (xs.length : Int)) = xs.length :=
    read_write 4 (by omega) _ (by norm_num; omega) (by norm_num; omega)
  unfold Results_base.field_ARRAY_TEXT ARRAY_SIZE.sizeof
  rw [deref_at 4 [] (BigEndian.write 4 1) _ 0 _
    (by simp only [wireHeader, List.append_assoc, List.nil_append]; rfl) rfl
    (by rw [length_write]), ok_bind, h1, if_neg (by simp)]
  rw [deref_at 4 (BigEndian.write 4 1) (BigEndian.write 4 0) _ 4 _
    (by simp only [wireHeader, List.append_assoc]; rfl) (by rw [length_write])
    (by rw [length_write]), ok_bind, h0, if_neg (by simp)]
  rw [deref_at 4 (BigEndian.write 4 1 ++ BigEndian.write 4 0)
    (BigEndian.write 4 (Traits.oid .TEXT)) _ (2 * 4) _
    (by simp only [wireHeader, List.append_assoc]; rfl)
    (by simp [length_write]) (by rw [length_write]), ok_bind, if_neg (by rw [he]; simp)]
  rw [deref_at 4 (BigEndian.write 4 1 ++ BigEndian.write 4 0
      ++ BigEndian.write 4 (Traits.oid .TEXT))
    (BigEndian.write 4 (xs.length : Int)) _ (3 * 4) _
    (by simp only [wireHeader, List.append_assoc]; rfl)
    (by simp [length_write]) (by rw [length_write]), ok_bind, hd,
    if_neg (by omega), Int.toNat_ofNat]
  rw [fieldLoop_ARRAY_TEXT_ok xs (5 * 4) (wireHeader (Traits.oid .TEXT) xs.length) [] _ rfl
    (by rw [length_wireHeader]) hlen]
  simp
theorem vget_ok {α : Type} (v : List α) (i : Nat) (a : α) (h : v[i]? = some a) :
    vget v i = .ok a := by
  simp [vget, h]

theorem vset_ok {α : Type} (v : List α) (i : Nat) (a : α) (h : i < v.length) :
    vset v i a = .ok (v.set i a) := by
  simp [vset, h]

theorem mk_of_wellFormed (tuple : List Parameter) :
    (Parameters.mk_of tuple).WellFormed := by
  simp [Parameters.mk_of, Parameters.WellFormed, Parameters.s_oids, Parameters.s_formats]

theorem build_column_ok (p : Parameters) (hp : p.WellFormed) (column : Nat)
    (hc : column < p.m_size) :
    ∃ parameter null, p.tuple[column]? = some parameter ∧ p.m_nulls[column]? = some null ∧
      p.build_column column = .ok { p with
        m_raws := p.m_raws.set column (if null then nullptr else parameter.data)
        m_sizes := p.m_sizes.set column (toInt32 parameter.size) } := by
  obtain ⟨ht, hn, _, hr, hs, _⟩ := hp
  have hct : column < p.tuple.length := by omega
  have hcn : column < p.m_nulls.length := by omega
  refine ⟨p.tuple[column], p.m_nulls[column], List.getElem?_eq_getElem hct,
    List.getElem?_eq_getElem hcn, ?_⟩
  unfold Parameters.build_column Parameters.isNull
  rw [vget_ok p.tuple column _ (List.getElem?_eq_getElem hct), ok_bind,
    vget_ok p.m_nulls column _ (List.getElem?_eq_getElem hcn), ok_bind]
  cases hnull : p.m_nulls[column] with
  | true =>
    simp only [if_true]
    rw [vset_ok _ _ _ (by omega), ok_bind, vset_ok _ _ _ (by omega), ok_bind]
    rfl
  | false =>
    simp only [Bool.false_eq_true, if_false]
    rw [vset_ok _ _ _ (by omega), ok_bind, vset_ok _ _ _ (by omega), ok_bind]
    rfl

/-- What `build_impl` over the columns `cols` leaves behind. -/
theorem build_impl_ok (cols : List Nat) :
    ∀ p : Parameters, p.WellFormed → (∀ c ∈ cols, c < p.m_size) →
      ∃ q, Parameters.build_impl cols p = .ok q ∧ q.WellFormed ∧ q.tuple = p.tuple
        ∧ q.m_size = p.m_size ∧ q.m_nulls = p.m_nulls ∧ q.m_oids = p.m_oids
        ∧ q.m_formats = p.m_formats
        ∧ (∀ i ∈ cols, ∀ parameter null, p.tuple[i]? = some parameter →
            p.m_nulls[i]? = some null →
            q.m_raws[i]? = some (if null then nullptr else parameter.data)
              ∧ q.m_sizes[i]? = some (toInt32 parameter.size))
        ∧ (∀ i, i ∉ cols → q.m_raws[i]? = p.m_raws[i]? ∧ q.m_sizes[i]? = p.m_sizes[i]?) := by
  induction cols with
  | nil =>
    intro p hp _
    exact ⟨p, rfl, hp, rfl, rfl, rfl, rfl, rfl, by simp, by simp⟩
  | cons c cs ih =>
    intro p hp hcols
    have hc : c < p.m_size := hcols c (List.mem_cons_self c cs)
    obtain ⟨parameter, null, hpar, hnull, hstep⟩ := build_column_ok p hp c hc
    obtain ⟨ht, hn, ho, hr, hs, hf⟩ := hp
    have hp1 : Parameters.WellFormed { p with
        m_raws := p.m_raws.set c (if null then nullptr else parameter.data)
        m_sizes := p.m_sizes.set c (toInt32 parameter.size) } := by
      simp [Parameters.WellFormed, ht, hn, ho, hr, hs, hf]
    obtain ⟨q, hq, hqwf, hqt, hqsz, hqn, hqo, hqf, hin, hout⟩ :=
      ih _ hp1 (fun d hd => hcols d (List.mem_cons_of_mem c hd))
    refine ⟨q, ?_, hqwf, hqt, hqsz, hqn, hqo, hqf, ?_, ?_⟩
    · unfold Parameters.build_impl
      rw [hstep, ok_bind]
      exact hq
    · intro i hi parameter' null' hpar' hnull'
      by_cases hics : i ∈ cs
      · exact hin i hics parameter' null' hpar' hnull'
      · have hic : i = c := by
          rcases List.mem_cons.mp hi with h | h
          · exact h
          · exact absurd h hics
        subst hic
        have e1 : parameter' = parameter := by
          rw [hpar] at hpar'
          exact (Option.some.inj hpar').symm
        have e2 : null' = null := by
          rw [hnull] at hnull'
          exact (Option.some.inj hnull').symm
        subst e1 e2
        obtain ⟨h1, h2⟩ := hout i hics
        rw [h1, h2]
        constructor
        · simp only [List.getElem?_set]
          simp [hr, hc]
        · simp only [List.getElem?_set]
          simp [hs, hc]
    · intro i hi
      have hic : i ≠ c := fun h => hi (h ▸ List.mem_cons_self c cs)
      have hics : i ∉ cs := fun h => hi (List.mem_cons_of_mem c h)
      obtain ⟨h1, h2⟩ := hout i hics
      rw [h1, h2]
      constructor
      · simp only [List.getElem?_set]
        simp [Ne.symm hic]
      · simp only [List.getElem?_set]
        simp [Ne.symm hic]

theorem build_ok (p : Parameters) (hp : p.WellFormed) :
    ∃ q, p.build = .ok q ∧ q.WellFormed ∧ q.tuple = p.tuple
      ∧ q.m_size = p.m_size ∧ q.m_nulls = p.m_nulls ∧ q.m_oids = p.m_oids
      ∧ q.m_formats = p.m_formats
      ∧ (∀ (i : Nat) (parameter : Parameter) (null : Bool),
          p.tuple[i]? = some parameter → p.m_nulls[i]? = some null →
          q.m_raws[i]? = some (if null then nullptr else parameter.data)
            ∧ q.m_sizes[i]? = some (toInt32 parameter.size)) := by
  obtain ⟨q, hq, hqwf, hqt, hqsz, hqn, hqo, hqf, hin, _⟩ :=
    build_impl_ok (List.range p.tuple.length) p hp
      (fun c hc => by
        have := List.mem_range.mp hc
        have := hp.1
        omega)
  refine ⟨q, hq, hqwf, hqt, hqsz, hqn, hqo, hqf, ?_⟩
  intro i parameter null hpar hnull
  have hi : i < p.tuple.length := by
    rcases Nat.lt_or_ge i p.tuple.length with h | h
    · exact h
    · rw [List.getElem?_eq_none h] at hpar
      cases hpar
  exact hin i (List.mem_range.mpr hi) parameter null hpar hnull
theorem beBytes_get (w n k : Nat) (hk : k < w) :
    (beBytes w n)[k]? = some (n / 256 ^ (w - 1 - k) % 256) := by
  induction w generalizing k with
  | zero => omega
  | succ w ih =>
    cases k with
    | zero => simp [beBytes]
    | succ k =>
      have e : w + 1 - 1 - (k + 1) = w - 1 - k := by omega
      rw [beBytes, List.getElem?_cons_succ, ih k (by omega), e]

theorem toUnsigned_cast (w : Nat) (v : Int) :
    ((toUnsigned w v : Nat) : Int) = v % 2 ^ (8 * w) := by
  unfold toUnsigned
  exact Int.toNat_of_nonneg (Int.emod_nonneg v (by positivity))

theorem write_get (w : Nat) (v : Int) (k : Nat) (hk : k < w) :
    ∃ b : Byte, (BigEndian.write w v)[k]? = some b ∧
      (b : Int) = v % 2 ^ (8 * w) / 2 ^ (8 * (w - 1 - k)) % 256 := by
  refine ⟨_, beBytes_get w (toUnsigned w v) k hk, ?_⟩
  have h256 : (256 : Nat) ^ (w - 1 - k) = 2 ^ (8 * (w - 1 - k)) := by
    rw [pow_mul]
    norm_num
  rw [h256]
  push_cast
  rw [toUnsigned_cast]

theorem toInt32_of_lt (n : Nat) (h : n < 2 ^ 31) : toInt32 n = n := by
  unfold toInt32
  exact toSigned_toUnsigned 4 (by omega) n (by norm_num; omega) (by norm_num; omega)

theorem store_too_long (buf : Buffer) (off : Nat) (bs : List Byte)
    (h : buf.length < off + bs.length) : store buf off bs = .error .outOfBounds := by
  unfold store
  rw [if_neg (by omega)]

theorem error_bind {α β : Type} (e : Fault) (f : α → Exec β) :
    ((Except.error e : Exec α) >>= f) = Except.error e := rfl

theorem apply_ok (p q : Parameters) (op : Operation) (hp : p.WellFormed)
    (h : p.apply op = .ok q) :
    q.WellFormed ∧ q.m_size = p.m_size ∧ q.m_formats = p.m_formats := by
  cases op with
  | setNull column =>
    change p.setNull column = .ok q at h
    unfold Parameters.setNull vset at h
    by_cases hc : column < p.m_nulls.length
    · rw [if_pos hc, ok_bind] at h
      cases h
      obtain ⟨ht, hn, ho, hr, hs, hf⟩ := hp
      exact ⟨by simp [Parameters.WellFormed, ht, hn, ho, hr, hs, hf], rfl, rfl⟩
    · rw [if_neg hc, error_bind] at h
      cases h
  | build =>
    obtain ⟨q', hq', hwf, _, hsz, _, _, hf, _⟩ := build_ok p hp
    change p.build = .ok q at h
    rw [hq'] at h
    cases h
    exact ⟨hwf, hsz, hf⟩
  | assign column data size =>
    change (do
      let parameter ← vget p.tuple column
      let tuple ← vset p.tuple column ⟨parameter.type, data, size⟩
      pure { p with tuple := tuple }) = Except.ok q at h
    unfold vget vset at h
    cases hpar : p.tuple[column]? with
    | none =>
      rw [hpar] at h
      cases h
    | some parameter =>
      rw [hpar] at h
      simp only [ok_bind] at h
      by_cases hc : column < p.tuple.length
      · rw [if_pos hc, ok_bind] at h
        cases h
        obtain ⟨ht, hn, ho, hr, hs, hf⟩ := hp
        exact ⟨by simp [Parameters.WellFormed, ht, hn, ho, hr, hs, hf], rfl, rfl⟩
      · rw [if_neg hc, error_bind] at h
        cases h

theorem run_ok (ops : List Operation) :
    ∀ p q : Parameters, p.WellFormed → p.run ops = .ok q →
      q.WellFormed ∧ q.m_size = p.m_size ∧ q.m_formats = p.m_formats := by
  induction ops with
  | nil =>
    intro p q hp h
    cases h
    exact ⟨hp, rfl, rfl⟩
  | cons op ops ih =>
    intro p q hp h
    unfold Parameters.run at h
    cases hstep : p.apply op with
    | error e =>
      rw [hstep, error_bind] at h
      cases h
    | ok p1 =>
      rw [hstep, ok_bind] at h
      obtain ⟨hwf1, hsz1, hf1⟩ := apply_ok p p1 op hp hstep
      obtain ⟨hwf, hsz, hf⟩ := ih p1 q hwf1 h
      exact ⟨hwf, hsz.trans hsz1, hf.trans hf1⟩

theorem dataSize_singleton (s : List Byte) :
    Parameter_ARRAY_TEXT.dataSize [s] = s.length % 2 ^ 32 := by
  simp [Parameter_ARRAY_TEXT.dataSize]

/-- One string whose length is a positive multiple of `2 ^ 32`: the sum
`dataSize` wraps to 0, 24 bytes are allocated, and the copy of the string
leaves them. -/
theorem assign_singleton_wrap (heap : Nat → Byte) (s : List Byte)
    (hwrap : s.length % 2 ^ 32 = 0) (hpos : 0 < s.length) :
    Parameter_ARRAY_TEXT.assign heap [s] = .error .outOfBounds := by
  unfold Parameter_ARRAY_TEXT.assign ARRAY_SIZE.sizeof
  simp only [dataSize_singleton, hwrap, List.length_singleton]
  rw [writeHeader_ok _ _ _ (by rw [length_alloc]; decide), ok_bind]
  unfold Parameter_ARRAY_TEXT.assignLoop BigEndian.assign ARRAY_SIZE.sizeof
  rw [store_at (wireHeader _ _) _ _ (5 * 4) (by rw [length_wireHeader])
    (by rw [length_write, List.length_drop, length_alloc]; decide), ok_bind]
  rw [store_too_long _ _ _ (by
    simp only [List.length_append, length_wireHeader, length_write, List.length_drop,
      length_alloc]
    omega)]
  rfl

theorem totalLength_empties (xs : List (List Byte)) (h : ∀ s ∈ xs, s = []) :
    totalLength xs = 0 := by
  induction xs with
  | nil => rfl
  | cons s rest ih =>
    rw [totalLength, h s (List.mem_cons_self s rest),
      ih (fun t ht => h t (List.mem_cons_of_mem s ht))]
    rfl

theorem le_totalLength (xs : List (List Byte)) (s : List Byte) (hs : s ∈ xs) :
    s.length ≤ totalLength xs := by
  induction xs with
  | nil => cases hs
  | cons t rest ih =>
    rw [totalLength]
    rcases List.mem_cons.mp hs with h | h
    · subst h
      omega
    · have := ih h
      omega

/-- An array of `2 ^ 30` empty strings: `m_size` wraps to 20, the header fills
the 20 bytes allocated, and the first length word is written outside them. -/
theorem assign_empties_wrap (heap : Nat → Byte) (xs : List (List Byte))
    (hlen : xs.length = 2 ^ 30) (hempty : ∀ s ∈ xs, s = []) :
    Parameter_ARRAY_TEXT.assign heap xs = .error .outOfBounds := by
  have htotal := totalLength_empties xs hempty
  have hsz : (4 * (5 + xs.length) + totalLength xs) % 2 ^ 32 = 20 := by
    rw [hlen, htotal]
    decide
  unfold Parameter_ARRAY_TEXT.assign ARRAY_SIZE.sizeof
  simp only [dataSize_eq xs (by rw [htotal]; decide), hsz]
  rw [writeHeader_ok _ _ _ (by rw [length_alloc]), ok_bind]
  cases xs with
  | nil => simp at hlen
  | cons s rest =>
    unfold Parameter_ARRAY_TEXT.assignLoop BigEndian.assign ARRAY_SIZE.sizeof
    rw [store_too_long _ _ _ (by
      simp only [List.length_append, length_wireHeader, length_write, List.length_drop,
        length_alloc]
      omega)]
    rfl

/-! ## Array round trips and layouts -/

/-- Claim C1, amended. Numeric array round trip: for every element type `T` of
width `w` and every sequence `xs` of `N` values of `T` whose encoding fits the
32-bit size member, `20 + N * (4 + w) < 2 ^ 32`, `operator=` returns, and the
numeric array decoder run on the bytes it produced returns exactly `xs`, in the
same order, whatever the output vector `value` and the fresh array (`heap`)
held before. -/
theorem numeric_array_round_trip (T : Numeric) (heap : Nat → Byte) (xs value : List Int)
    (hxs : ∀ v ∈ xs, T.InRange v)
    (hsize : 20 + xs.length * (4 + T.sizeof) < 2 ^ 32) :
    ∃ p, Parameter_ARRAY.assign T heap xs = .ok p ∧
      Results_base.field_ARRAY T p.data value = .ok xs := by
  have hle : xs.length * 4 ≤ xs.length * (4 + T.sizeof) :=
    Nat.mul_le_mul_left _ (by omega)
  exact ⟨_, assign_ARRAY_ok T heap xs hsize,
    field_ARRAY_ok T xs value (by omega) hxs⟩

/-- The round trip of C1 on the array `eight` of the test, decoded into a
vector that held three elements. -/
theorem numeric_array_round_trip_eight :
    (∀ v ∈ eight, Numeric.SMALLINT.InRange v) ∧
    20 + eight.length * (4 + Numeric.SMALLINT.sizeof) < 2 ^ 32 ∧
    ∃ p, Parameter_ARRAY.assign .SMALLINT (fun k => k % 256) eight = .ok p ∧
      Results_base.field_ARRAY .SMALLINT p.data [1, 2, 3] = .ok eight :=
  ⟨by decide, by decide,
    numeric_array_round_trip .SMALLINT (fun k => k % 256) eight [1, 2, 3]
      (by decide) (by decide)⟩

/-- Claim C1 as stated fails: an array of 715827880 `SMALLINT` values is
shorter than `2 ^ 31`, but `m_size` wraps to 4, `new char[4]` is too small for
the header, and `operator=` writes outside it. -/
theorem numeric_array_round_trip_overflow :
    (List.replicate 715827880 (0 : Int)).length < 2 ^ 31 ∧
    (∀ v ∈ List.replicate 715827880 (0 : Int), Numeric.SMALLINT.InRange v) ∧
    Parameter_ARRAY.assign .SMALLINT (fun _ => 0) (List.replicate 715827880 0)
      = .error .outOfBounds ∧
    ¬ ∃ p, Parameter_ARRAY.assign .SMALLINT (fun _ => 0) (List.replicate 715827880 0) = .ok p ∧
      Results_base.field_ARRAY .SMALLINT p.data [] = .ok (List.replicate 715827880 0) := by
  have hres : Parameter_ARRAY.resize .SMALLINT (fun _ => 0) 715827880
      = .error .outOfBounds := by decide
  have hfail : Parameter_ARRAY.assign .SMALLINT (fun _ => 0) (List.replicate 715827880 0)
      = .error .outOfBounds := by
    unfold Parameter_ARRAY.assign
    rw [List.length_replicate, hres]
    rfl
  refine ⟨by rw [List.length_replicate]; decide, ?_, hfail, ?_⟩
  · intro v hv
    rw [List.eq_of_mem_replicate hv]
    decide
  · rintro ⟨p, hp, _⟩
    rw [hfail] at hp
    cases hp

/-- Claim C2, amended. TEXT array round trip: for every sequence `xs` of `N`
byte strings whose total size, the sum of their lengths, is below `2 ^ 31`
and whose encoding fits the 32-bit size member,
`20 + 4 * N + sum of the lengths < 2 ^ 32`, `assign` returns, and the
`ARRAY<TEXT>` decoder run on the bytes it produced returns exactly `xs`, in
the same order, whatever the strings are (empty, with NUL bytes) and whatever
the output vector held. -/
theorem text_array_round_trip (heap : Nat → Byte) (xs value : List (List Byte))
    (htotal : totalLength xs < 2 ^ 31)
    (hsize : 20 + 4 * xs.length + totalLength xs < 2 ^ 32) :
    ∃ p, Parameter_ARRAY_TEXT.assign heap xs = .ok p ∧
      Results_base.field_ARRAY_TEXT p.data value = .ok xs := by
  have hlen : ∀ s ∈ xs, s.length < 2 ^ 31 := by
    intro s hs
    have := le_totalLength xs s hs
    omega
  exact ⟨_, assign_ARRAY_TEXT_ok heap xs hsize,
    field_ARRAY_TEXT_ok xs value (by omega) hlen⟩

/-- The round trip of C2 on an empty string, a string with NUL bytes and a
string of the test. -/
theorem text_array_round_trip_nul :
    totalLength [[], [97, 0, 98, 0], bytesOf "The Two Towers"] < 2 ^ 31 ∧
    20 + 4 * [[], [97, 0, 98, 0], bytesOf "The Two Towers"].length
      + totalLength [[], [97, 0, 98, 0], bytesOf "The Two Towers"] < 2 ^ 32 ∧
    ∃ p, Parameter_ARRAY_TEXT.assign (fun k => k % 256)
        [[], [97, 0, 98, 0], bytesOf "The Two Towers"] = .ok p ∧
      Results_base.field_ARRAY_TEXT p.data [[1]]
        = .ok [[], [97, 0, 98, 0], bytesOf "The Two Towers"] :=
  ⟨by decide, by decide,
    text_array_round_trip (fun k => k % 256)
      [[], [97, 0, 98, 0], bytesOf "The Two Towers"] [[1]] (by decide) (by decide)⟩

/-- Claim C2 as stated fails: `2 ^ 30` empty strings have the total size 0,
which is below `2 ^ 31`, but the sum `4 * (5 + N)` for `m_size` wraps to 20,
the header fills the `new char[20]`, and the first length word is written
outside it. -/
theorem text_array_round_trip_overflow :
    totalLength (List.replicate (2 ^ 30) ([] : List Byte)) = 0 ∧
    totalLength (List.replicate (2 ^ 30) ([] : List Byte)) < 2 ^ 31 ∧
    (4 * (5 + (List.replicate (2 ^ 30) ([] : List Byte)).length)
      + totalLength (List.replicate (2 ^ 30) ([] : List Byte))) % 2 ^ 32 = 20 ∧
    Parameter_ARRAY_TEXT.assign (fun _ => 0) (List.replicate (2 ^ 30) [])
      = .error .outOfBounds ∧
    ¬ ∃ p, Parameter_ARRAY_TEXT.assign (fun _ => 0) (List.replicate (2 ^ 30) []) = .ok p ∧
      Results_base.field_ARRAY_TEXT p.data [] = .ok (List.replicate (2 ^ 30) []) := by
  have hempty : ∀ s ∈ List.replicate (2 ^ 30) ([] : List Byte), s = [] :=
    fun s hs => List.eq_of_mem_replicate hs
  have htotal := totalLength_empties _ hempty
  have hfail : Parameter_ARRAY_TEXT.assign (fun _ => 0) (List.replicate (2 ^ 30) [])
      = .error .outOfBounds :=
    assign_empties_wrap (fun _ => 0) _ (List.length_replicate _ _) hempty
  refine ⟨htotal, by rw [htotal]; decide, ?_, hfail, ?_⟩
  · rw [htotal, List.length_replicate]
    decide
  · rintro ⟨p, hp, _⟩
    rw [hfail] at hp
    cases hp

/-- Claim C3, amended. Numeric array wire layout: for every sequence `xs` of
`N` values of a numeric type `T` of width `w` with `20 + N * (4 + w) < 2 ^ 32`,
the parameter built from `xs` has `size() = 20 + N * (4 + w)`, and `data()` is
the header words `1`, `0`, `Traits<T>::oid`, `N`, `1` followed, for each element
in order, by the word `w` and the `w` big-endian bytes of the element. -/
theorem numeric_array_layout (T : Numeric) (heap : Nat → Byte) (xs : List Int)
    (hsize : 20 + xs.length * (4 + T.sizeof) < 2 ^ 32) :
    ∃ p, Parameter_ARRAY.assign T heap xs = .ok p ∧
      p.size = 20 + xs.length * (4 + T.sizeof) ∧
      p.data = wireHeader (Traits.oid T.toType) xs.length ++ wireNumericElements T xs :=
  ⟨_, assign_ARRAY_ok T heap xs hsize, rfl, rfl⟩

/-- The layout of C3 on the array `eight` of the test: the 50 bytes of
`properEight`. -/
theorem numeric_array_layout_properEight :
    20 + eight.length * (4 + Numeric.SMALLINT.sizeof) < 2 ^ 32 ∧
    ∃ p, Parameter_ARRAY.assign .SMALLINT (fun _ => 170) eight = .ok p ∧
      p.size = 50 ∧ p.data = properEight := by
  refine ⟨by decide, ?_⟩
  obtain ⟨p, hp, hs, hd⟩ := numeric_array_layout .SMALLINT (fun _ => 170) eight (by decide)
  exact ⟨p, hp, hs.trans (by decide), hd.trans (by decide)⟩

/-- Claim C3 as stated fails: for 357913940 `BIGINT` values the size
`20 + N * 12` is `2 ^ 32 + 4`, no value of the `unsigned` member `m_size`, and the
constructor writes outside the four bytes it allocated. -/
theorem numeric_array_layout_overflow :
    20 + (List.replicate 357913940 (0 : Int)).length * (4 + Numeric.BIGINT.sizeof)
      = 2 ^ 32 + 4 ∧
    Parameter_ARRAY.assign .BIGINT (fun _ => 0) (List.replicate 357913940 0)
      = .error .outOfBounds ∧
    ¬ ∃ p, Parameter_ARRAY.assign .BIGINT (fun _ => 0) (List.replicate 357913940 0) = .ok p ∧
      p.size = 20 + (List.replicate 357913940 (0 : Int)).length * (4 + Numeric.BIGINT.sizeof) := by
  have hres : Parameter_ARRAY.resize .BIGINT (fun _ => 0) 357913940
      = .error .outOfBounds := by decide
  have hfail : Parameter_ARRAY.assign .BIGINT (fun _ => 0) (List.replicate 357913940 0)
      = .error .outOfBounds := by
    unfold Parameter_ARRAY.assign
    rw [List.length_replicate, hres]
    rfl
  refine ⟨by rw [List.length_replicate]; decide, hfail, ?_⟩
  rintro ⟨p, hp, _⟩
  rw [hfail] at hp
  cases hp

/-- Claim C4, amended. TEXT array wire layout: for every sequence `xs` of `N`
byte strings with `20 + 4 * N + sum of the lengths < 2 ^ 32`, the parameter built
from `xs` has `size()` equal to that number, and `data()` is the header words
`1`, `0`, `25`, `N`, `1` followed, for each string in order, by its length as a
big-endian 32-bit word and its bytes, with no terminator. -/
theorem text_array_layout (heap : Nat → Byte) (xs : List (List Byte))
    (hsize : 20 + 4 * xs.length + totalLength xs < 2 ^ 32) :
    ∃ p, Parameter_ARRAY_TEXT.assign heap xs = .ok p ∧
      p.size = 20 + 4 * xs.length + totalLength xs ∧
      p.data = wireHeader 25 xs.length ++ wireTextElements xs :=
  ⟨_, assign_ARRAY_TEXT_ok heap xs hsize, rfl, rfl⟩

/-- The layout of C4 on the array `nine` of the test: the 94 bytes of
`properNine`, with entries of 26, 14 and 22 bytes. -/
theorem text_array_layout_properNine :
    20 + 4 * nine.length + totalLength nine < 2 ^ 32 ∧
    nine.map List.length = [26, 14, 22] ∧
    ∃ p, Parameter_ARRAY_TEXT.assign (fun _ => 170) nine = .ok p ∧
      p.size = 94 ∧ p.data = properNine := by
  refine ⟨by decide, by decide, ?_⟩
  obtain ⟨p, hp, hs, hd⟩ := text_array_layout (fun _ => 170) nine (by decide)
  exact ⟨p, hp, hs.trans (by decide), hd.trans (by decide)⟩

/-- Claim C4 as stated fails: for one string of `2 ^ 32` bytes `dataSize` wraps
to 0, `m_size` is 24 and not `24 + 2 ^ 32`, and `std::copy` writes outside the
24 bytes allocated. -/
theorem text_array_layout_overflow :
    Parameter_ARRAY_TEXT.assign (fun _ => 0) [List.replicate (2 ^ 32) 0]
      = .error .outOfBounds ∧
    ¬ ∃ p, Parameter_ARRAY_TEXT.assign (fun _ => 0) [List.replicate (2 ^ 32) 0] = .ok p ∧
      p.size = 20 + 4 * [List.replicate (2 ^ 32) (0 : Byte)].length
        + totalLength [List.replicate (2 ^ 32) 0] := by
  have hfail : Parameter_ARRAY_TEXT.assign (fun _ => 0) [List.replicate (2 ^ 32) 0]
      = .error .outOfBounds :=
    assign_singleton_wrap (fun _ => 0) (List.replicate (2 ^ 32) 0)
      (by rw [List.length_replicate]; decide) (by rw [List.length_replicate]; decide)
  refine ⟨hfail, ?_⟩
  rintro ⟨p, hp, _⟩
  rw [hfail] at hp
  cases hp

/-! ## Integer scalars -/

/-- Claim C5. Endian round trip for integer scalars: for every type `T` among
`SMALLINT`, `INTEGER`, `BIGINT` (and the two floating types, whose values are
bit patterns here) and every value `v` of `T`, `BigEndian<T>::read` applied to
the bytes `Parameter<T>(v).data()` exposes returns `v`, and
`Parameter<T>(v).size()` is `sizeof(T)`: 2, 4 and 8 for the three integer
types. -/
theorem integer_scalar_round_trip (T : Numeric) (v : Int) (hv : T.InRange v) :
    BigEndian.read T.sizeof (Parameter_Numeric.mk_of T v).data = v ∧
    (Parameter_Numeric.mk_of T v).data.length = (Parameter_Numeric.mk_of T v).size ∧
    (T = .SMALLINT → (Parameter_Numeric.mk_of T v).size = 2) ∧
    (T = .INTEGER → (Parameter_Numeric.mk_of T v).size = 4) ∧
    (T = .BIGINT → (Parameter_Numeric.mk_of T v).size = 8) := by
  refine ⟨?_, ?_, ?_, ?_, ?_⟩
  · exact read_write T.sizeof (by cases T <;> decide) v hv.1 hv.2
  · exact length_write T.sizeof v
  · intro h
    subst h
    rfl
  · intro h
    subst h
    rfl
  · intro h
    subst h
    rfl

/-- The round trip of C5 on the column `two` of the test, the `BIGINT`
`-123342945112312323`. -/
theorem integer_scalar_round_trip_two :
    Numeric.BIGINT.InRange (-123342945112312323) ∧
    BigEndian.read 8 (Parameter_Numeric.mk_of .BIGINT (-123342945112312323)).data
      = -123342945112312323 ∧
    (Parameter_Numeric.mk_of .BIGINT (-123342945112312323)).size = 8 :=
  ⟨by decide,
    (integer_scalar_round_trip .BIGINT (-123342945112312323) (by decide)).1,
    (integer_scalar_round_trip .BIGINT (-123342945112312323) (by decide)).2.2.2.2 rfl⟩

/-- Claim C6. Network byte order of integer scalars: for every type `T` of
width `w` in {2, 4, 8}, every integer `v` and every `k < w`, byte `k` of the
encoded parameter is `((v mod 2 ^ (8 * w)) div 2 ^ (8 * (w - 1 - k))) mod 256`:
the two's-complement value, most significant byte first. -/
theorem integer_scalar_byte_order (T : Numeric) (v : Int) (k : Nat) (hk : k < T.sizeof) :
    ∃ b : Byte, (Parameter_Numeric.mk_of T v).data[k]? = some b ∧
      (b : Int) = v % 2 ^ (8 * T.sizeof) / 2 ^ (8 * (T.sizeof - 1 - k)) % 256 :=
  write_get T.sizeof v k hk

/-- The byte order of C6 on the `SMALLINT` `-1413`: the bytes `FA 7B`. -/
theorem integer_scalar_byte_order_zero :
    (Parameter_Numeric.mk_of .SMALLINT (-1413)).data = [0xFA, 0x7B] ∧
    (∃ b : Byte, (Parameter_Numeric.mk_of .SMALLINT (-1413)).data[0]? = some b ∧
      (b : Int) = (-1413) % 2 ^ (8 * Numeric.SMALLINT.sizeof)
        / 2 ^ (8 * (Numeric.SMALLINT.sizeof - 1 - 0)) % 256) ∧
    (∃ b : Byte, (Parameter_Numeric.mk_of .SMALLINT (-1413)).data[1]? = some b ∧
      (b : Int) = (-1413) % 2 ^ (8 * Numeric.SMALLINT.sizeof)
        / 2 ^ (8 * (Numeric.SMALLINT.sizeof - 1 - 1)) % 256) :=
  ⟨by decide,
    integer_scalar_byte_order .SMALLINT (-1413) 0 (by decide),
    integer_scalar_byte_order .SMALLINT (-1413) 1 (by decide)⟩

/-- Claim C7, amended. The `INTEGER` parameter built from `123342945` has OID
23, size 4 and the encoded bytes `07 5A 10 61`. -/
theorem integer_scenario_bytes :
    Parameter.oid .INTEGER = 23 ∧
    (Parameter_Numeric.mk_of .INTEGER 123342945).size = 4 ∧
    (Parameter_Numeric.mk_of .INTEGER 123342945).data = [0x07, 0x5A, 0x10, 0x61] := by
  decide

/-- Claim C7 as stated fails: the encoded bytes of `123342945` are not
`07 5A 33 A1`, which are the bytes of `123351969`. -/
theorem integer_scenario_spec_bytes :
    (Parameter_Numeric.mk_of .INTEGER 123342945).data ≠ [0x07, 0x5A, 0x33, 0xA1] ∧
    (Parameter_Numeric.mk_of .INTEGER 123351969).data = [0x07, 0x5A, 0x33, 0xA1] ∧
    BigEndian.read 4 [0x07, 0x5A, 0x33, 0xA1] = 123351969 := by
  decide

/-! ## The parameter tuple -/

/-- Claim C8, amended. Postcondition of `Parameters::build`: in every state the
operations reach from the constructor, `build()` returns and leaves the tuple and
the null flags as they were; then for every column `i < size()`, `sizes[i]` is
the `size()` of the `i`-th parameter converted to `int` (the same number when it
is below `2 ^ 31`), also when the column is null, and `raws[i]` is null if
`isNull(i)` and otherwise the `data()` pointer of the `i`-th parameter; hence
`isNull(i)` implies that `raws[i]` is null, and the converse holds for a
parameter whose `data()` is not null. -/
theorem build_postcondition (tuple : List Parameter) (ops : List Operation)
    (p : Parameters) (h : (Parameters.mk_of tuple).run ops = .ok p) :
    ∃ q, p.build = .ok q ∧ q.tuple = p.tuple ∧ q.m_nulls = p.m_nulls ∧
      ∀ i, i < q.size →
        ∃ parameter null, q.tuple[i]? = some parameter ∧ q.isNull i = .ok null ∧
          q.sizes[i]? = some (toInt32 parameter.size) ∧
          (parameter.size < 2 ^ 31 → q.sizes[i]? = some (parameter.size : Int)) ∧
          q.raws[i]? = some (if null then nullptr else parameter.data) ∧
          (null = true → q.raws[i]? = some nullptr) ∧
          (parameter.data ≠ nullptr → (null = true ↔ q.raws[i]? = some nullptr)) := by
  obtain ⟨hwf, _, _⟩ :=
    run_ok ops _ p (mk_of_wellFormed tuple) h
  obtain ⟨q, hq, hqwf, hqt, hqsz, hqn, _, _, hpost⟩ := build_ok p hwf
  refine ⟨q, hq, hqt, hqn, ?_⟩
  intro i hi
  have hit : i < p.tuple.length := by
    have := hwf.1
    unfold Parameters.size at hi
    omega
  have hin : i < p.m_nulls.length := by
    have := hwf.2.1
    unfold Parameters.size at hi
    omega
  obtain ⟨hraw, hsize⟩ := hpost i p.tuple[i] p.m_nulls[i]
    (List.getElem?_eq_getElem hit) (List.getElem?_eq_getElem hin)
  refine ⟨p.tuple[i], p.m_nulls[i], ?_, ?_, hsize, ?_, hraw, ?_, ?_⟩
  · rw [hqt]
    exact List.getElem?_eq_getElem hit
  · unfold Parameters.isNull
    rw [hqn]
    exact vget_ok _ _ _ (List.getElem?_eq_getElem hin)
  · intro hlt
    unfold Parameters.sizes
    rw [hsize, toInt32_of_lt _ hlt]
  · intro hnull
    unfold Parameters.raws
    rw [hraw, hnull]
    rfl
  · intro hdata
    unfold Parameters.raws
    rw [hraw]
    cases p.m_nulls[i] with
    | true => simp
    | false =>
      simp only [Bool.false_eq_true, if_false, false_iff]
      intro hcontra
      exact hdata (Option.some.inj hcontra)

/-- The postcondition of C8 on `twoColumns` with the second column set null:
`build()` returns, `sizes` is `[2, 1]` and `raws` holds the pointer of the first
column and the null pointer. -/
theorem build_postcondition_two :
    (Parameters.mk_of twoColumns).run [.setNull 1] = .ok twoColumnsNull ∧
    twoColumnsNull.build
      = .ok ⟨twoColumns, 2, [false, true], [21, 16], [some 4096, none], [2, 1], [1, 1]⟩ ∧
    ∃ q, twoColumnsNull.build = .ok q ∧ q.tuple = twoColumnsNull.tuple ∧
      q.m_nulls = twoColumnsNull.m_nulls ∧
      ∀ i, i < q.size →
        ∃ parameter null, q.tuple[i]? = some parameter ∧ q.isNull i = .ok null ∧
          q.sizes[i]? = some (toInt32 parameter.size) ∧
          (parameter.size < 2 ^ 31 → q.sizes[i]? = some (parameter.size : Int)) ∧
          q.raws[i]? = some (if null then nullptr else parameter.data) ∧
          (null = true → q.raws[i]? = some nullptr) ∧
          (parameter.data ≠ nullptr → (null = true ↔ q.raws[i]? = some nullptr)) :=
  ⟨by decide, by decide,
    build_postcondition twoColumns [.setNull 1] twoColumnsNull (by decide)⟩

/-- Claim C8 as stated fails in two places. A `TEXT` parameter of `2 ^ 31` bytes
gets `sizes[0] = -2147483648`, not its `size()`; and a `BYTEA` parameter built
from the empty vector, whose `data()` is the null pointer, gets a null
`raws[0]` though `isNull(0)` is false. -/
theorem build_postcondition_fails :
    (∃ q, (Parameters.mk_of [⟨.TEXT, some 4096, 2 ^ 31⟩]).build = .ok q ∧
      q.tuple[0]? = some ⟨.TEXT, some 4096, 2 ^ 31⟩ ∧
      q.sizes[0]? = some (-2147483648) ∧ q.sizes[0]? ≠ some ((2 ^ 31 : Nat) : Int)) ∧
    (∃ q, (Parameters.mk_of [⟨.BYTEA, nullptr, 0⟩]).build = .ok q ∧
      q.isNull 0 = .ok false ∧ q.raws[0]? = some nullptr) := by
  refine ⟨⟨⟨[⟨.TEXT, some 4096, 2 ^ 31⟩], 1, [false], [25], [some 4096], [-2147483648], [1]⟩,
    by decide, by decide, by decide, by decide⟩,
    ⟨⟨[⟨.BYTEA, nullptr, 0⟩], 1, [false], [17], [none], [0], [1]⟩,
    by decide, by decide, by decide⟩⟩

/-- Claim C9. Parallel-array lengths: for every parameter tuple of `N` types, in
the state the constructor leaves and in every state the operations reach from
it, the arrays `oids`, `raws`, `sizes`, `formats` and the null flags have length
`N` and `size()` returns `N`; `build()` returns from such a state, and the same
holds after it. -/
theorem parallel_array_lengths (tuple : List Parameter) (ops : List Operation)
    (p : Parameters) (h : (Parameters.mk_of tuple).run ops = .ok p) :
    (Parameters.mk_of tuple).LengthsAre tuple.length ∧
    p.LengthsAre tuple.length ∧
    ∃ q, p.build = .ok q ∧ q.LengthsAre tuple.length := by
  have hwf0 := mk_of_wellFormed tuple
  have hsz0 : (Parameters.mk_of tuple).m_size = tuple.length := by
    simp [Parameters.mk_of, Parameters.s_oids]
  obtain ⟨hwf, hsz, _⟩ := run_ok ops _ p hwf0 h
  obtain ⟨q, hq, hqwf, _, hqsz, _, _, _, _⟩ := build_ok p hwf
  have key : ∀ r : Parameters, r.WellFormed → r.m_size = tuple.length →
      r.LengthsAre tuple.length := by
    intro r hr hrs
    obtain ⟨_, hn, ho, hraw, hs, hf⟩ := hr
    unfold Parameters.LengthsAre Parameters.oids Parameters.raws Parameters.sizes
      Parameters.formats Parameters.size
    exact ⟨ho.trans hrs, hraw.trans hrs, hs.trans hrs, hf.trans hrs, hn.trans hrs, hrs⟩
  exact ⟨key _ hwf0 hsz0, key p hwf (hsz.trans hsz0),
    q, hq, key q hqwf (hqsz.trans (hsz.trans hsz0))⟩

/-- The lengths of C9 on `threeColumns`, before `build()` and after
`setNull(2)` and `build()`. -/
theorem parallel_array_lengths_three :
    (Parameters.mk_of threeColumns).run [.setNull 2, .build] = .ok threeColumnsBuilt ∧
    (Parameters.mk_of threeColumns).LengthsAre 3 ∧
    threeColumnsBuilt.LengthsAre 3 ∧
    ∃ q, threeColumnsBuilt.build = .ok q ∧ q.LengthsAre 3 :=
  ⟨by decide,
    parallel_array_lengths threeColumns [.setNull 2, .build] threeColumnsBuilt
      (by decide)⟩

/-- Claim C10. Formats constancy: for every parameter tuple, `formats()[i]` is 1
for every column `i < size()` in the state the constructor leaves, and no
operation (`setNull`, `build`, assignment to an element) changes the array: in
every state the operations reach, `formats()` is the array of the constructor
and `formats()[i]` is 1 for every `i < size()`. -/
theorem formats_constancy (tuple : List Parameter) (ops : List Operation)
    (p : Parameters) (h : (Parameters.mk_of tuple).run ops = .ok p) :
    p.formats = (Parameters.mk_of tuple).formats ∧
    p.size = tuple.length ∧
    ∀ i, i < p.size → p.formats[i]? = some 1 := by
  have hwf0 := mk_of_wellFormed tuple
  have hsz0 : (Parameters.mk_of tuple).m_size = tuple.length := by
    simp [Parameters.mk_of, Parameters.s_oids]
  obtain ⟨_, hsz, hf⟩ := run_ok ops _ p hwf0 h
  have hfmt : p.m_formats = List.replicate tuple.length 1 := by
    rw [hf]
    simp [Parameters.mk_of, Parameters.s_formats]
  refine ⟨hf, hsz.trans hsz0, ?_⟩
  intro i hi
  unfold Parameters.size at hi
  unfold Parameters.formats
  rw [hfmt, List.getElem?_replicate]
  rw [if_pos (by omega)]

/-- The constancy of C10 on an `INTEGER` and a `TEXT` column through
`setNull`, `build`, an assignment to the first element and a second `build`. -/
theorem formats_constancy_two :
    (Parameters.mk_of [⟨.INTEGER, some 16, 4⟩, ⟨.TEXT, some 32, 5⟩]).run
        [.setNull 1, .build, .assign 0 (some 48) 4, .build] = .ok reassigned ∧
    reassigned.formats
      = (Parameters.mk_of [⟨.INTEGER, some 16, 4⟩, ⟨.TEXT, some 32, 5⟩]).formats ∧
    reassigned.size = [(⟨.INTEGER, some 16, 4⟩ : Parameter), ⟨.TEXT, some 32, 5⟩].length ∧
    ∀ i, i < reassigned.size → reassigned.formats[i]? = some 1 :=
  ⟨by decide,
    formats_constancy [⟨.INTEGER, some 16, 4⟩, ⟨.TEXT, some 32, 5⟩]
      [.setNull 1, .build, .assign 0 (some 48) 4, .build] reassigned (by decide)⟩

/-! ## Lemmas on the calendar, the scalar codecs and the tuple -/

theorem yoe_recover (yoe doy : Int) (h0 : 0 ≤ yoe) (h1 : yoe ≤ 399) (hd0 : 0 ≤ doy)
    (hd1 : doy ≤ 365)
    (hleap : doy = 365 → ((yoe + 1) % 4 = 0 ∧ ((yoe + 1) % 100 ≠ 0 ∨ (yoe + 1) % 400 = 0))) :
    ((yoe * 365 + yoe / 4 - yoe / 100 + doy)
      - (yoe * 365 + yoe / 4 - yoe / 100 + doy) / 1460
      + (yoe * 365 + yoe / 4 - yoe / 100 + doy) / 36524
      - (yoe * 365 + yoe / 4 - yoe / 100 + doy) / 146096) / 365 = yoe := by
  obtain ⟨c, hc⟩ : ∃ c, c = yoe / 100 := ⟨_, rfl⟩
  obtain ⟨t, ht⟩ : ∃ t, t = (yoe % 100) / 4 := ⟨_, rfl⟩
  obtain ⟨s, hs⟩ : ∃ s, s = yoe % 4 := ⟨_, rfl⟩
  have hyoe : yoe = 100 * c + 4 * t + s := by omega
  have hq : yoe / 4 = 25 * c + t := by omega
  have hc' : yoe / 100 = c := hc.symm
  have hcr : 0 ≤ c ∧ c ≤ 3 := by omega
  have htr : 0 ≤ t ∧ t ≤ 24 := by omega
  have hsr : 0 ≤ s ∧ s ≤ 3 := by omega
  have hl : doy ≤ 364 ∨ (s = 3 ∧ (t ≠ 24 ∨ c = 3)) := by omega
  obtain ⟨D, hD⟩ : ∃ D, D = yoe * 365 + yoe / 4 - yoe / 100 + doy := ⟨_, rfl⟩
  rw [← hD]
  have hD' : D = 36524 * c + 1461 * t + 365 * s + doy := by omega
  have hgi : D / 36524 - D / 146096 = c := by
    obtain ⟨hc0, hc3⟩ := hcr
    interval_cases c <;> omega
  have hf : D / 1460 = 25 * c + t + (24 * c + t + 365 * s + doy) / 1460 := by omega
  have hE : (24 * c + t + 365 * s + doy) / 1460 = 0 ∨ (24 * c + t + 365 * s + doy) / 1460 = 1 := by
    omega
  omega

theorem doe_range (yoe doy : Int) (h0 : 0 ≤ yoe) (h1 : yoe ≤ 399) (hd0 : 0 ≤ doy)
    (hd1 : doy ≤ 365) :
    0 ≤ yoe * 365 + yoe / 4 - yoe / 100 + doy ∧
      yoe * 365 + yoe / 4 - yoe / 100 + doy ≤ 146096 := by
  omega

theorem mp_recover (mp d : Int) (h0 : 0 ≤ mp) (h1 : mp ≤ 11) (hd : 1 ≤ d) (hd31 : d ≤ 31)
    (h30 : (mp = 1 ∨ mp = 3 ∨ mp = 6 ∨ mp = 8) → d ≤ 30) (h29 : mp = 11 → d ≤ 29) :
    (5 * ((153 * mp + 2) / 5 + d - 1) + 2) / 153 = mp := by
  interval_cases mp <;> omega

/-- The calendar conversions are inverse to each other on the dates that are
`ok()`. -/
theorem ofSysDays_toSysDays (ymd : year_month_day) (hok : ymd.ok = true) :
    year_month_day.ofSysDays ymd.toSysDays = ymd := by
  obtain ⟨Y, M, Dd⟩ := ymd
  simp only [year_month_day.ok, Bool.and_eq_true, decide_eq_true_eq] at hok
  obtain ⟨⟨⟨⟨⟨hY0, hY1⟩, hM0⟩, hM1⟩, hD0⟩, hD1⟩ := hok
  -- the month, shifted to start in March
  obtain ⟨mp, hmp⟩ : ∃ mp : Int, mp = if M > 2 then (M : Int) - 3 else (M : Int) + 9 := ⟨_, rfl⟩
  obtain ⟨y, hy⟩ : ∃ y : Int, y = if M ≤ 2 then Y - 1 else Y := ⟨_, rfl⟩
  obtain ⟨era, hera⟩ : ∃ era : Int, era = y / 400 := ⟨_, rfl⟩
  obtain ⟨yoe, hyoe⟩ : ∃ yoe : Int, yoe = y - era * 400 := ⟨_, rfl⟩
  obtain ⟨doy, hdoy⟩ : ∃ doy : Int, doy = (153 * mp + 2) / 5 + (Dd : Int) - 1 := ⟨_, rfl⟩
  have hmpr : 0 ≤ mp ∧ mp ≤ 11 := by split_ifs at hmp <;> omega
  have hyoer : 0 ≤ yoe ∧ yoe ≤ 399 := by omega
  have hlen : (Dd : Int) ≤ 31 ∧ ((mp = 1 ∨ mp = 3 ∨ mp = 6 ∨ mp = 8) → (Dd : Int) ≤ 30)
      ∧ (mp = 11 → (Dd : Int) ≤ 29)
      ∧ (mp = 11 → (Dd : Int) = 29 → (Y % 4 = 0 ∧ (Y % 100 ≠ 0 ∨ Y % 400 = 0))) := by
    unfold last_day_of_month is_leap at hD1
    split_ifs at hD1 hmp with h1 h2 h3 h4 <;>
      simp only [Bool.and_eq_true, Bool.or_eq_true, beq_iff_eq, bne_iff_ne, ne_eq] at * <;>
      omega
  have hdoyr : 0 ≤ doy ∧ doy ≤ 365 := by
    obtain ⟨h0, h1⟩ := hmpr
    interval_cases mp <;> omega
  have hleap : doy = 365 →
      ((yoe + 1) % 4 = 0 ∧ ((yoe + 1) % 100 ≠ 0 ∨ (yoe + 1) % 400 = 0)) := by
    intro h365
    have hfeb : mp = 11 ∧ (Dd : Int) = 29 := by
      obtain ⟨h0, h1⟩ := hmpr
      interval_cases mp <;> omega
    have hL := hlen.2.2.2 hfeb.1 hfeb.2
    have hM2 : M ≤ 2 := by split_ifs at hmp <;> omega
    rw [if_pos hM2] at hy
    omega
  obtain ⟨doe, hdoe⟩ : ∃ doe : Int, doe = yoe * 365 + yoe / 4 - yoe / 100 + doy := ⟨_, rfl⟩
  have hdoer : 0 ≤ doe ∧ doe ≤ 146096 := by
    rw [hdoe]
    exact doe_range yoe doy hyoer.1 hyoer.2 hdoyr.1 hdoyr.2
  have hn : year_month_day.toSysDays ⟨Y, M, Dd⟩ = era * 146097 + doe - 719468 := by
    rw [hdoe, hdoy, hyoe, hera, hy, hmp]
    rfl
  have hrec : (doe - doe / 1460 + doe / 36524 - doe / 146096) / 365 = yoe := by
    rw [hdoe]
    exact yoe_recover yoe doy hyoer.1 hyoer.2 hdoyr.1 hdoyr.2 hleap
  have hmprec : (5 * doy + 2) / 153 = mp := by
    rw [hdoy]
    exact mp_recover mp Dd hmpr.1 hmpr.2 (by omega) hlen.1 hlen.2.1 hlen.2.2.1
  have e1 : (era * 146097 + doe - 719468 + 719468) / 146097 = era := by omega
  have e2 : era * 146097 + doe - 719468 + 719468 - era * 146097 = doe := by omega
  have e3 : doe - (365 * yoe + yoe / 4 - yoe / 100) = doy := by omega
  rw [hn]
  unfold year_month_day.ofSysDays
  simp only [e1, e2, hrec, e3, hmprec]
  have hyear : (if (if mp < 10 then mp + 3 else mp - 9) ≤ 2 then yoe + era * 400 + 1
      else yoe + era * 400) = Y := by
    split_ifs at hmp hy ⊢ <;> omega
  have hmonth : (if mp < 10 then mp + 3 else mp - 9).toNat = M := by
    split_ifs at hmp ⊢ <;> omega
  have hday : (doy - (153 * mp + 2) / 5 + 1).toNat = Dd := by omega
  rw [hyear, hmonth, hday, toSigned_toUnsigned 2 (by omega) Y (by norm_num; omega)
    (by norm_num; omega)]

theorem toSysDays_bound (ymd : year_month_day) (hok : ymd.ok = true) :
    -12687794 ≤ ymd.toSysDays ∧ ymd.toSysDays ≤ 11248737 := by
  obtain ⟨Y, M, Dd⟩ := ymd
  simp only [year_month_day.ok, Bool.and_eq_true, decide_eq_true_eq] at hok
  obtain ⟨⟨⟨⟨⟨hY0, hY1⟩, hM0⟩, hM1⟩, hD0⟩, hD1⟩ := hok
  have hD31 : Dd ≤ 31 := by
    unfold last_day_of_month at hD1
    split_ifs at hD1 <;> omega
  obtain ⟨mp, hmp⟩ : ∃ mp : Int, mp = if M > 2 then (M : Int) - 3 else (M : Int) + 9 := ⟨_, rfl⟩
  obtain ⟨y, hy⟩ : ∃ y : Int, y = if M ≤ 2 then Y - 1 else Y := ⟨_, rfl⟩
  obtain ⟨era, hera⟩ : ∃ era : Int, era = y / 400 := ⟨_, rfl⟩
  obtain ⟨yoe, hyoe⟩ : ∃ yoe : Int, yoe = y - era * 400 := ⟨_, rfl⟩
  obtain ⟨doy, hdoy⟩ : ∃ doy : Int, doy = (153 * mp + 2) / 5 + (Dd : Int) - 1 := ⟨_, rfl⟩
  have hmpr : 0 ≤ mp ∧ mp ≤ 11 := by split_ifs at hmp <;> omega
  have hyr : -32768 ≤ y ∧ y ≤ 32767 := by split_ifs at hy <;> omega
  have hyoer : 0 ≤ yoe ∧ yoe ≤ 399 := by omega
  have hn : year_month_day.toSysDays ⟨Y, M, Dd⟩
      = era * 146097 + (yoe * 365 + yoe / 4 - yoe / 100 + doy) - 719468 := by
    rw [hdoy, hyoe, hera, hy, hmp]
    rfl
  rw [hn]
  omega

theorem load_ok (buf : Buffer) (off n : Nat) (h : off + n ≤ buf.length) :
    load buf off n = .ok ((buf.drop off).take n) := by
  unfold load
  rw [if_pos h]

theorem load_all (buf : Buffer) : load buf 0 buf.length = .ok buf := by
  rw [load_ok buf 0 buf.length (by omega)]
  simp

theorem checked_ok (w : Nat) (v : Int) (hlo : -(2 ^ (8 * w - 1)) ≤ v)
    (hhi : v < 2 ^ (8 * w - 1)) : checked w v = .ok v := by
  unfold checked
  rw [if_pos ⟨hlo, hhi⟩]

theorem deref_write (w : Nat) (hw : 0 < w) (v : Int) (hlo : -(2 ^ (8 * w - 1)) ≤ v)
    (hhi : v < 2 ^ (8 * w - 1)) :
    BigEndian.deref w (BigEndian.write w v) 0 = .ok v := by
  rw [deref_at w [] (BigEndian.write w v) [] 0 _ (by simp) rfl (by rw [length_write]),
    read_write w hw v hlo hhi]

theorem assign_INET_ok (array x : Buffer) (harray : array.length = 20)
    (hx : x.length = 16) :
    Parameter_INET.assign array x = .ok ([3, 128, 0, 16] ++ x) := by
  unfold Parameter_INET.assign Address.size
  dsimp only
  have e1 := store_at [] array [Parameter_INET.addressFamily] 0 rfl
    (by simp only [List.length_singleton]; omega)
  rw [List.nil_append] at e1
  rw [e1, ok_bind]
  have e2 := store_at ([] ++ [Parameter_INET.addressFamily]) (array.drop 1) [128] (0 + 1)
    (by simp) (by simp only [List.length_singleton, List.length_drop]; omega)
  simp only [List.length_singleton] at e2 ⊢
  rw [e2, ok_bind]
  have e3 := store_at ([] ++ [Parameter_INET.addressFamily] ++ [128]) ((array.drop 1).drop 1)
    [0] (0 + 1 + 1) (by simp) (by simp only [List.length_singleton, List.length_drop]; omega)
  simp only [List.length_singleton] at e3
  rw [e3, ok_bind]
  have e4 := store_at ([] ++ [Parameter_INET.addressFamily] ++ [128] ++ [0])
    (((array.drop 1).drop 1).drop 1) [16] (0 + 1 + 1 + 1) (by simp)
    (by simp only [List.length_singleton, List.length_drop]; omega)
  simp only [List.length_singleton] at e4
  rw [e4, ok_bind]
  have e5 : load x 0 16 = .ok x := by
    rw [← hx]
    exact load_all x
  rw [e5, ok_bind]
  have e6 := store_at ([] ++ [Parameter_INET.addressFamily] ++ [128] ++ [0] ++ [16])
    ((((array.drop 1).drop 1).drop 1).drop 1) x (0 + 1 + 1 + 1 + 1) (by simp)
    (by simp only [List.length_drop]; omega)
  rw [e6]
  have hnil : (((((array.drop 1).drop 1).drop 1).drop 1).drop x.length) = [] :=
    List.eq_nil_of_length_eq_zero (by simp only [List.length_drop]; omega)
  rw [hnil]
  simp [Parameter_INET.addressFamily, Traits.addressFamily, PGSQL_AF_INET6]

theorem field_INET_8 (data value : Buffer) (hdata : data.length = 8)
    (hvalue : value.length = 16) :
    Results_base.field_INET data value
      = .ok (List.replicate 10 0 ++ List.replicate 2 255 ++ (data.drop 4).take 4) := by
  unfold Results_base.field_INET PQgetlength
  dsimp only
  rw [if_pos (by rw [hdata]; rfl)]
  have e1 := store_at [] value (List.replicate 10 0) 0 rfl
    (by simp only [List.length_replicate]; omega)
  rw [List.nil_append] at e1
  rw [e1, ok_bind]
  have e2 := store_at ([] ++ List.replicate 10 0) (value.drop (List.replicate 10 0).length)
    (List.replicate 2 255) (0 + 10) (by simp)
    (by simp only [List.length_replicate, List.length_drop]; omega)
  rw [e2, ok_bind, load_ok data 4 4 (by omega), ok_bind]
  have e3 := store_at ([] ++ List.replicate 10 0 ++ List.replicate 2 255)
    ((value.drop (List.replicate 10 0).length).drop (List.replicate 2 255).length)
    ((data.drop 4).take 4) (0 + 10 + 2) (by simp)
    (by simp only [List.length_replicate, List.length_drop, List.length_take]; omega)
  rw [e3]
  have hnil : (((value.drop (List.replicate 10 0).length).drop
      (List.replicate 2 255).length).drop ((data.drop 4).take 4).length) = [] :=
    List.eq_nil_of_length_eq_zero (by
      simp only [List.length_replicate, List.length_drop, List.length_take]; omega)
  rw [hnil]
  simp

theorem field_INET_20 (data value : Buffer) (hdata : data.length = 20)
    (hvalue : value.length = 16) :
    Results_base.field_INET data value = .ok ((data.drop 4).take 16) := by
  unfold Results_base.field_INET PQgetlength Address.size
  dsimp only
  rw [if_neg (by rw [hdata]; decide), if_pos (by rw [hdata]; rfl),
    load_ok data 4 16 (by omega), ok_bind]
  have e1 := store_at [] value ((data.drop 4).take 16) 0 rfl
    (by simp only [List.length_drop, List.length_take]; omega)
  rw [List.nil_append] at e1
  rw [e1]
  have hnil : value.drop ((data.drop 4).take 16).length = [] :=
    List.eq_nil_of_length_eq_zero (by
      simp only [List.length_drop, List.length_take]; omega)
  rw [hnil]
  simp

theorem field_INET_other (data value : Buffer) (h8 : data.length ≠ 8)
    (h20 : data.length ≠ 20) :
    Results_base.field_INET data value = .ok value := by
  unfold Results_base.field_INET PQgetlength
  dsimp only
  rw [if_neg (by omega), if_neg (by omega)]
  rfl

/-- The invariant that ties `m_oids` to the types of the tuple. -/
theorem apply_oids (p q : Parameters) (op : Operation) (hp : p.WellFormed)
    (hinv : ∀ (i : Nat) (parameter : Parameter), p.tuple[i]? = some parameter →
      p.m_oids[i]? = some (Parameter.oid parameter.type))
    (h : p.apply op = .ok q) :
    ∀ (i : Nat) (parameter : Parameter), q.tuple[i]? = some parameter →
      q.m_oids[i]? = some (Parameter.oid parameter.type) := by
  cases op with
  | setNull column =>
    change p.setNull column = .ok q at h
    unfold Parameters.setNull vset at h
    by_cases hc : column < p.m_nulls.length
    · rw [if_pos hc, ok_bind] at h
      cases h
      exact hinv
    · rw [if_neg hc, error_bind] at h
      cases h
  | build =>
    obtain ⟨q', hq', _, ht, _, _, ho, _, _⟩ := build_ok p hp
    change p.build = .ok q at h
    rw [hq'] at h
    cases h
    intro i parameter hpar
    rw [ht] at hpar
    rw [ho]
    exact hinv i parameter hpar
  | assign column data size =>
    change (do
      let parameter ← vget p.tuple column
      let tuple ← vset p.tuple column ⟨parameter.type, data, size⟩
      pure { p with tuple := tuple }) = Except.ok q at h
    unfold vget vset at h
    cases hpar : p.tuple[column]? with
    | none =>
      rw [hpar] at h
      cases h
    | some parameter =>
      rw [hpar] at h
      simp only [ok_bind] at h
      by_cases hc : column < p.tuple.length
      · rw [if_pos hc, ok_bind] at h
        cases h
        intro i parameter' hpar'
        simp only [List.getElem?_set] at hpar'
        by_cases hic : column = i
        · subst hic
          rw [if_pos rfl, if_pos hc] at hpar'
          cases hpar'
          exact hinv column parameter hpar
        · rw [if_neg hic] at hpar'
          exact hinv i parameter' hpar'
      · rw [if_neg hc, error_bind] at h
        cases h

theorem run_oids (ops : List Operation) :
    ∀ p q : Parameters, p.WellFormed →
      (∀ (i : Nat) (parameter : Parameter), p.tuple[i]? = some parameter →
        p.m_oids[i]? = some (Parameter.oid parameter.type)) →
      p.run ops = .ok q →
      ∀ (i : Nat) (parameter : Parameter), q.tuple[i]? = some parameter →
        q.m_oids[i]? = some (Parameter.oid parameter.type) := by
  induction ops with
  | nil =>
    intro p q _ hinv h
    cases h
    exact hinv
  | cons op ops ih =>
    intro p q hp hinv h
    unfold Parameters.run at h
    cases hstep : p.apply op with
    | error e =>
      rw [hstep, error_bind] at h
      cases h
    | ok p1 =>
      rw [hstep, ok_bind] at h
      exact ih p1 q (apply_ok p p1 op hp hstep).1 (apply_oids p p1 op hp hinv hstep) h

theorem mk_of_oids (tuple : List Parameter) :
    ∀ (i : Nat) (parameter : Parameter), (Parameters.mk_of tuple).tuple[i]? = some parameter →
      (Parameters.mk_of tuple).m_oids[i]? = some (Parameter.oid parameter.type) := by
  intro i parameter h
  simp only [Parameters.mk_of, Parameters.s_oids, List.map_map, List.getElem?_map] at h ⊢
  rw [h]
  rfl

theorem build_twice (p : Parameters) (hp : p.WellFormed) :
    ∃ q, p.build = .ok q ∧ q.build = .ok q := by
  obtain ⟨q, hq, hqwf, hqt, hqsz, hqn, hqo, hqf, hqpost⟩ := build_ok p hp
  obtain ⟨r, hr, hrwf, hrt, hrsz, hrn, hro, hrf, hrpost⟩ := build_ok q hqwf
  refine ⟨q, hq, ?_⟩
  rw [hr]
  congr 1
  have hraws : r.m_raws = q.m_raws ∧ r.m_sizes = q.m_sizes := by
    constructor
    · apply List.ext_getElem?
      intro i
      by_cases hi : i < q.m_size
      · have hit : i < p.tuple.length := by
          have := hp.1
          omega
        have hin : i < p.m_nulls.length := by
          have := hp.2.1
          omega
        have h1 := (hqpost i p.tuple[i] p.m_nulls[i] (List.getElem?_eq_getElem hit)
          (List.getElem?_eq_getElem hin)).1
        have h2 := (hrpost i p.tuple[i] p.m_nulls[i]
          (by rw [hqt]; exact List.getElem?_eq_getElem hit)
          (by rw [hqn]; exact List.getElem?_eq_getElem hin)).1
        rw [h1, h2]
      · rw [List.getElem?_eq_none (by have := hrwf.2.2.2.1; omega),
          List.getElem?_eq_none (by have := hqwf.2.2.2.1; omega)]
    · apply List.ext_getElem?
      intro i
      by_cases hi : i < q.m_size
      · have hit : i < p.tuple.length := by
          have := hp.1
          omega
        have hin : i < p.m_nulls.length := by
          have := hp.2.1
          omega
        have h1 := (hqpost i p.tuple[i] p.m_nulls[i] (List.getElem?_eq_getElem hit)
          (List.getElem?_eq_getElem hin)).2
        have h2 := (hrpost i p.tuple[i] p.m_nulls[i]
          (by rw [hqt]; exact List.getElem?_eq_getElem hit)
          (by rw [hqn]; exact List.getElem?_eq_getElem hin)).2
        rw [h1, h2]
      · rw [List.getElem?_eq_none (by have := hrwf.2.2.2.2.1; omega),
          List.getElem?_eq_none (by have := hqwf.2.2.2.2.1; omega)]
  obtain ⟨h1, h2⟩ := hraws
  cases q
  cases r
  simp only [Parameters.mk.injEq] at *
  exact ⟨hrt, hrsz, hrn, hro, h1, h2, hrf⟩

/-! ## The type catalog -/

/-- Claim C11. OID self-consistency: for every supported parameter type `T`,
`Parameter<T>::oid` equals `Traits<T>::oid`; in every state of a parameter tuple
`oids()[i]` is `Traits<Types[i]>::oid` for every column `i`; and
`Traits<T>::verifyType` accepts a column whose declared OID is `Traits<T>::oid`
and whose declared size is the expected one when `T` is a fixed-width scalar. -/
theorem oid_self_consistency :
    (∀ T : SqlType, Parameter.oid T = Traits.oid T) ∧
    (∀ (tuple : List Parameter) (ops : List Operation) (p : Parameters),
      (Parameters.mk_of tuple).run ops = .ok p →
      ∀ (i : Nat) (parameter : Parameter), p.tuple[i]? = some parameter →
        p.oids[i]? = some (Traits.oid parameter.type)) ∧
    (∀ (T : SqlType) (result : PGresult) (column : Int),
      result.PQftype column = Traits.oid T →
      (∀ size, expectedFieldSize T = some size → result.PQfsize column = size) →
      Traits.verifyType T result column = true) := by
  have hoid : ∀ T : SqlType, Parameter.oid T = Traits.oid T := by
    intro T
    cases T <;> rfl
  refine ⟨hoid, ?_, ?_⟩
  · intro tuple ops p h i parameter hpar
    have := run_oids ops _ p (mk_of_wellFormed tuple) (mk_of_oids tuple) h i parameter hpar
    rw [← hoid]
    exact this
  · intro T result column htype hsize
    cases T <;>
      simp [Traits.verifyType, expectedFieldSize] at hsize ⊢ <;>
      simp [htype, hsize]

/-- The consistency of C11 on the tuple `twoColumns` after `setNull(1)` and on
the result `smallintThenText`, whose column 0 verifies as `SMALLINT` and whose
column 5 verifies as `TEXT`. -/
theorem oid_self_consistency_two :
    twoColumnsNull.oids[0]? = some (Traits.oid .SMALLINT) ∧
    twoColumnsNull.oids[1]? = some (Traits.oid .BOOL) ∧
    Traits.verifyType .SMALLINT smallintThenText 0 = true ∧
    Traits.verifyType .TEXT smallintThenText 5 = true ∧
    Traits.verifyType .INTEGER smallintThenText 0 = false :=
  ⟨oid_self_consistency.2.1 twoColumns [.setNull 1] twoColumnsNull (by decide) 0 _ rfl,
    oid_self_consistency.2.1 twoColumns [.setNull 1] twoColumnsNull (by decide) 1 _ rfl,
    oid_self_consistency.2.2 .SMALLINT smallintThenText 0 (by decide) (by decide),
    oid_self_consistency.2.2 .TEXT smallintThenText 5 (by decide) (by decide),
    by decide⟩

/-- Claim C12. OID table: the catalog reports BOOL = 16, BYTEA = 17, BIGINT = 20,
SMALLINT = 21, INTEGER = 23, TEXT = 25 and WTEXT = 25, REAL = 700, DOUBLE = 701,
INET = 869, ARRAY<SMALLINT> = 1005, ARRAY<INTEGER> = 1007, ARRAY<BIGINT> = 1016,
ARRAY<TEXT> = 1009 and ARRAY<WTEXT> = 1009, ARRAY<REAL> = 1021,
ARRAY<DOUBLE> = 1022, DATE = 1082, TIMESTAMPTZ = 1184, and the 13-column tuple
of the test reports these values column by column. -/
theorem oid_table :
    Traits.oid .BOOL = 16 ∧ Traits.oid .BYTEA = 17 ∧ Traits.oid .BIGINT = 20 ∧
    Traits.oid .SMALLINT = 21 ∧ Traits.oid .INTEGER = 23 ∧ Traits.oid .TEXT = 25 ∧
    Traits.oid .WTEXT = 25 ∧ Traits.oid .REAL = 700 ∧ Traits.oid .DOUBLE_PRECISION = 701 ∧
    Traits.oid .INET = 869 ∧ Traits.oid .ARRAY_SMALLINT = 1005 ∧
    Traits.oid .ARRAY_INTEGER = 1007 ∧ Traits.oid .ARRAY_BIGINT = 1016 ∧
    Traits.oid .ARRAY_TEXT = 1009 ∧ Traits.oid .ARRAY_WTEXT = 1009 ∧
    Traits.oid .ARRAY_REAL = 1021 ∧ Traits.oid .ARRAY_DOUBLE_PRECISION = 1022 ∧
    Traits.oid .DATE = 1082 ∧ Traits.oid .TIMESTAMPTZ = 1184 ∧
    Parameters.s_oids testTypes
      = [21, 23, 20, 25, 700, 701, 17, 25, 1005, 1009, 1009, 16, 16] := by
  decide

/-- Claim C13. `build` is idempotent: in every state the operations reach from
the constructor (every tuple, every assignment of null flags), `build()`
returns, and a second `build()` right after it returns the very same object:
`oids`, `raws`, `sizes`, `formats`, the null flags and the tuple are as the first
call left them. -/
theorem build_idempotent (tuple : List Parameter) (ops : List Operation) (p : Parameters)
    (h : (Parameters.mk_of tuple).run ops = .ok p) :
    ∃ q, p.build = .ok q ∧ q.build = .ok q ∧
      ∀ r, q.build = .ok r →
        r.oids = q.oids ∧ r.raws = q.raws ∧ r.sizes = q.sizes ∧ r.formats = q.formats
          ∧ r.m_nulls = q.m_nulls := by
  obtain ⟨hwf, _, _⟩ := run_ok ops _ p (mk_of_wellFormed tuple) h
  obtain ⟨q, hq, hqq⟩ := build_twice p hwf
  refine ⟨q, hq, hqq, ?_⟩
  intro r hr
  rw [hqq] at hr
  cases hr
  exact ⟨rfl, rfl, rfl, rfl, rfl⟩

/-- The idempotence of C13 on `twoColumns` with the second column set null. -/
theorem build_idempotent_two :
    (Parameters.mk_of twoColumns).run [.setNull 1] = .ok twoColumnsNull ∧
    ∃ q, twoColumnsNull.build = .ok q ∧ q.build = .ok q ∧
      ∀ r, q.build = .ok r →
        r.oids = q.oids ∧ r.raws = q.raws ∧ r.sizes = q.sizes ∧ r.formats = q.formats
          ∧ r.m_nulls = q.m_nulls :=
  ⟨by decide, build_idempotent twoColumns [.setNull 1] twoColumnsNull (by decide)⟩

/-! ## INET -/

/-- Claim C14. INET encode layout: for every 16-byte address `a`, whatever the
array held before, `Parameter<INET>(a)` is exactly the 20 bytes `3, 128, 0, 16`
followed by the 16 bytes of `a` in order. -/
theorem inet_encode_layout (array a : Buffer) (harray : array.length = Parameter_INET.size)
    (ha : a.length = Address.size) :
    Parameter_INET.assign array a = .ok ([3, 128, 0, 16] ++ a) ∧
    ([3, 128, 0, 16] ++ a).length = 20 := by
  refine ⟨assign_INET_ok array a harray ha, ?_⟩
  rw [List.length_append, ha]
  rfl

/-- The layout of C14 on the address `::ffff:179.124.131.145` of the test. -/
theorem inet_encode_layout_mapped :
    (List.replicate 20 170).length = Parameter_INET.size ∧
    mappedAddress.length = Address.size ∧
    Parameter_INET.assign (List.replicate 20 170) mappedAddress
      = .ok [3, 128, 0, 16, 0, 0, 0, 0, 0, 0, 0, 0, 0, 0, 255, 255, 179, 124, 131, 145] :=
  ⟨by decide, by decide,
    (inet_encode_layout (List.replicate 20 170) mappedAddress (by decide) (by decide)).1⟩

/-- Claim C15. INET decode canonicalisation: on an `Address` of 16 bytes, for
every field of length 8 the decoded address is ten `0x00` bytes, two `0xFF`
bytes, then the field bytes 4 to 7; for every field of length 20 it is the field
bytes 4 to 19; for every other field length the address is left exactly as it
was before the call. -/
theorem inet_decode (data value : Buffer) (hvalue : value.length = Address.size) :
    (data.length = 8 → Results_base.field_INET data value
      = .ok (List.replicate 10 0 ++ List.replicate 2 255 ++ (data.drop 4).take 4)) ∧
    (data.length = 20 → Results_base.field_INET data value = .ok ((data.drop 4).take 16)) ∧
    (data.length ≠ 8 → data.length ≠ 20 → Results_base.field_INET data value = .ok value) :=
  ⟨fun h => field_INET_8 data value h hvalue,
    fun h => field_INET_20 data value h hvalue,
    fun h8 h20 => field_INET_other data value h8 h20⟩

/-- The canonicalisation of C15 on the IPv4 field of `179.124.131.145`, into
an address that held sixteen bytes 7, and on a field of 3 bytes. -/
theorem inet_decode_ipv4 :
    (List.replicate 16 7).length = Address.size ∧
    Results_base.field_INET [2, 32, 0, 4, 179, 124, 131, 145] (List.replicate 16 7)
      = .ok mappedAddress ∧
    Results_base.field_INET [2, 32, 0] (List.replicate 16 7) = .ok (List.replicate 16 7) :=
  ⟨by decide,
    ((inet_decode [2, 32, 0, 4, 179, 124, 131, 145] (List.replicate 16 7)
      (by decide)).1 (by decide)).trans (by decide),
    (inet_decode [2, 32, 0] (List.replicate 16 7) (by decide)).2.2 (by decide) (by decide)⟩

/-- Claim C16. INET round trip: for every 16-byte address `a`, decoding the 20
bytes that `Parameter<INET>(a)` holds returns `a`, whatever the array and the
output address held before; for an IPv4-mapped address the result is ten zero
bytes, `0xFF`, `0xFF` and the four bytes of the IPv4 address. -/
theorem inet_round_trip (array a value : Buffer)
    (harray : array.length = Parameter_INET.size) (ha : a.length = Address.size)
    (hvalue : value.length = Address.size) :
    ∃ bytes, Parameter_INET.assign array a = .ok bytes ∧ bytes.length = 20 ∧
      Results_base.field_INET bytes value = .ok a ∧
      ∀ b0 b1 b2 b3 : Byte, a = List.replicate 10 0 ++ [255, 255, b0, b1, b2, b3] →
        Results_base.field_INET bytes value
          = .ok [0, 0, 0, 0, 0, 0, 0, 0, 0, 0, 255, 255, b0, b1, b2, b3] := by
  have hlen : ([3, 128, 0, 16] ++ a).length = 20 := by
    rw [List.length_append, ha]
    rfl
  have hdec : Results_base.field_INET ([3, 128, 0, 16] ++ a) value = .ok a := by
    rw [field_INET_20 _ value hlen hvalue]
    congr 1
    have : a.length = 16 := ha
    simp [← this]
  refine ⟨_, assign_INET_ok array a harray ha, hlen, hdec, ?_⟩
  intro b0 b1 b2 b3 hmapped
  rw [hdec, hmapped]
  rfl

/-- The round trip of C16 on the address `::ffff:179.124.131.145` of the
test. -/
theorem inet_round_trip_mapped :
    (List.replicate 20 170).length = Parameter_INET.size ∧
    mappedAddress.length = Address.size ∧
    (List.replicate 16 7).length = Address.size ∧
    ∃ bytes, Parameter_INET.assign (List.replicate 20 170) mappedAddress = .ok bytes ∧
      Results_base.field_INET bytes (List.replicate 16 7) = .ok mappedAddress := by
  obtain ⟨bytes, h1, _, h2, _⟩ := inet_round_trip (List.replicate 20 170) mappedAddress
    (List.replicate 16 7) (by decide) (by decide) (by decide)
  exact ⟨by decide, by decide, by decide, bytes, h1, h2⟩

/-! ## TIMESTAMPTZ and DATE -/

/-- Claim C17. TIMESTAMPTZ epoch conversion: for every instant `t` of the type,
given as its 64-bit count `u` of microseconds since 1970-01-01T00:00:00Z, with
`u - 946684800000000` representable in a signed 64-bit integer, the encoded
parameter is the 8-byte big-endian value `u - 946684800000000`, and the
TIMESTAMPTZ result decoder applied to those 8 bytes returns `t`. -/
theorem timestamptz_epoch_conversion (u : Int)
    (ht : -(2 ^ 63) ≤ u ∧ u < 2 ^ 63)
    (hr : -(2 ^ 63) ≤ u - 946684800000000 ∧ u - 946684800000000 < 2 ^ 63) :
    Parameter_TIMESTAMPTZ.mk_of u = .ok (BigEndian.write 8 (u - 946684800000000)) ∧
    Results_base.field_TIMESTAMPTZ (BigEndian.write 8 (u - 946684800000000)) = .ok u := by
  have he : epochMicroseconds = 946684800000000 := by decide
  constructor
  · unfold Parameter_TIMESTAMPTZ.mk_of Parameter_TIMESTAMPTZ.convert
    rw [he, checked_ok 8 _ (by norm_num; omega) (by norm_num; omega), ok_bind]
    rfl
  · unfold Results_base.field_TIMESTAMPTZ
    rw [deref_write 8 (by omega) _ (by norm_num; omega) (by norm_num; omega), ok_bind, he]
    have : (946684800000000 : Int) + (u - 946684800000000) = u := by ring
    rw [this]
    exact checked_ok 8 u (by norm_num; omega) (by norm_num; omega)

/-- The conversion of C17 on 2000-01-01T00:00:00Z, which encodes as 0. -/
theorem timestamptz_epoch_conversion_zero :
    Parameter_TIMESTAMPTZ.mk_of 946684800000000 = .ok [0, 0, 0, 0, 0, 0, 0, 0] ∧
    Results_base.field_TIMESTAMPTZ [0, 0, 0, 0, 0, 0, 0, 0] = .ok 946684800000000 :=
  ⟨(timestamptz_epoch_conversion 946684800000000 (by decide) (by decide)).1.trans
      (by decide),
    by
      have h := (timestamptz_epoch_conversion 946684800000000 (by decide) (by decide)).2
      exact h⟩

/-- Claim C18. DATE epoch conversion: for every valid calendar date `d`, with
day number `n` (days since 1970-01-01), `n - 10957` fits a signed 32-bit integer,
the encoded parameter is the 4-byte big-endian value `n - 10957`, and the DATE
result decoder applied to those 4 bytes returns `d`. -/
theorem date_epoch_conversion (d : year_month_day) (hok : d.ok = true) :
    (-(2 ^ 31) ≤ d.toSysDays - 10957 ∧ d.toSysDays - 10957 < 2 ^ 31) ∧
    Parameter_DATE.mk_of d = BigEndian.write 4 (d.toSysDays - 10957) ∧
    Results_base.field_DATE (BigEndian.write 4 (d.toSysDays - 10957)) = .ok d := by
  have he : epochDays = 10957 := by decide
  obtain ⟨hlo, hhi⟩ := toSysDays_bound d hok
  have hfit : -(2 ^ 31) ≤ d.toSysDays - 10957 ∧ d.toSysDays - 10957 < 2 ^ 31 := by
    constructor <;> norm_num <;> omega
  have hconv : Parameter_DATE.convert d = d.toSysDays - 10957 := by
    unfold Parameter_DATE.convert toInt32
    rw [he]
    exact toSigned_toUnsigned 4 (by omega) _ (by norm_num; omega) (by norm_num; omega)
  refine ⟨hfit, ?_, ?_⟩
  · unfold Parameter_DATE.mk_of
    rw [hconv]
  · unfold Results_base.field_DATE
    rw [deref_write 4 (by omega) _ (by norm_num; omega) (by norm_num; omega), ok_bind, he]
    have : (10957 : Int) + (d.toSysDays - 10957) = d.toSysDays := by ring
    rw [this, ofSysDays_toSysDays d hok]
    rfl

/-- The conversion of C18 on 2000-01-01, which encodes as 0, and on 1970-01-01,
which encodes as -10957. -/
theorem date_epoch_conversion_epochs :
    (⟨2000, 1, 1⟩ : year_month_day).toSysDays = 10957 ∧
    (⟨1970, 1, 1⟩ : year_month_day).toSysDays = 0 ∧
    Parameter_DATE.mk_of ⟨2000, 1, 1⟩ = BigEndian.write 4 0 ∧
    Parameter_DATE.mk_of ⟨1970, 1, 1⟩ = BigEndian.write 4 (-10957) ∧
    Results_base.field_DATE (BigEndian.write 4 (-10957)) = .ok ⟨1970, 1, 1⟩ :=
  ⟨by decide, by decide,
    (date_epoch_conversion ⟨2000, 1, 1⟩ (by decide)).2.1,
    (date_epoch_conversion ⟨1970, 1, 1⟩ (by decide)).2.1,
    (date_epoch_conversion ⟨1970, 1, 1⟩ (by decide)).2.2⟩

/-! ## BOOL, TEXT and BYTEA -/

/-- Claim C19. BOOL codec: `Parameter<BOOL>(b)` has size 1 and its single byte
is `0x00` for false and `0x01` for true; the BOOL result decoder returns true
exactly when the first field byte is not zero; hence decoding the encoding of
`b` returns `b` for both values of `b`. -/
theorem bool_codec :
    (∀ b : Bool, (Parameter_BOOL.mk_of b).size = 1 ∧
      (Parameter_BOOL.mk_of b).data = [if b then 1 else 0]) ∧
    (∀ (first : Byte) (rest : Buffer),
      Results_base.field_BOOL (first :: rest) = .ok (decide (first ≠ 0))) ∧
    (∀ b : Bool, Results_base.field_BOOL (Parameter_BOOL.mk_of b).data = .ok b) := by
  refine ⟨fun b => ⟨rfl, rfl⟩, ?_, ?_⟩
  · intro first rest
    unfold Results_base.field_BOOL
    rw [load_ok _ 0 1 (by simp), ok_bind]
    by_cases h : first = 0
    · subst h
      rfl
    · simp [pure, Except.pure, bne, h]
  · intro b
    cases b <;> decide

/-- Claim C20. TEXT and BYTEA are verbatim: for every byte string `s`,
`Parameter<TEXT>(s)` and `Parameter<BYTEA>(s)` expose `size()` equal to the
number of bytes of `s` and `data()` equal to those bytes; and for every `s` that
a field can hold (its length is an `int`), the TEXT decoder, respectively the
`ARRAY<char>` decoder, applied to a field holding those bytes returns `s`,
whatever the bytes are and whatever the output held before. -/
theorem text_bytea_verbatim :
    (∀ s : List Byte, (Parameter_TEXT.mk_of s).size = s.length ∧
      (Parameter_TEXT.mk_of s).data = s) ∧
    (∀ s : List Byte, (Parameter_BYTEA.mk_of s).size = s.length ∧
      (Parameter_BYTEA.mk_of s).data = s) ∧
    (∀ s value : List Byte, s.length < 2 ^ 31 →
      Results_base.field_TEXT (Parameter_TEXT.mk_of s).data value = .ok s) ∧
    (∀ s value : List Byte, s.length < 2 ^ 31 →
      Results_base.field_char (Parameter_BYTEA.mk_of s).data value = .ok s) := by
  refine ⟨fun s => ⟨rfl, rfl⟩, fun s => ⟨rfl, rfl⟩, ?_, ?_⟩
  · intro s value _
    unfold Results_base.field_TEXT PQgetlength Parameter_TEXT.data Parameter_TEXT.mk_of
    rw [if_neg (by omega), Int.toNat_ofNat]
    exact load_all s
  · intro s value hs
    unfold Results_base.field_char PQgetlength Parameter_BYTEA.data Parameter_BYTEA.mk_of
      toUInt32 toUnsigned
    have : ((s.length : Int) % 2 ^ (8 * 4)).toNat = s.length := by
      rw [Int.emod_eq_of_lt (by omega) (by norm_num; omega)]
      exact Int.toNat_ofNat _
    simp only [this]
    exact load_all s

/-- The codecs of C20 on bytes that are not valid UTF-8 and contain a NUL. -/
theorem text_bytea_verbatim_bytes :
    (Parameter_TEXT.mk_of [0xC3, 0x28, 0x00, 0xFF]).size = 4 ∧
    Results_base.field_TEXT (Parameter_TEXT.mk_of [0xC3, 0x28, 0x00, 0xFF]).data [1, 2]
      = .ok [0xC3, 0x28, 0x00, 0xFF] ∧
    Results_base.field_char (Parameter_BYTEA.mk_of [0xC3, 0x28, 0x00, 0xFF]).data [1, 2]
      = .ok [0xC3, 0x28, 0x00, 0xFF] :=
  ⟨(text_bytea_verbatim.1 [0xC3, 0x28, 0x00, 0xFF]).1,
    text_bytea_verbatim.2.2.1 [0xC3, 0x28, 0x00, 0xFF] [1, 2] (by decide),
    text_bytea_verbatim.2.2.2 [0xC3, 0x28, 0x00, 0xFF] [1, 2] (by decide)⟩

/-! ## Lemmas on UTF-8, wide strings and the array fields -/

theorem isContinuation_low (n : Nat) (h : n < 64) : isContinuation (0x80 + n) = true := by
  have h1 : (0x80 : Nat) ≤ 0x80 + n := by omega
  have h2 : (0x80 : Nat) + n < 0xC0 := by omega
  simp only [isContinuation, Bool.and_eq_true, decide_eq_true_eq]
  exact ⟨h1, h2⟩

theorem decode_encode (c : Nat) (bytes tail : List Byte)
    (h : codecvt_utf8.encode c = some bytes) :
    codecvt_utf8.decode (bytes ++ tail) = .character c tail ∧ 0 < bytes.length := by
  unfold codecvt_utf8.encode at h
  split_ifs at h with h1 h2 h3 h4
  · cases h
    refine ⟨?_, by simp⟩
    rw [List.singleton_append]
    unfold codecvt_utf8.decode
    dsimp only
    rw [if_pos h1]
  · cases h
    refine ⟨?_, by simp⟩
    have a1 : ¬ (0xC0 + c / 64 < 0x80) := by omega
    have a2 : ¬ (0xC0 + c / 64 < 0xC2) := by omega
    have a3 : 0xC0 + c / 64 < 0xE0 := by omega
    have a4 := isContinuation_low (c % 64) (by omega)
    have a5 : (0xC0 + c / 64 - 0xC0) * 64 + (0x80 + c % 64 - 0x80) = c := by omega
    rw [List.cons_append, List.cons_append, List.nil_append, codecvt_utf8.decode, if_neg a1,
      if_neg a2, if_pos a3]
    simp only [a4, if_true, a5]
  · cases h
    refine ⟨?_, by simp⟩
    have a1 : ¬ (0xE0 + c / 4096 < 0x80) := by omega
    have a2 : ¬ (0xE0 + c / 4096 < 0xC2) := by omega
    have a3 : ¬ (0xE0 + c / 4096 < 0xE0) := by omega
    have a4 : 0xE0 + c / 4096 < 0xF0 := by omega
    have a5 := isContinuation_low (c / 64 % 64) (by omega)
    have a6 := isContinuation_low (c % 64) (by omega)
    have a7 : (!(0xE0 + c / 4096 == 0xE0 && decide (0x80 + c / 64 % 64 < 0xA0))) = true := by
      by_cases e : 0xE0 + c / 4096 = 0xE0
      · have : ¬ (0x80 + c / 64 % 64 < 0xA0) := by omega
        simp [this]
      · simp [e]
    have a9 : (0xE0 + c / 4096 - 0xE0) * 4096 + (0x80 + c / 64 % 64 - 0x80) * 64
        + (0x80 + c % 64 - 0x80) = c := by omega
    rw [List.cons_append, List.cons_append, List.cons_append, List.nil_append,
      codecvt_utf8.decode, if_neg a1, if_neg a2, if_neg a3, if_pos a4]
    simp only [a5, a6, a7, Bool.and_self, if_true, a9]
  · cases h
    refine ⟨?_, by simp⟩
    have a1 : ¬ (0xF0 + c / 262144 < 0x80) := by omega
    have a2 : ¬ (0xF0 + c / 262144 < 0xC2) := by omega
    have a3 : ¬ (0xF0 + c / 262144 < 0xE0) := by omega
    have a4 : ¬ (0xF0 + c / 262144 < 0xF0) := by omega
    have a4b : 0xF0 + c / 262144 < 0xF5 := by omega
    have a5 := isContinuation_low (c / 4096 % 64) (by omega)
    have a6 := isContinuation_low (c / 64 % 64) (by omega)
    have a6b := isContinuation_low (c % 64) (by omega)
    have a7 : (!(0xF0 + c / 262144 == 0xF0 && decide (0x80 + c / 4096 % 64 < 0x90)))
        = true := by
      by_cases e : 0xF0 + c / 262144 = 0xF0
      · have : ¬ (0x80 + c / 4096 % 64 < 0x90) := by omega
        simp [this]
      · simp [e]
    have a8 : (!(0xF0 + c / 262144 == 0xF4 && decide (0x90 ≤ 0x80 + c / 4096 % 64)))
        = true := by
      by_cases e : 0xF0 + c / 262144 = 0xF4
      · have : ¬ (0x90 ≤ 0x80 + c / 4096 % 64) := by omega
        simp [this]
      · simp [e]
    have a9 : (0xF0 + c / 262144 - 0xF0) * 262144 + (0x80 + c / 4096 % 64 - 0x80) * 4096
        + (0x80 + c / 64 % 64 - 0x80) * 64 + (0x80 + c % 64 - 0x80) = c := by omega
    rw [List.cons_append, List.cons_append, List.cons_append, List.cons_append,
      List.nil_append, codecvt_utf8.decode, if_neg a1, if_neg a2, if_neg a3, if_neg a4,
      if_pos a4b]
    simp only [a5, a6, a6b, a7, a8, Bool.and_self, if_true, a9]

theorem do_in_loop_do_out (w : List Nat) :
    ∀ (bytes : List Byte) (fuel : Nat), codecvt_utf8.do_out w = some bytes →
      bytes.length ≤ fuel → codecvt_utf8.do_in_loop fuel bytes = some w := by
  induction w with
  | nil =>
    intro bytes fuel h _
    simp only [codecvt_utf8.do_out, Option.some.injEq] at h
    subst h
    cases fuel <;> rfl
  | cons c rest ih =>
    intro bytes fuel h hfuel
    unfold codecvt_utf8.do_out at h
    cases hc : codecvt_utf8.encode c with
    | none => simp [hc] at h
    | some first =>
      cases hr : codecvt_utf8.do_out rest with
      | none => simp [hc, hr] at h
      | some more =>
        simp only [hc, hr, Option.some.injEq] at h
        subst h
        obtain ⟨hd, hpos⟩ := decode_encode c first more hc
        rw [List.length_append] at hfuel
        cases first with
        | nil => simp at hpos
        | cons b first =>
          cases fuel with
          | zero => simp at hfuel
          | succ fuel =>
            rw [List.cons_append] at hd ⊢
            rw [codecvt_utf8.do_in_loop, hd]
            dsimp only
            rw [ih more fuel hr (by simp only [List.length_cons] at hfuel; omega)]
            rfl

theorem do_in_do_out (w : List Nat) (bytes : List Byte)
    (h : codecvt_utf8.do_out w = some bytes) : codecvt_utf8.do_in bytes = some w :=
  do_in_loop_do_out w bytes bytes.length h (Nat.le_refl _)

theorem encode_isSome (c : Nat) (h : isScalarValue c = true) :
    ∃ bytes, codecvt_utf8.encode c = some bytes := by
  simp only [isScalarValue, Bool.or_eq_true, Bool.and_eq_true, decide_eq_true_eq] at h
  unfold codecvt_utf8.encode
  split_ifs with h1 h2 h3 h4
  · exact ⟨_, rfl⟩
  · exact ⟨_, rfl⟩
  · exact ⟨_, rfl⟩
  · exact ⟨_, rfl⟩
  · omega

theorem do_out_isSome (w : List Nat) (h : ∀ c ∈ w, isScalarValue c = true) :
    ∃ bytes, codecvt_utf8.do_out w = some bytes := by
  induction w with
  | nil => exact ⟨[], rfl⟩
  | cons c rest ih =>
    obtain ⟨first, hf⟩ := encode_isSome c (h c (List.mem_cons_self c rest))
    obtain ⟨more, hm⟩ := ih (fun d hd => h d (List.mem_cons_of_mem c hd))
    exact ⟨first ++ more, by simp [codecvt_utf8.do_out, hf, hm]⟩

theorem deref_slice (w : Nat) (start : Buffer) (off : Nat) (h : off + w ≤ start.length) :
    BigEndian.deref w start off = .ok (BigEndian.read w (slice start off w)) := by
  unfold BigEndian.deref
  rw [load_ok start off w h, ok_bind]
  rfl

theorem convertLoop_all (converter : wstring_convert) (ws : List (List Nat)) :
    ∀ (bs result : List (List Byte)), ws.map converter.to_bytes = bs.map some →
      Parameter_ARRAY_WTEXT.convertLoop converter ws result = result ++ bs := by
  induction ws with
  | nil =>
    intro bs result h
    cases bs with
    | nil => simp [Parameter_ARRAY_WTEXT.convertLoop]
    | cons b bs => simp at h
  | cons w ws ih =>
    intro bs result h
    cases bs with
    | nil => simp at h
    | cons b bs =>
      simp only [List.map_cons, List.cons.injEq] at h
      rw [Parameter_ARRAY_WTEXT.convertLoop, h.1]
      dsimp only
      rw [ih bs (result ++ [b]) h.2]
      simp

theorem convertLoop_stop (converter : wstring_convert) (good : List (List Nat)) :
    ∀ (goodBytes result : List (List Byte)) (bad : List Nat) (rest : List (List Nat)),
      good.map converter.to_bytes = goodBytes.map some → converter.to_bytes bad = none →
      Parameter_ARRAY_WTEXT.convertLoop converter (good ++ bad :: rest) result
        = result ++ goodBytes := by
  induction good with
  | nil =>
    intro goodBytes result bad rest h hbad
    cases goodBytes with
    | nil =>
      rw [List.nil_append, Parameter_ARRAY_WTEXT.convertLoop, hbad]
      simp
    | cons b bs => simp at h
  | cons w ws ih =>
    intro goodBytes result bad rest h hbad
    cases goodBytes with
    | nil => simp at h
    | cons b bs =>
      simp only [List.map_cons, List.cons.injEq] at h
      rw [List.cons_append, Parameter_ARRAY_WTEXT.convertLoop, h.1]
      dsimp only
      rw [ih bs (result ++ [b]) bad rest h.2 hbad]
      simp

theorem fieldLoop_ARRAY_kept (T : Numeric) (start : Buffer) :
    ∀ (k i : Nat) (value : List Int), 20 + (i + k) * (4 + T.sizeof) ≤ start.length →
      Results_base.fieldLoop_ARRAY T start k i value
        = .ok (value ++ (List.range' i k).filterMap (keptElement T start)) := by
  intro k
  induction k with
  | zero =>
    intro i value _
    simp [Results_base.fieldLoop_ARRAY, pure, Except.pure]
  | succ k ih =>
    intro i value h
    have hmul : (i + (k + 1)) * (4 + T.sizeof) = i * (4 + T.sizeof) + (k + 1) * (4 + T.sizeof) := by
      ring
    have hk : (k + 1) * (4 + T.sizeof) = k * (4 + T.sizeof) + (4 + T.sizeof) := by ring
    have hnext : 20 + (i + 1 + k) * (4 + T.sizeof) ≤ start.length := by
      rw [show i + 1 + k = i + (k + 1) by omega]
      exact h
    unfold Results_base.fieldLoop_ARRAY ARRAY_SIZE.sizeof
    rw [deref_slice 4 start (5 * 4 + i * (4 + T.sizeof)) (by omega), ok_bind]
    rw [List.range'_succ, List.filterMap_cons]
    by_cases hlen : BigEndian.read 4 (slice start (5 * 4 + i * (4 + T.sizeof)) 4) = T.sizeof
    · rw [if_neg (by simpa using hlen)]
      rw [deref_slice T.sizeof start (6 * 4 + i * (4 + T.sizeof)) (by omega), ok_bind]
      rw [ih (i + 1) _ hnext]
      have hk : keptElement T start i
          = some (BigEndian.read T.sizeof (slice start (24 + i * (4 + T.sizeof)) T.sizeof)) := by
        unfold keptElement
        rw [if_pos hlen]
      rw [hk]
      simp
    · rw [if_pos (by simpa using hlen)]
      rw [ih (i + 1) _ hnext]
      have hk : keptElement T start i = none := by
        unfold keptElement
        rw [if_neg hlen]
      rw [hk]

theorem length_filterMap_eq {α β : Type} (f : α → Option β) (l : List α) :
    (l.filterMap f).length = l.length ↔ ∀ a ∈ l, (f a).isSome = true := by
  induction l with
  | nil => simp
  | cons a l ih =>
    have hle := List.length_filterMap_le f l
    cases ha : f a with
    | none =>
      simp only [List.filterMap_cons, ha, List.length_cons, List.mem_cons, forall_eq_or_imp,
        Option.isSome_none, Bool.false_eq_true, false_and, iff_false]
      omega
    | some b =>
      simp only [List.filterMap_cons, ha, List.length_cons, List.mem_cons, forall_eq_or_imp,
        Option.isSome_some, true_and, add_left_inj]
      exact ih

theorem fieldLoop_ARRAY_WTEXT_stop (converter : wstring_convert) (good : List (List Byte)) :
    ∀ (wides : List (List Nat)) (n ptr : Nat) (pre bad rest : List Byte)
      (value : List (List Nat)) (start : Buffer),
      start = pre ++ wireTextElements good ++ (BigEndian.write 4 bad.length ++ bad ++ rest) →
      pre.length = ptr →
      (∀ s ∈ good, s.length < 2 ^ 31) →
      bad.length < 2 ^ 31 →
      good.map converter.from_bytes = wides.map some →
      converter.from_bytes bad = none →
      good.length < n →
      Results_base.fieldLoop_ARRAY_WTEXT converter start n ptr value = .ok (value ++ wides) := by
  induction good with
  | nil =>
    intro wides n ptr pre bad rest value start hstart hpre _ hbadlen hgood hbad hn
    cases wides with
    | cons w ws => simp at hgood
    | nil =>
      cases n with
      | zero => simp at hn
      | succ n =>
        have hrw : BigEndian.read 4 (BigEndian.write 4 (bad.length : Int)) = bad.length :=
          read_write 4 (by omega) _ (by norm_num; omega) (by norm_num; omega)
        unfold Results_base.fieldLoop_ARRAY_WTEXT ARRAY_SIZE.sizeof
        rw [deref_at 4 pre (BigEndian.write 4 bad.length) (bad ++ rest) ptr start
          (by rw [hstart, wireTextElements]; simp only [List.append_assoc, List.append_nil])
          hpre.symm (by rw [length_write]), ok_bind, hrw]
        dsimp only
        rw [if_neg (by omega), Int.toNat_ofNat]
        rw [hstart, wireTextElements, List.append_nil]
        rw [show pre ++ (BigEndian.write 4 (bad.length : Int) ++ bad ++ rest)
            = (pre ++ BigEndian.write 4 (bad.length : Int)) ++ bad ++ rest by
          simp only [List.append_assoc]]
        rw [load_at (pre ++ BigEndian.write 4 (bad.length : Int)) bad rest
          (ptr + 4) bad.length (by rw [List.length_append, length_write]; omega) rfl, ok_bind,
          hbad]
        simp [pure, Except.pure]
  | cons s good ih =>
    intro wides n ptr pre bad rest value start hstart hpre hlen hbadlen hgood hbad hn
    cases wides with
    | nil => simp at hgood
    | cons w wides =>
      cases n with
      | zero => simp at hn
      | succ n =>
        simp only [List.map_cons, List.cons.injEq] at hgood
        have hs : s.length < 2 ^ 31 := hlen s (List.mem_cons_self s good)
        have hrw : BigEndian.read 4 (BigEndian.write 4 (s.length : Int)) = s.length :=
          read_write 4 (by omega) _ (by norm_num; omega) (by norm_num; omega)
        unfold Results_base.fieldLoop_ARRAY_WTEXT ARRAY_SIZE.sizeof
        rw [deref_at 4 pre (BigEndian.write 4 s.length)
          (s ++ wireTextElements good ++ (BigEndian.write 4 bad.length ++ bad ++ rest))
          ptr start
          (by rw [hstart, wireTextElements]; simp only [List.append_assoc])
          hpre.symm (by rw [length_write]), ok_bind, hrw]
        dsimp only
        rw [if_neg (by omega), Int.toNat_ofNat]
        rw [hstart, wireTextElements]
        rw [show pre ++ (BigEndian.write 4 (s.length : Int) ++ s ++ wireTextElements good)
              ++ (BigEndian.write 4 (bad.length : Int) ++ bad ++ rest)
            = (pre ++ BigEndian.write 4 (s.length : Int)) ++ s
              ++ (wireTextElements good
                ++ (BigEndian.write 4 (bad.length : Int) ++ bad ++ rest)) by
          simp only [List.append_assoc]]
        rw [load_at (pre ++ BigEndian.write 4 (s.length : Int)) s _
          (ptr + 4) s.length (by rw [List.length_append, length_write]; omega) rfl, ok_bind,
          hgood.1]
        dsimp only
        rw [ih wides n (ptr + 4 + s.length) (pre ++ BigEndian.write 4 (s.length : Int) ++ s)
          bad rest (value ++ [w]) _ (by simp only [List.append_assoc])
          (by simp only [List.length_append, length_write]; omega)
          (fun u hu => hlen u (List.mem_cons_of_mem s hu)) hbadlen hgood.2 hbad
          (by simp only [List.length_cons] at hn; omega)]
        simp

theorem field_ARRAY_WTEXT_stop (converter : wstring_convert) (n : Nat)
    (good : List (List Byte)) (wides : List (List Nat)) (bad rest : List Byte)
    (value : List (List Nat)) (hn : n < 2 ^ 31) (hk : good.length < n)
    (hlen : ∀ s ∈ good, s.length < 2 ^ 31) (hbadlen : bad.length < 2 ^ 31)
    (hgood : good.map converter.from_bytes = wides.map some)
    (hbad : converter.from_bytes bad = none) :
    Results_base.field_ARRAY_WTEXT converter
      (wireHeader (Traits.oid .TEXT) n ++ wireTextElements good
        ++ (BigEndian.write 4 bad.length ++ bad ++ rest)) value
      = .ok wides := by
  have h1 : BigEndian.read 4 (BigEndian.write 4 1) = 1 := by decide
  have h0 : BigEndian.read 4 (BigEndian.write 4 0) = 0 := by decide
  have he : toUInt32 (BigEndian.read 4 (BigEndian.write 4 (Traits.oid .TEXT)))
      = Traits.oid .TEXT := by decide
  have hd : BigEndian.read 4 (BigEndian.write 4 (n : Int)) = n :=
    read_write 4 (by omega) _ (by norm_num; omega) (by norm_num; omega)
  unfold Results_base.field_ARRAY_WTEXT ARRAY_SIZE.sizeof
  rw [deref_at 4 [] (BigEndian.write 4 1) _ 0 _
    (by simp only [wireHeader, List.append_assoc, List.nil_append]; rfl) rfl
    (by rw [length_write]), ok_bind, h1, if_neg (by simp)]
  rw [deref_at 4 (BigEndian.write 4 1) (BigEndian.write 4 0) _ 4 _
    (by simp only [wireHeader, List.append_assoc]; rfl) (by rw [length_write])
    (by rw [length_write]), ok_bind, h0, if_neg (by simp)]
  rw [deref_at 4 (BigEndian.write 4 1 ++ BigEndian.write 4 0)
    (BigEndian.write 4 (Traits.oid .TEXT)) _ (2 * 4) _
    (by simp only [wireHeader, List.append_assoc]; rfl)
    (by simp [length_write]) (by rw [length_write]), ok_bind, if_neg (by rw [he]; simp)]
  rw [deref_at 4 (BigEndian.write 4 1 ++ BigEndian.write 4 0
      ++ BigEndian.write 4 (Traits.oid .TEXT))
    (BigEndian.write 4 (n : Int)) _ (3 * 4) _
    (by simp only [wireHeader, List.append_assoc]; rfl)
    (by simp [length_write]) (by rw [length_write]), ok_bind, hd,
    if_neg (by omega), Int.toNat_ofNat]
  rw [fieldLoop_ARRAY_WTEXT_stop converter good wides n (5 * 4)
    (wireHeader (Traits.oid .TEXT) n) bad rest [] _ rfl
    (by rw [length_wireHeader]) hlen hbadlen hgood hbad hk]
  simp

/-- Bytes are the UTF-8 form of no wide string when the wide string that
`from_bytes` reads from them, if it reads one, does not convert back to
them. -/
theorem no_wide_string (bytes : List Byte)
    (h : ∀ w, codecvt_utf8.do_in bytes = some w → codecvt_utf8.do_out w ≠ some bytes) :
    ¬ ∃ w, utf8_converter.to_bytes w = some bytes := by
  rintro ⟨w, hw⟩
  exact h w (do_in_do_out w bytes hw) hw

/-- Claim C21. For every wide string `w` of Unicode scalar values the
conversion to UTF-8 succeeds, `Parameter<WTEXT>(w)` holds the resulting bytes
under OID 25, and the `WTEXT` decoder applied to a field of those bytes
returns `w`, whatever the output held before. -/
theorem wtext_round_trip (w : List Nat) (hw : ∀ c ∈ w, isScalarValue c = true) :
    ∃ bytes, codecvt_utf8.do_out w = some bytes ∧
      (Parameter_WTEXT.mk_of utf8_converter w).data = bytes ∧
      (Parameter_WTEXT.mk_of utf8_converter w).size = bytes.length ∧
      Parameter.oid .WTEXT = 25 ∧
      ∀ value, Results_base.field_WTEXT utf8_converter bytes value = w := by
  obtain ⟨bytes, h⟩ := do_out_isSome w hw
  have hto : utf8_converter.to_bytes w = some bytes := h
  have hfrom : utf8_converter.from_bytes bytes = some w := do_in_do_out w bytes h
  refine ⟨bytes, h, ?_, ?_, rfl, ?_⟩
  · simp [Parameter_WTEXT.mk_of, Parameter_WTEXT.data, Parameter_WTEXT.convert, hto]
  · simp [Parameter_WTEXT.mk_of, Parameter_WTEXT.size, Parameter_WTEXT.convert, hto]
  · intro value
    simp [Results_base.field_WTEXT, hfrom]

/-- The round trip of C21 on the string `seven` of the test: its seven
characters encode to the 21 bytes of `properSeven`, which decode to `seven`. -/
theorem wtext_round_trip_seven :
    seven.length = 7 ∧ properSeven.length = 21 ∧
    (Parameter_WTEXT.mk_of utf8_converter seven).data = properSeven ∧
    (Parameter_WTEXT.mk_of utf8_converter seven).size = 21 ∧
    Results_base.field_WTEXT utf8_converter properSeven [0x41] = seven := by
  obtain ⟨bytes, h, hdata, hsize, _, hfield⟩ := wtext_round_trip seven (by decide)
  have hb : bytes = properSeven := by
    have h2 : codecvt_utf8.do_out seven = some properSeven := by decide
    rw [h2] at h
    exact (Option.some.inj h).symm
  subst hb
  exact ⟨by decide, by decide, hdata, hsize, hfield [0x41]⟩

/-- Claim C22. For every wide string whose conversion to UTF-8 fails, the
constructor and the assignment of `Parameter<WTEXT>` store the empty byte
string, of size 0: no converted prefix is kept, and nothing is raised. -/
theorem wtext_encode_failure (converter : wstring_convert) (x : List Nat)
    (p : Parameter_WTEXT) (h : converter.to_bytes x = none) :
    (Parameter_WTEXT.mk_of converter x).data = [] ∧
    (Parameter_WTEXT.mk_of converter x).size = 0 ∧
    (p.assign converter x).data = [] ∧
    (p.assign converter x).size = 0 := by
  simp [Parameter_WTEXT.mk_of, Parameter_WTEXT.assign, Parameter_WTEXT.data,
    Parameter_WTEXT.size, Parameter_WTEXT.convert, h]

/-- The failure of C22 on the string `A` followed by the value `0x110000`,
which is above U+10FFFF: the byte of `A` is not kept. -/
theorem wtext_encode_failure_beyond :
    utf8_converter.to_bytes [0x41] = some [0x41] ∧
    utf8_converter.to_bytes [0x41, 0x110000] = none ∧
    (Parameter_WTEXT.mk_of utf8_converter [0x41, 0x110000]).data = [] ∧
    (Parameter_WTEXT.mk_of utf8_converter [0x41, 0x110000]).size = 0 ∧
    ((Parameter_WTEXT.mk_of utf8_converter [0x41]).assign utf8_converter
      [0x41, 0x110000]).data = [] ∧
    ((Parameter_WTEXT.mk_of utf8_converter [0x41]).assign utf8_converter
      [0x41, 0x110000]).size = 0 :=
  ⟨by decide, by decide,
    wtext_encode_failure utf8_converter [0x41, 0x110000]
      (Parameter_WTEXT.mk_of utf8_converter [0x41]) (by decide)⟩

/-- Claim C23, amended. For every field on whose bytes `from_bytes` throws
`std::range_error`, the `WTEXT` decoder leaves the output value as it was
before the call, empty when it was empty and with its prior content
otherwise, and raises nothing; for every field on whose bytes `from_bytes`
returns, whether they are valid UTF-8 or not, the output value becomes the
wide string it returned, whatever it held before. -/
theorem wtext_decode_failure (converter : wstring_convert) (start : Buffer)
    (value : List Nat) :
    (converter.from_bytes start = none →
      Results_base.field_WTEXT converter start value = value) ∧
    (∀ wide, converter.from_bytes start = some wide →
      Results_base.field_WTEXT converter start value = wide) := by
  constructor
  · intro h
    simp [Results_base.field_WTEXT, h]
  · intro wide h
    simp [Results_base.field_WTEXT, h]

/-- The two cases of C23 with the converter of libstdc++. On the field of the
one byte `FF` the conversion throws: an empty output stays empty and the
output `A` stays `A`. On the field `41 E3 82`, which ends inside a sequence
of three bytes, the conversion returns `A`, and the output `Z` becomes `A`. -/
theorem wtext_decode_failure_ff :
    utf8_converter.from_bytes [0xFF] = none ∧
    Results_base.field_WTEXT utf8_converter [0xFF] [] = [] ∧
    Results_base.field_WTEXT utf8_converter [0xFF] [0x41] = [0x41] ∧
    utf8_converter.from_bytes [0x41, 0xE3, 0x82] = some [0x41] ∧
    Results_base.field_WTEXT utf8_converter [0x41, 0xE3, 0x82] [0x5A] = [0x41] :=
  ⟨by decide, (wtext_decode_failure utf8_converter [0xFF] []).1 (by decide),
    (wtext_decode_failure utf8_converter [0xFF] [0x41]).1 (by decide),
    by decide,
    (wtext_decode_failure utf8_converter [0x41, 0xE3, 0x82] [0x5A]).2 [0x41] (by decide)⟩

/-- Claim C23 as stated fails, in two ways. The field of the one byte `FF`
is the UTF-8 form of no wide string, and the decoder called on an output that
holds `A` returns `A`, not the empty wide string. The field `41 E3 82` is the
UTF-8 form of no wide string either, the conversion of libstdc++ does not
throw on it, and the decoder called on an output that holds `Z` returns `A`. -/
theorem wtext_decode_keeps_prior :
    (¬ ∃ w, utf8_converter.to_bytes w = some [0xFF]) ∧
    utf8_converter.from_bytes [0xFF] = none ∧
    Results_base.field_WTEXT utf8_converter [0xFF] [0x41] = [0x41] ∧
    Results_base.field_WTEXT utf8_converter [0xFF] [0x41] ≠ [] ∧
    (¬ ∃ w, utf8_converter.to_bytes w = some [0x41, 0xE3, 0x82]) ∧
    utf8_converter.from_bytes [0x41, 0xE3, 0x82] = some [0x41] ∧
    Results_base.field_WTEXT utf8_converter [0x41, 0xE3, 0x82] [0x5A] = [0x41] ∧
    Results_base.field_WTEXT utf8_converter [0x41, 0xE3, 0x82] [0x5A] ≠ [] := by
  have hff : codecvt_utf8.do_in [0xFF] = none := by decide
  have hcut : codecvt_utf8.do_in [0x41, 0xE3, 0x82] = some [0x41] := by decide
  refine ⟨no_wide_string [0xFF] ?_, by decide, by decide, by decide,
    no_wide_string [0x41, 0xE3, 0x82] ?_, by decide, by decide, by decide⟩
  · intro w hw
    rw [hff] at hw
    cases hw
  · intro w hw
    rw [hcut] at hw
    cases hw
    decide

/-! ## Arrays in results, and arrays of wide strings -/

/-- Claim C24, amended. For every field that holds the first three header
words and has `ndim != 1`, or `hasNull != 0`, or an element OID other than
`Traits<T>::oid`, the numeric array decoder returns with the output sequence
as it was before the call, and so does the `ARRAY<TEXT>` decoder with an
element OID other than 25: no element is decoded and none is removed. -/
theorem malformed_array_header (start : Buffer) (hlen : 12 ≤ start.length) :
    (∀ (T : Numeric) (value : List Int),
      headerWord start 0 ≠ 1 ∨ headerWord start 1 ≠ 0
        ∨ toUInt32 (headerWord start 2) ≠ Traits.oid T.toType →
      Results_base.field_ARRAY T start value = .ok value) ∧
    (∀ value : List (List Byte),
      headerWord start 0 ≠ 1 ∨ headerWord start 1 ≠ 0
        ∨ toUInt32 (headerWord start 2) ≠ 25 →
      Results_base.field_ARRAY_TEXT start value = .ok value) := by
  have e0 := deref_slice 4 start 0 (by omega)
  have e1 := deref_slice 4 start 4 (by omega)
  have e2 := deref_slice 4 start 8 (by omega)
  constructor
  · intro T value h
    unfold Results_base.field_ARRAY ARRAY_SIZE.sizeof
    rw [e0, ok_bind]
    by_cases h0 : headerWord start 0 = 1
    · rw [if_neg (by simpa [headerWord] using h0)]
      rw [e1, ok_bind]
      by_cases h1 : headerWord start 1 = 0
      · rw [if_neg (by simpa [headerWord] using h1)]
        rw [e2, ok_bind]
        have h2 : toUInt32 (headerWord start 2) ≠ Traits.oid T.toType := by
          rcases h with h | h | h
          · exact absurd h0 h
          · exact absurd h1 h
          · exact h
        rw [if_pos (by simpa [headerWord] using h2)]
        rfl
      · rw [if_pos (by simpa [headerWord] using h1)]
        rfl
    · rw [if_pos (by simpa [headerWord] using h0)]
      rfl
  · intro value h
    unfold Results_base.field_ARRAY_TEXT ARRAY_SIZE.sizeof
    rw [e0, ok_bind]
    by_cases h0 : headerWord start 0 = 1
    · rw [if_neg (by simpa [headerWord] using h0)]
      rw [e1, ok_bind]
      by_cases h1 : headerWord start 1 = 0
      · rw [if_neg (by simpa [headerWord] using h1)]
        rw [e2, ok_bind]
        have h2 : toUInt32 (headerWord start 2) ≠ 25 := by
          rcases h with h | h | h
          · exact absurd h0 h
          · exact absurd h1 h
          · exact h
        rw [if_pos (by simpa [headerWord] using h2)]
        rfl
      · rw [if_pos (by simpa [headerWord] using h1)]
        rfl
    · rw [if_pos (by simpa [headerWord] using h0)]
      rfl

/-- The early return of C24 on the field `twoDimensions` for the `SMALLINT`
array decoder and on the field `withNulls` for the `ARRAY<TEXT>` decoder: the
outputs keep the element they held. -/
theorem malformed_array_header_kept :
    Results_base.field_ARRAY .SMALLINT twoDimensions [7] = .ok [7] ∧
    Results_base.field_ARRAY_TEXT withNulls [[0x41]] = .ok [[0x41]] :=
  ⟨(malformed_array_header twoDimensions (by decide)).1 .SMALLINT [7] (Or.inl (by decide)),
    (malformed_array_header withNulls (by decide)).2 [[0x41]]
      (Or.inr (Or.inl (by decide)))⟩

/-- Claim C24 as stated fails: the field `twoDimensions` has `ndim = 2`, and
the `SMALLINT` array decoder called on an output that holds the element 7
returns that output, not the empty sequence. -/
theorem malformed_array_header_not_emptied :
    headerWord twoDimensions 0 = 2 ∧
    Results_base.field_ARRAY .SMALLINT twoDimensions [7] = .ok [7] ∧
    Results_base.field_ARRAY .SMALLINT twoDimensions [7] ≠ .ok [] := by
  decide

/-- Claim C25. For every field that holds a valid header with `dim = n` and
its `n` element slots of `4 + w` bytes, the numeric array decoder returns, in
increasing order of index, exactly the values of the elements `i` below `n`
whose length word at offset `20 + i*(4+w)` equals `w`, each read big-endian
from offset `24 + i*(4+w)`. The output has at most `n` elements, and has `n`
exactly when every length word equals `w`. -/
theorem malformed_element_skipped (T : Numeric) (start : Buffer) (n : Nat)
    (value : List Int) (hlen : 20 + n * (4 + T.sizeof) ≤ start.length)
    (hndim : headerWord start 0 = 1) (hnull : headerWord start 1 = 0)
    (hoid : toUInt32 (headerWord start 2) = Traits.oid T.toType)
    (hdim : headerWord start 3 = n) :
    Results_base.field_ARRAY T start value = .ok (keptElements T start n) ∧
    (keptElements T start n).length ≤ n ∧
    ((keptElements T start n).length = n ↔
      ∀ i < n, BigEndian.read 4 (slice start (20 + i * (4 + T.sizeof)) 4) = T.sizeof) := by
  refine ⟨?_, ?_, ?_⟩
  · unfold Results_base.field_ARRAY ARRAY_SIZE.sizeof
    rw [deref_slice 4 start (0 * 4) (by omega), ok_bind,
      if_neg (by simpa [headerWord] using hndim)]
    rw [deref_slice 4 start (1 * 4) (by omega), ok_bind,
      if_neg (by simpa [headerWord] using hnull)]
    rw [deref_slice 4 start (2 * 4) (by omega), ok_bind,
      if_neg (by simpa [headerWord] using hoid)]
    have hd : BigEndian.read 4 (slice start (3 * 4) 4) = n := hdim
    rw [deref_slice 4 start (3 * 4) (by omega), ok_bind, hd, if_neg (by omega),
      Int.toNat_ofNat]
    rw [fieldLoop_ARRAY_kept T start n 0 [] (by rw [Nat.zero_add]; exact hlen)]
    simp [keptElements, List.range_eq_range']
  · unfold keptElements
    exact (List.length_filterMap_le _ _).trans (by simp)
  · unfold keptElements
    have h := length_filterMap_eq (keptElement T start) (List.range n)
    rw [List.length_range] at h
    rw [h]
    constructor
    · intro hall i hi
      have := hall i (List.mem_range.mpr hi)
      unfold keptElement at this
      by_contra hne
      rw [if_neg hne] at this
      simp at this
    · intro hall i hi
      unfold keptElement
      rw [if_pos (hall i (List.mem_range.mp hi))]
      rfl

/-- The skipping of C25 on the field `secondSlotMalformed`: of its three
slots 1, 2 and 3 the second has the length word 4, and the `SMALLINT` array
decoder returns 1 and 3. -/
theorem malformed_element_skipped_second :
    Results_base.field_ARRAY .SMALLINT secondSlotMalformed [9] = .ok [1, 3] ∧
    keptElements .SMALLINT secondSlotMalformed 3 = [1, 3] := by
  have h := malformed_element_skipped .SMALLINT secondSlotMalformed 3 [9] (by decide)
    (by decide) (by decide) (by decide) (by decide)
  have hk : keptElements .SMALLINT secondSlotMalformed 3 = [1, 3] := by decide
  rw [hk] at h
  exact ⟨h.1, hk⟩

/-- Claim C26. For every sequence `ws` of wide strings that all convert, with
encodings `bs`, `Parameter<ARRAY<WTEXT>>(ws)` is the object that
`Parameter<ARRAY<TEXT>>` builds from `bs`: the same `size()` and the same
`data()` bytes, under OID 1009. When the encoded size is below `2 ^ 32` these
are the header with `dim = N` and one frame per encoding. -/
theorem array_wtext_wire_identical (converter : wstring_convert) (heap : Nat → Byte)
    (ws : List (List Nat)) (bs : List (List Byte))
    (h : ws.map converter.to_bytes = bs.map some) :
    Parameter_ARRAY_WTEXT.mk_of converter heap ws = Parameter_ARRAY_TEXT.assign heap bs ∧
    Parameter.oid .ARRAY_WTEXT = 1009 ∧
    (20 + 4 * bs.length + totalLength bs < 2 ^ 32 →
      Parameter_ARRAY_WTEXT.mk_of converter heap ws
        = .ok ⟨20 + 4 * ws.length + totalLength bs,
            wireHeader 25 ws.length ++ wireTextElements bs⟩) := by
  have hc : Parameter_ARRAY_WTEXT.convert converter ws = bs := by
    unfold Parameter_ARRAY_WTEXT.convert
    rw [convertLoop_all converter ws bs [] h]
    rfl
  have hl : ws.length = bs.length := by
    have := congrArg List.length h
    simpa using this
  refine ⟨?_, rfl, ?_⟩
  · unfold Parameter_ARRAY_WTEXT.mk_of
    rw [hc]
  · intro hsize
    unfold Parameter_ARRAY_WTEXT.mk_of
    rw [hc, assign_ARRAY_TEXT_ok heap bs hsize, hl]
    rfl

/-- The identity of C26 on the array `ten` of the test: the three titles give
the 62 bytes of `properTen`. -/
theorem array_wtext_wire_identical_ten :
    properTen.length = 62 ∧
    Parameter_ARRAY_WTEXT.mk_of utf8_converter (fun _ => 0xAA) ten = .ok ⟨62, properTen⟩ ∧
    Parameter_ARRAY_TEXT.assign (fun _ => 0xAA)
      [[0xe4, 0xb8, 0x89, 0xe4, 0xbd, 0x93],
       [0xe9, 0xbb, 0x91, 0xe6, 0x9a, 0x97, 0xe6, 0xa3, 0xae, 0xe6, 0x9e, 0x97],
       [0xe6, 0xad, 0xbb, 0xe7, 0xa5, 0x9e, 0xe6, 0xb0, 0xb8, 0xe7, 0x94, 0x9f]]
      = .ok ⟨62, properTen⟩ := by
  have h := array_wtext_wire_identical utf8_converter (fun _ => 0xAA) ten
    [[0xe4, 0xb8, 0x89, 0xe4, 0xbd, 0x93],
     [0xe9, 0xbb, 0x91, 0xe6, 0x9a, 0x97, 0xe6, 0xa3, 0xae, 0xe6, 0x9e, 0x97],
     [0xe6, 0xad, 0xbb, 0xe7, 0xa5, 0x9e, 0xe6, 0xb0, 0xb8, 0xe7, 0x94, 0x9f]] (by decide)
  have h2 := h.2.2 (by decide)
  exact ⟨by decide, h2.trans (by decide), (h.1.symm.trans h2).trans (by decide)⟩

/-- Claim C27, amended. For every sequence of wide strings in which the
strings `good` convert and the next string `bad` does not, the encoder stops
at `bad`: the encoded array is the one built from the encodings of `good`
alone, with `dim` equal to their number, whatever strings follow `bad`; and
nothing is raised. -/
theorem array_wtext_encode_failure (converter : wstring_convert) (heap : Nat → Byte)
    (good : List (List Nat)) (goodBytes : List (List Byte)) (bad : List Nat)
    (rest : List (List Nat)) (hgood : good.map converter.to_bytes = goodBytes.map some)
    (hbad : converter.to_bytes bad = none) :
    Parameter_ARRAY_WTEXT.convert converter (good ++ bad :: rest) = goodBytes ∧
    Parameter_ARRAY_WTEXT.mk_of converter heap (good ++ bad :: rest)
      = Parameter_ARRAY_TEXT.assign heap goodBytes ∧
    (20 + 4 * goodBytes.length + totalLength goodBytes < 2 ^ 32 →
      Parameter_ARRAY_WTEXT.mk_of converter heap (good ++ bad :: rest)
        = .ok ⟨20 + 4 * good.length + totalLength goodBytes,
            wireHeader 25 good.length ++ wireTextElements goodBytes⟩) := by
  have hc : Parameter_ARRAY_WTEXT.convert converter (good ++ bad :: rest) = goodBytes := by
    unfold Parameter_ARRAY_WTEXT.convert
    rw [convertLoop_stop converter good goodBytes [] bad rest hgood hbad]
    rfl
  have hl : good.length = goodBytes.length := by
    have := congrArg List.length hgood
    simpa using this
  refine ⟨hc, ?_, ?_⟩
  · unfold Parameter_ARRAY_WTEXT.mk_of
    rw [hc]
  · intro hsize
    unfold Parameter_ARRAY_WTEXT.mk_of
    rw [hc, assign_ARRAY_TEXT_ok heap goodBytes hsize, hl]
    rfl

/-- The stop of C27 on the strings `A`, the value `0x110000` and `B`: the
encoded array has `dim = 1` and holds `A` alone. -/
theorem array_wtext_encode_failure_second :
    Parameter_ARRAY_WTEXT.convert utf8_converter [[0x41], [0x110000], [0x42]] = [[0x41]] ∧
    Parameter_ARRAY_WTEXT.mk_of utf8_converter (fun _ => 0) [[0x41], [0x110000], [0x42]]
      = .ok ⟨25, wireHeader 25 1 ++ wireTextElements [[0x41]]⟩ := by
  have h := array_wtext_encode_failure utf8_converter (fun _ => 0) [[0x41]] [[0x41]]
    [0x110000] [[0x42]] (by decide) (by decide)
  exact ⟨h.1, h.2.2 (by decide)⟩

/-- Claim C27 as stated fails: of the three strings `A`, the value `0x110000`
and `B`, the first and the third convert and the second does not, and the
encoded array has 25 bytes with `dim = 1` and the one element `A`; the empty
string does not stand in for the second string and `B` is not encoded. -/
theorem array_wtext_encode_truncates :
    utf8_converter.to_bytes [0x41] = some [0x41] ∧
    utf8_converter.to_bytes [0x110000] = none ∧
    utf8_converter.to_bytes [0x42] = some [0x42] ∧
    Parameter_ARRAY_WTEXT.mk_of utf8_converter (fun _ => 0) [[0x41], [0x110000], [0x42]]
      = .ok ⟨25, [0x00, 0x00, 0x00, 0x01,
                  0x00, 0x00, 0x00, 0x00,
                  0x00, 0x00, 0x00, 0x19,
                  0x00, 0x00, 0x00, 0x01,
                  0x00, 0x00, 0x00, 0x01,
                  0x00, 0x00, 0x00, 0x01, 0x41]⟩ ∧
    Parameter_ARRAY_WTEXT.mk_of utf8_converter (fun _ => 0) [[0x41], [0x110000], [0x42]]
      ≠ Parameter_ARRAY_TEXT.assign (fun _ => 0) [[0x41], [], [0x42]] := by
  decide

/-- Claim C28, amended. For every field that holds a valid header with
`dim = n`, then `k < n` elements `good` on which `from_bytes` returns, then an
element `bad` on which it throws `std::range_error`, then any bytes `rest`,
the `ARRAY<WTEXT>` decoder returns exactly the `k` wide strings that
`from_bytes` returned, whatever `rest` and the prior output are, and raises
nothing. -/
theorem array_wtext_decode_abandons (converter : wstring_convert) (n : Nat)
    (good : List (List Byte)) (wides : List (List Nat)) (bad rest : List Byte)
    (value : List (List Nat)) (hn : n < 2 ^ 31) (hk : good.length < n)
    (hlen : ∀ s ∈ good, s.length < 2 ^ 31) (hbadlen : bad.length < 2 ^ 31)
    (hgood : good.map converter.from_bytes = wides.map some)
    (hbad : converter.from_bytes bad = none) :
    Results_base.field_ARRAY_WTEXT converter
      (wireHeader 25 n ++ wireTextElements good
        ++ (BigEndian.write 4 bad.length ++ bad ++ rest)) value
      = .ok wides ∧ wides.length = good.length := by
  refine ⟨field_ARRAY_WTEXT_stop converter n good wides bad rest value hn hk hlen hbadlen
    hgood hbad, ?_⟩
  have := congrArg List.length hgood
  simpa using this.symm

/-- The abandon of C28 on a field of three elements `A`, the byte `FF` and
`B`: the decoder returns `A` alone. -/
theorem array_wtext_decode_abandons_second :
    Results_base.field_ARRAY_WTEXT utf8_converter
      (wireHeader 25 3 ++ wireTextElements [[0x41]]
        ++ (BigEndian.write 4 1 ++ [0xFF] ++ wireTextElements [[0x42]])) [[7], [8]]
      = .ok [[0x41]] :=
  (array_wtext_decode_abandons utf8_converter 3 [[0x41]] [[0x41]] [0xFF]
    (wireTextElements [[0x42]]) [[7], [8]] (by decide) (by decide) (by decide) (by decide)
    (by decide) (by decide)).1

/-- Claim C28 as stated fails. In a field with a valid header, `dim = 2`, the
element `E3 82` and the element `B`, the element of index 0 is the UTF-8 form
of no wide string: it ends inside a sequence of three bytes. The conversion
of libstdc++ does not throw on it and returns the empty wide string, so the
decoder abandons nothing: it returns two elements, the empty string and `B`,
and not the zero elements before the element that is not valid. -/
theorem array_wtext_decode_goes_on :
    (¬ ∃ w, utf8_converter.to_bytes w = some [0xE3, 0x82]) ∧
    utf8_converter.from_bytes [0xE3, 0x82] = some [] ∧
    Results_base.field_ARRAY_WTEXT utf8_converter
      (wireHeader 25 2 ++ wireTextElements [[0xE3, 0x82], [0x42]]) [[7], [8]]
      = .ok [[], [0x42]] ∧
    Results_base.field_ARRAY_WTEXT utf8_converter
      (wireHeader 25 2 ++ wireTextElements [[0xE3, 0x82], [0x42]]) [[7], [8]]
      ≠ .ok [] := by
  have hcut : codecvt_utf8.do_in [0xE3, 0x82] = some [] := by decide
  refine ⟨no_wide_string [0xE3, 0x82] ?_, by decide, by decide, by decide⟩
  intro w hw
  rw [hcut] at hw
  cases hw
  decide

/-! ## Status and schema of a result -/

/-- Claim C29. The member `status()` returns `noResult` exactly when the
handle is null. For a handle that is not null it maps `EMPTY_QUERY`,
`COMMAND_OK`, `TUPLES_OK`, `COPY_OUT`, `COPY_IN`, `BAD_RESPONSE`,
`NONFATAL_ERROR`, `COPY_BOTH` and `SINGLE_TUPLE` to `emptyQuery`, `commandOk`,
`rowsOk`, `copyOut`, `copyIn`, `badResponse`, `nonfatalError`, `copyBoth` and
`singleTuple`, and every other code, `FATAL_ERROR` among them, to
`fatalError`. -/
theorem status_mapping :
    (∀ m_res : Option PGresult, Results_base.status m_res = .noResult ↔ m_res = none) ∧
    (∀ result : PGresult,
      (result.PQresultStatus = .PGRES_EMPTY_QUERY →
        Results_base.status (some result) = .emptyQuery) ∧
      (result.PQresultStatus = .PGRES_COMMAND_OK →
        Results_base.status (some result) = .commandOk) ∧
      (result.PQresultStatus = .PGRES_TUPLES_OK →
        Results_base.status (some result) = .rowsOk) ∧
      (result.PQresultStatus = .PGRES_COPY_OUT →
        Results_base.status (some result) = .copyOut) ∧
      (result.PQresultStatus = .PGRES_COPY_IN →
        Results_base.status (some result) = .copyIn) ∧
      (result.PQresultStatus = .PGRES_BAD_RESPONSE →
        Results_base.status (some result) = .badResponse) ∧
      (result.PQresultStatus = .PGRES_NONFATAL_ERROR →
        Results_base.status (some result) = .nonfatalError) ∧
      (result.PQresultStatus = .PGRES_COPY_BOTH →
        Results_base.status (some result) = .copyBoth) ∧
      (result.PQresultStatus = .PGRES_SINGLE_TUPLE →
        Results_base.status (some result) = .singleTuple) ∧
      (result.PQresultStatus = .PGRES_FATAL_ERROR →
        Results_base.status (some result) = .fatalError) ∧
      (result.PQresultStatus ∉
          [ExecStatusType.PGRES_EMPTY_QUERY, .PGRES_COMMAND_OK, .PGRES_TUPLES_OK,
            .PGRES_COPY_OUT, .PGRES_COPY_IN, .PGRES_BAD_RESPONSE, .PGRES_NONFATAL_ERROR,
            .PGRES_COPY_BOTH, .PGRES_SINGLE_TUPLE] →
        Results_base.status (some result) = .fatalError)) := by
  have key : ∀ result : PGresult, Results_base.status (some result) ≠ .noResult ∧
      (result.PQresultStatus ∉
          [ExecStatusType.PGRES_EMPTY_QUERY, .PGRES_COMMAND_OK, .PGRES_TUPLES_OK,
            .PGRES_COPY_OUT, .PGRES_COPY_IN, .PGRES_BAD_RESPONSE, .PGRES_NONFATAL_ERROR,
            .PGRES_COPY_BOTH, .PGRES_SINGLE_TUPLE] →
        Results_base.status (some result) = .fatalError) := by
    intro result
    obtain ⟨ftype, fsize, status, tuples, nfields⟩ := result
    cases status <;> refine ⟨fun h => (by cases h), fun h => ?_⟩ <;>
      first
      | rfl
      | simp at h
  constructor
  · intro m_res
    cases m_res with
    | none => simp [Results_base.status]
    | some result => simpa using (key result).1
  · intro result
    refine ⟨?_, ?_, ?_, ?_, ?_, ?_, ?_, ?_, ?_, ?_, (key result).2⟩ <;>
    · intro h
      simp only [Results_base.status, h]
      rfl

theorem slot_bound (T : Numeric) (N i : Nat) (hi : i < N) :
    24 + i * (4 + T.sizeof) + T.sizeof ≤ 20 + N * (4 + T.sizeof) := by
  have h : (i + 1) * (4 + T.sizeof) ≤ N * (4 + T.sizeof) := Nat.mul_le_mul_right _ hi
  have e : (i + 1) * (4 + T.sizeof) = i * (4 + T.sizeof) + (4 + T.sizeof) := by ring
  omega

theorem slot_eq (T : Numeric) (N i : Nat) (hi : i < N)
    (h32 : 20 + N * (4 + T.sizeof) < 2 ^ 32) :
    Parameter_ARRAY.slot T i = 24 + i * (4 + T.sizeof) := by
  have hb := slot_bound T N i hi
  have hle : i ≤ i * (4 + T.sizeof) := Nat.le_mul_of_pos_right i (by omega)
  unfold Parameter_ARRAY.slot ARRAY_SIZE.sizeof
  rw [Nat.mod_eq_of_lt (by omega)]

theorem set_ok (T : Numeric) (p : ArrayParameter) (N i : Nat) (v : Int)
    (hlen : p.m_data.length = 20 + N * (4 + T.sizeof))
    (h32 : 20 + N * (4 + T.sizeof) < 2 ^ 32) (hi : i < N) :
    Parameter_ARRAY.set T p i v
      = .ok ⟨p.m_size, p.m_data.take (24 + i * (4 + T.sizeof)) ++ BigEndian.write T.sizeof v
          ++ p.m_data.drop (24 + i * (4 + T.sizeof) + T.sizeof)⟩ := by
  have hb := slot_bound T N i hi
  unfold Parameter_ARRAY.set BigEndian.assign store
  rw [slot_eq T N i hi h32, length_write, if_pos (by omega)]
  rfl

theorem get_at (T : Numeric) (p : ArrayParameter) (N i : Nat) (pre suf : List Byte)
    (v : Int) (hi : i < N) (h32 : 20 + N * (4 + T.sizeof) < 2 ^ 32)
    (hdata : p.m_data = pre ++ BigEndian.write T.sizeof v ++ suf)
    (hpre : pre.length = 24 + i * (4 + T.sizeof)) (hv : T.InRange v) :
    Parameter_ARRAY.get T p i = .ok v := by
  unfold Parameter_ARRAY.get
  rw [slot_eq T N i hi h32,
    deref_at T.sizeof pre (BigEndian.write T.sizeof v) suf _ _ hdata hpre.symm
      (by rw [length_write]),
    read_write T.sizeof (by cases T <;> decide) v hv.1 hv.2]

theorem wireNumericElements_split (T : Numeric) (xs : List Int) :
    ∀ (i : Nat) (v : Int), xs[i]? = some v →
      ∃ pre suf, wireNumericElements T xs
          = pre ++ BigEndian.write 4 T.sizeof ++ BigEndian.write T.sizeof v ++ suf ∧
        pre.length = i * (4 + T.sizeof) := by
  induction xs with
  | nil =>
    intro i v h
    simp at h
  | cons x rest ih =>
    intro i v h
    cases i with
    | zero =>
      simp only [List.getElem?_cons_zero, Option.some.injEq] at h
      subst h
      exact ⟨[], wireNumericElements T rest, by simp [wireNumericElements], by simp⟩
    | succ i =>
      simp only [List.getElem?_cons_succ] at h
      obtain ⟨pre, suf, hsplit, hpre⟩ := ih i v h
      refine ⟨BigEndian.write 4 T.sizeof ++ BigEndian.write T.sizeof x ++ pre, suf, ?_, ?_⟩
      · rw [wireNumericElements, hsplit]
        simp only [List.append_assoc]
      · simp only [List.length_append, length_write, hpre]
        ring

theorem set_frame (T : Numeric) (p : ArrayParameter) (N i : Nat) (v : Int)
    (hlen : p.m_data.length = 20 + N * (4 + T.sizeof))
    (h32 : 20 + N * (4 + T.sizeof) < 2 ^ 32) (hi : i < N) :
    ∃ q, Parameter_ARRAY.set T p i v = .ok q ∧ q.m_size = p.m_size ∧
      q.m_data.length = p.m_data.length ∧
      (∀ k, k < 24 + i * (4 + T.sizeof) ∨ 24 + i * (4 + T.sizeof) + T.sizeof ≤ k →
        q.m_data[k]? = p.m_data[k]?) ∧
      q.m_data = p.m_data.take (24 + i * (4 + T.sizeof)) ++ BigEndian.write T.sizeof v
          ++ p.m_data.drop (24 + i * (4 + T.sizeof) + T.sizeof) := by
  have hb := slot_bound T N i hi
  refine ⟨_, set_ok T p N i v hlen h32 hi, rfl, ?_, ?_, rfl⟩
  · simp only [List.length_append, List.length_take, List.length_drop, length_write]
    omega
  · intro k hk
    have htake : (p.m_data.take (24 + i * (4 + T.sizeof))).length
        = 24 + i * (4 + T.sizeof) := by
      rw [List.length_take]
      omega
    rcases hk with hk | hk
    · rw [List.append_assoc, List.getElem?_append_left (by rw [htake]; exact hk),
        List.getElem?_take_of_lt hk]
    · rw [List.getElem?_append_right
          (by simp only [List.length_append, htake, length_write]; exact hk),
        List.getElem?_drop]
      congr 1
      simp only [List.length_append, htake, length_write]
      omega

theorem fill_keeps (T : Numeric) (N : Nat) (h32 : 20 + N * (4 + T.sizeof) < 2 ^ 32)
    (xs : List Int) :
    ∀ (j : Nat) (p : ArrayParameter), p.m_data.length = 20 + N * (4 + T.sizeof) →
      j + xs.length ≤ N →
      ∃ q, Parameter_ARRAY.fill T xs j p = .ok q ∧ q.m_size = p.m_size ∧
        q.m_data.length = p.m_data.length ∧
        ∀ k, (k < 24 + j * (4 + T.sizeof) ∨ ∃ i r, r < 4 ∧ k = 20 + i * (4 + T.sizeof) + r) →
          q.m_data[k]? = p.m_data[k]? := by
  induction xs with
  | nil =>
    intro j p _ _
    exact ⟨p, rfl, rfl, rfl, fun _ _ => rfl⟩
  | cons x rest ih =>
    intro j p hlen hj
    rw [List.length_cons] at hj
    obtain ⟨p1, hset, hsz1, hlen1, hframe1, _⟩ := set_frame T p N j x hlen h32 (by omega)
    obtain ⟨q, hfill, hsz, hlenq, hframe⟩ := ih (j + 1) p1 (hlen1.trans hlen) (by omega)
    have e : (j + 1) * (4 + T.sizeof) = j * (4 + T.sizeof) + (4 + T.sizeof) := by ring
    refine ⟨q, ?_, hsz.trans hsz1, hlenq.trans hlen1, ?_⟩
    · rw [Parameter_ARRAY.fill, hset, ok_bind, hfill]
    · intro k hk
      rw [hframe k (by
        rcases hk with hk | hk
        · left
          omega
        · right
          exact hk)]
      apply hframe1
      rcases hk with hk | ⟨i, r, hr, hk⟩
      · left
        exact hk
      · rcases Nat.lt_or_ge j i with h | h
        · right
          have h1 : (j + 1) * (4 + T.sizeof) ≤ i * (4 + T.sizeof) := Nat.mul_le_mul_right _ h
          omega
        · left
          have h1 : i * (4 + T.sizeof) ≤ j * (4 + T.sizeof) := Nat.mul_le_mul_right _ h
          omega

theorem resize_ok (T : Numeric) (heap : Nat → Byte) (N : Nat)
    (h : 20 + N * (4 + T.sizeof) < 2 ^ 32) :
    Parameter_ARRAY.resize T heap N
      = .ok ⟨20 + N * (4 + T.sizeof),
          wireHeader (Traits.oid T.toType) N
            ++ (alloc heap (20 + N * (4 + T.sizeof))).drop 20⟩ := by
  have hle : N * 4 ≤ N * (4 + T.sizeof) := Nat.mul_le_mul_left _ (by omega)
  have hN : N % 2 ^ 32 = N := Nat.mod_eq_of_lt (by omega)
  have h5 : (5 + N) % 2 ^ 32 = 5 + N := Nat.mod_eq_of_lt (by omega)
  have hsz : (4 * (5 + N) + N * T.sizeof) % 2 ^ 32 = 20 + N * (4 + T.sizeof) := by
    rw [Nat.mod_eq_of_lt (by nlinarith)]
    ring
  unfold Parameter_ARRAY.resize ARRAY_SIZE.sizeof
  simp only [hN, h5, hsz]
  rw [writeHeader_ok _ _ _ (by rw [length_alloc]; omega), ok_bind]
  rfl

theorem alloc_get (heap : Nat → Byte) (n k : Nat) (h : k < n) :
    (alloc heap n)[k]? = some (heap k) := by
  simp [alloc, h]

theorem indexLoop_ok (xs : List (List Byte)) :
    ∀ (r i ptr : Nat) (pre : List Byte) (s : List Byte) (m_data : Buffer),
      m_data = pre ++ wireTextElements xs →
      pre.length = ptr →
      (∀ u ∈ xs, u.length < 2 ^ 31) →
      xs[r]? = some s →
      Parameter_ARRAY_TEXT.indexLoop m_data r i ptr = .ok (s, i + r + 1) := by
  induction xs with
  | nil =>
    intro r i ptr pre s m_data _ _ _ h
    simp at h
  | cons u rest ih =>
    intro r i ptr pre s m_data hdata hpre hlen h
    have hu : u.length < 2 ^ 31 := hlen u (List.mem_cons_self u rest)
    have hrw : BigEndian.read 4 (BigEndian.write 4 (u.length : Int)) = u.length :=
      read_write 4 (by omega) _ (by norm_num; omega) (by norm_num; omega)
    have hderef : BigEndian.deref 4 m_data ptr = .ok (u.length : Int) := by
      rw [deref_at 4 pre (BigEndian.write 4 u.length) (u ++ wireTextElements rest) ptr m_data
        (by rw [hdata, wireTextElements]; simp only [List.append_assoc])
        hpre.symm (by rw [length_write]), hrw]
    cases r with
    | zero =>
      simp only [List.getElem?_cons_zero, Option.some.injEq] at h
      subst h
      unfold Parameter_ARRAY_TEXT.indexLoop ARRAY_SIZE.sizeof
      rw [hderef, ok_bind]
      dsimp only
      rw [if_neg (by omega), Int.toNat_ofNat]
      rw [hdata, wireTextElements]
      rw [show pre ++ (BigEndian.write 4 (u.length : Int) ++ u ++ wireTextElements rest)
          = (pre ++ BigEndian.write 4 (u.length : Int)) ++ u ++ wireTextElements rest by
        simp only [List.append_assoc]]
      rw [load_at (pre ++ BigEndian.write 4 (u.length : Int)) u (wireTextElements rest)
        (ptr + 4) u.length (by rw [List.length_append, length_write]; omega) rfl, ok_bind]
      rfl
    | succ r =>
      simp only [List.getElem?_cons_succ] at h
      unfold Parameter_ARRAY_TEXT.indexLoop ARRAY_SIZE.sizeof
      rw [hderef, ok_bind]
      dsimp only
      have hcast : ((ptr + 4 : Nat) : Int) + (u.length : Int) = ((ptr + 4 + u.length : Nat) : Int) := by
        push_cast
        rfl
      rw [hcast, if_neg (by omega), Int.toNat_ofNat]
      rw [ih r (i + 1) (ptr + 4 + u.length) (pre ++ BigEndian.write 4 (u.length : Int) ++ u)
        s m_data
        (by rw [hdata, wireTextElements]; simp only [List.append_assoc])
        (by simp only [List.length_append, length_write]; omega)
        (fun w hw => hlen w (List.mem_cons_of_mem u hw)) h]
      congr 2
      omega

theorem index_long_string (heap : Nat → Byte) (s : List Byte) (h : s.length = 2 ^ 31) :
    ∃ p, Parameter_ARRAY_TEXT.assign heap [s] = .ok p ∧
      Parameter_ARRAY_TEXT.index p 0 = .error .lengthError := by
  have hsize : 20 + 4 * [s].length + totalLength [s] < 2 ^ 32 := by
    simp only [List.length_singleton, totalLength, h]
    decide
  refine ⟨_, assign_ARRAY_TEXT_ok heap [s] hsize, ?_⟩
  have hword : BigEndian.read 4 (BigEndian.write 4 ((2 ^ 31 : Nat) : Int)) = -2147483648 := by
    decide
  unfold Parameter_ARRAY_TEXT.index Parameter_ARRAY_TEXT.indexLoop ARRAY_SIZE.sizeof
  rw [deref_at 4 (wireHeader (Traits.oid .TEXT) ([s].length : Nat))
    (BigEndian.write 4 s.length) (s ++ wireTextElements []) (5 * 4) _
    (by simp only [wireTextElements, List.append_assoc]) (by rw [length_wireHeader])
    (by rw [length_write]), ok_bind, h, hword]
  rfl

theorem contiguous_append (stores : List (Nat × Nat)) :
    ∀ (first mid last : Nat) (more : List (Nat × Nat)),
      contiguous stores first mid = true → contiguous more mid last = true →
      contiguous (stores ++ more) first last = true := by
  induction stores with
  | nil =>
    intro first mid last more h1 h2
    simp only [contiguous, decide_eq_true_eq] at h1
    subst h1
    exact h2
  | cons w rest ih =>
    intro first mid last more h1 h2
    simp only [contiguous, Bool.and_eq_true, decide_eq_true_eq] at h1
    simp only [List.cons_append, contiguous, Bool.and_eq_true, decide_eq_true_eq]
    exact ⟨h1.1, ih _ mid last more h1.2 h2⟩

theorem contiguous_le (stores : List (Nat × Nat)) :
    ∀ first last : Nat, contiguous stores first last = true → first ≤ last := by
  induction stores with
  | nil =>
    intro first last h
    simp only [contiguous, decide_eq_true_eq] at h
    omega
  | cons w rest ih =>
    intro first last h
    simp only [contiguous, Bool.and_eq_true, decide_eq_true_eq] at h
    have := ih _ _ h.2
    omega

theorem contiguous_countP (stores : List (Nat × Nat)) :
    ∀ (first last k : Nat), contiguous stores first last = true →
      stores.countP (writes k) = if first ≤ k ∧ k < last then 1 else 0 := by
  induction stores with
  | nil =>
    intro first last k h
    simp only [contiguous, decide_eq_true_eq] at h
    subst h
    rw [if_neg (by omega)]
    rfl
  | cons w rest ih =>
    intro first last k h
    simp only [contiguous, Bool.and_eq_true, decide_eq_true_eq] at h
    have hle := contiguous_le rest _ _ h.2
    rw [List.countP_cons, ih _ last k h.2]
    by_cases hw : w.1 ≤ k ∧ k < w.1 + w.2
    · have : writes k w = true := by simp [writes, hw]
      rw [this, if_pos rfl, if_neg (by omega), if_pos (by omega)]
    · have : writes k w = false := by simp only [writes, decide_eq_false_iff_not]; exact hw
      rw [this]
      simp only [Bool.false_eq_true, if_false, Nat.add_zero]
      by_cases hk : first ≤ k ∧ k < last
      · rw [if_pos (by omega), if_pos hk]
      · rw [if_neg (by omega), if_neg hk]

theorem tracedLoop_ok (xs : List (List Byte)) :
    ∀ (ptr : Nat) (pre suf : List Byte) (stores : List (Nat × Nat)),
      pre.length = ptr →
      suf.length = (wireTextElements xs).length →
      ∃ more, Parameter_ARRAY_TEXT.tracedLoop xs ptr (pre ++ suf) stores
          = .ok (pre ++ wireTextElements xs, ptr + (wireTextElements xs).length,
              stores ++ more) ∧
        contiguous more ptr (ptr + (wireTextElements xs).length) = true := by
  induction xs with
  | nil =>
    intro ptr pre suf stores _ hsuf
    have : suf = [] := by
      apply List.eq_nil_of_length_eq_zero
      simpa [wireTextElements] using hsuf
    subst this
    refine ⟨[], ?_, ?_⟩
    · simp [Parameter_ARRAY_TEXT.tracedLoop, wireTextElements, pure, Except.pure]
    · simp [contiguous, wireTextElements]
  | cons s rest ih =>
    intro ptr pre suf stores hpre hsuf
    have hlen : (wireTextElements (s :: rest)).length
        = 4 + s.length + (wireTextElements rest).length := by
      simp only [wireTextElements, List.length_append, length_write]
    rw [hlen] at hsuf
    unfold Parameter_ARRAY_TEXT.tracedLoop BigEndian.assign ARRAY_SIZE.sizeof
    rw [store_at pre suf (BigEndian.write 4 s.length) ptr hpre.symm
      (by rw [length_write]; omega), ok_bind, length_write]
    rw [store_at (pre ++ BigEndian.write 4 s.length) (suf.drop 4) s (ptr + 4)
      (by rw [List.length_append, length_write]; omega)
      (by rw [List.length_drop]; omega), ok_bind]
    obtain ⟨more, hloop, hcont⟩ := ih (ptr + 4 + s.length)
      (pre ++ BigEndian.write 4 s.length ++ s) ((suf.drop 4).drop s.length)
      (stores ++ [(ptr, 4), (ptr + 4, s.length)])
      (by simp only [List.length_append, length_write]; omega)
      (by simp only [List.length_drop]; omega)
    refine ⟨[(ptr, 4), (ptr + 4, s.length)] ++ more, ?_, ?_⟩
    · rw [hloop, hlen]
      simp only [wireTextElements, List.append_assoc]
      congr 3
      omega
    · rw [hlen]
      apply contiguous_append _ ptr (ptr + 4 + s.length)
      · simp [contiguous]
      · rw [show ptr + (4 + s.length + (wireTextElements rest).length)
            = ptr + 4 + s.length + (wireTextElements rest).length by omega]
        exact hcont

theorem atoi_digits_map (ds : List Nat) :
    ∀ acc : Nat, (∀ d ∈ ds, d < 10) →
      atoi.digits (ds.map (fun d => 0x30 + d)) acc = ds.foldl (fun a d => a * 10 + d) acc := by
  induction ds with
  | nil =>
    intro acc _
    rfl
  | cons d rest ih =>
    intro acc h
    have hd : d < 10 := h d (List.mem_cons_self d rest)
    have h1 : (0x30 : Nat) ≤ 0x30 + d ∧ 0x30 + d ≤ 0x39 := by omega
    have h2 : 0x30 + d - 0x30 = d := by omega
    rw [List.map_cons, atoi.digits, if_pos h1, h2, List.foldl_cons]
    exact ih _ (fun e he => h e (List.mem_cons_of_mem d he))

theorem foldl_digits (n : Nat) :
    (Nat.digits 10 n).reverse.foldl (fun a d => a * 10 + d) 0 = n := by
  rw [List.foldl_reverse]
  have h := Nat.ofDigits_digits 10 n
  rw [Nat.ofDigits_eq_foldr] at h
  have hf : (fun (x : Nat) (y : Nat) => y * 10 + x) = (fun x y => ((x : Nat) : Nat) + 10 * y) := by
    funext x y
    omega
  rw [hf]
  simpa using h

theorem atoi_number_digit (c : Nat) (rest : List Byte) (h : 0x30 ≤ c) :
    atoi.number ((c :: rest).dropWhile isspace) = atoi.digits (c :: rest) 0 := by
  have hs : isspace c = false := by
    have a1 : ¬ (c = 0x20) := by omega
    have a2 : ¬ (c ≤ 0x0D) := by omega
    show (c == 0x20 || (decide (0x09 ≤ c) && decide (c ≤ 0x0D))) = false
    simp [a1, a2]
  rw [List.dropWhile_cons, hs]
  simp only [Bool.false_eq_true, if_false]
  unfold atoi.number
  split
  · rename_i heq
    have hc : c = 0x2D := (List.cons.inj heq).1
    omega
  · rename_i heq
    have hc : c = 0x2B := (List.cons.inj heq).1
    omega
  · rfl

theorem atoi_decimal (n : Nat) (hn : n < 2 ^ 31) : atoi (decimal n) = .ok n := by
  have hok : checked 4 (n : Int) = .ok (n : Int) :=
    checked_ok 4 n (by norm_num; omega) (by norm_num; omega)
  unfold atoi decimal
  by_cases h0 : n = 0
  · subst h0
    rw [if_pos rfl]
    exact hok
  · rw [if_neg h0]
    have hne : Nat.digits 10 n ≠ [] := by
      intro h
      exact h0 (Nat.digits_eq_nil_iff_eq_zero.mp h)
    have hval : atoi.digits ((Nat.digits 10 n).reverse.map (fun d => 0x30 + d)) 0 = n := by
      rw [atoi_digits_map _ 0 (fun d hd => Nat.digits_lt_base (by decide)
        (List.mem_reverse.mp hd)), foldl_digits]
    cases hr : (Nat.digits 10 n).reverse with
    | nil =>
      rw [List.reverse_eq_nil_iff] at hr
      exact absurd hr hne
    | cons d rest =>
      rw [hr] at hval
      rw [List.map_cons] at hval ⊢
      rw [atoi_number_digit (0x30 + d) _ (by omega), hval]
      exact hok

theorem toUInt32_cast (n : Nat) (h : n < 2 ^ 32) : toUInt32 (n : Int) = n := by
  have hc := toUnsigned_cast 4 (n : Int)
  unfold toUInt32
  have : ((n : Int)) % 2 ^ (8 * 4) = n := Int.emod_eq_of_lt (by omega) (by norm_num; omega)
  rw [this] at hc
  exact_mod_cast hc

theorem load_agree (a b : Buffer) (hlen : a.length = b.length)
    (h : ∀ k, k < 16 ∨ 20 ≤ k → a[k]? = b[k]?) (off n : Nat)
    (hoff : off + n ≤ 16 ∨ 20 ≤ off) : load a off n = load b off n := by
  unfold load
  rw [hlen]
  by_cases hb : off + n ≤ b.length
  · rw [if_pos hb, if_pos hb]
    congr 1
    apply List.ext_getElem?
    intro k
    rw [List.getElem?_take, List.getElem?_take]
    by_cases hk : k < n
    · rw [if_pos hk, if_pos hk, List.getElem?_drop, List.getElem?_drop]
      apply h
      omega
    · rw [if_neg hk, if_neg hk]
  · rw [if_neg hb, if_neg hb]

theorem deref_agree (a b : Buffer) (hlen : a.length = b.length)
    (h : ∀ k, k < 16 ∨ 20 ≤ k → a[k]? = b[k]?) (w off : Nat)
    (hoff : off + w ≤ 16 ∨ 20 ≤ off) : BigEndian.deref w a off = BigEndian.deref w b off := by
  unfold BigEndian.deref
  rw [load_agree a b hlen h off w hoff]

theorem fieldLoop_ARRAY_agree (T : Numeric) (a b : Buffer) (hlen : a.length = b.length)
    (h : ∀ k, k < 16 ∨ 20 ≤ k → a[k]? = b[k]?) :
    ∀ (n i : Nat) (value : List Int),
      Results_base.fieldLoop_ARRAY T a n i value = Results_base.fieldLoop_ARRAY T b n i value := by
  intro n
  induction n with
  | zero =>
    intro i value
    rfl
  | succ n ih =>
    intro i value
    unfold Results_base.fieldLoop_ARRAY ARRAY_SIZE.sizeof
    rw [deref_agree a b hlen h 4 _ (Or.inr (by omega)),
      deref_agree a b hlen h T.sizeof _ (Or.inr (by omega))]
    simp only [ih]

theorem fieldLoop_ARRAY_TEXT_agree (a b : Buffer) (hlen : a.length = b.length)
    (h : ∀ k, k < 16 ∨ 20 ≤ k → a[k]? = b[k]?) :
    ∀ (n ptr : Nat) (value : List (List Byte)), 20 ≤ ptr →
      Results_base.fieldLoop_ARRAY_TEXT a n ptr value
        = Results_base.fieldLoop_ARRAY_TEXT b n ptr value := by
  intro n
  induction n with
  | zero =>
    intro ptr value _
    rfl
  | succ n ih =>
    intro ptr value hptr
    unfold Results_base.fieldLoop_ARRAY_TEXT ARRAY_SIZE.sizeof
    rw [deref_agree a b hlen h 4 ptr (Or.inr hptr)]
    cases hd : BigEndian.deref 4 b ptr with
    | error e => rfl
    | ok length =>
      rw [ok_bind, ok_bind]
      dsimp only
      by_cases hneg : length < 0
      · rw [if_pos hneg, if_pos hneg]
      · rw [if_neg hneg, if_neg hneg, load_agree a b hlen h (ptr + 4) _ (Or.inr (by omega))]
        cases load b (ptr + 4) length.toNat with
        | error e => rfl
        | ok string =>
          rw [ok_bind, ok_bind]
          exact ih _ _ (by omega)

theorem apply_nulls (p q : Parameters) (op : Operation) (hp : p.WellFormed)
    (h : p.apply op = .ok q) (i : Nat) (b : Bool) (hb : p.m_nulls[i]? = some b) :
    q.m_nulls[i]? = some (b || decide (op = Operation.setNull i)) := by
  cases op with
  | setNull column =>
    change p.setNull column = .ok q at h
    unfold Parameters.setNull vset at h
    by_cases hc : column < p.m_nulls.length
    · rw [if_pos hc, ok_bind] at h
      cases h
      show (p.m_nulls.set column true)[i]? = _
      by_cases hic : column = i
      · subst hic
        rw [List.getElem?_set_self hc]
        simp
      · rw [List.getElem?_set_ne hic, hb]
        have : ¬ (Operation.setNull column = Operation.setNull i) := by
          intro e
          cases e
          exact hic rfl
        simp [this]
    · rw [if_neg hc, error_bind] at h
      cases h
  | build =>
    change p.build = .ok q at h
    obtain ⟨q1, hq1, _, _, _, hn, _⟩ := build_ok p hp
    rw [hq1] at h
    cases h
    rw [hn, hb]
    simp
  | assign column data size =>
    change (do
      let parameter ← vget p.tuple column
      let tuple ← vset p.tuple column ⟨parameter.type, data, size⟩
      pure { p with tuple := tuple }) = .ok q at h
    cases hg : vget p.tuple column with
    | error e =>
      rw [hg, error_bind] at h
      cases h
    | ok parameter =>
      rw [hg, ok_bind] at h
      cases hs : vset p.tuple column ⟨parameter.type, data, size⟩ with
      | error e =>
        rw [hs, error_bind] at h
        cases h
      | ok tuple =>
        rw [hs, ok_bind] at h
        cases h
        show p.m_nulls[i]? = _
        rw [hb]
        simp

theorem run_nulls (ops : List Operation) :
    ∀ (p q : Parameters), p.WellFormed → p.run ops = .ok q →
      ∀ (i : Nat) (b : Bool), p.m_nulls[i]? = some b →
        q.m_nulls[i]? = some (b || decide (Operation.setNull i ∈ ops)) := by
  induction ops with
  | nil =>
    intro p q _ h i b hb
    cases h
    rw [hb]
    simp
  | cons op ops ih =>
    intro p q hp h i b hb
    unfold Parameters.run at h
    cases hstep : p.apply op with
    | error e =>
      rw [hstep, error_bind] at h
      cases h
    | ok p1 =>
      rw [hstep, ok_bind] at h
      have h1 := apply_nulls p p1 op hp hstep i b hb
      have hwf1 := (apply_ok p p1 op hp hstep).1
      rw [ih p1 q hwf1 h i _ h1]
      congr 1
      by_cases e : op = Operation.setNull i
      · subst e
        simp
      · have : ¬ (Operation.setNull i = op) := fun e2 => e e2.symm
        simp [e, this]

theorem run_total (ops : List Operation) :
    ∀ p : Parameters, p.WellFormed →
      (∀ op ∈ ops, op = Operation.build ∨ ∃ c, c < p.m_size ∧ op = Operation.setNull c) →
      ∃ q, p.run ops = .ok q := by
  induction ops with
  | nil =>
    intro p _ _
    exact ⟨p, rfl⟩
  | cons op ops ih =>
    intro p hp hops
    have hstep : ∃ p1, p.apply op = .ok p1 := by
      rcases hops op (List.mem_cons_self op ops) with hop | ⟨c, hc, hop⟩
      · subst hop
        obtain ⟨q1, hq1, _⟩ := build_ok p hp
        exact ⟨q1, hq1⟩
      · subst hop
        refine ⟨{ p with m_nulls := p.m_nulls.set c true }, ?_⟩
        show p.setNull c = _
        unfold Parameters.setNull
        rw [vset_ok _ _ _ (by rw [hp.2.1]; exact hc), ok_bind]
        rfl
    obtain ⟨p1, hp1⟩ := hstep
    obtain ⟨hwf1, hsz1, _⟩ := apply_ok p p1 op hp hp1
    obtain ⟨q, hq⟩ := ih p1 hwf1 (fun o ho => by
      rw [hsz1]
      exact hops o (List.mem_cons_of_mem op ho))
    exact ⟨q, by rw [Parameters.run, hp1, ok_bind, hq]⟩

theorem fieldLoop_ARRAY_TEXT_framed (start : Buffer) :
    ∀ (n ptr : Nat) (value : List (List Byte)), framed start n ptr = true →
      ∃ result, Results_base.fieldLoop_ARRAY_TEXT start n ptr value = .ok result := by
  intro n
  induction n with
  | zero =>
    intro ptr value _
    exact ⟨value, rfl⟩
  | succ n ih =>
    intro ptr value h
    simp only [framed, Bool.and_eq_true, decide_eq_true_eq] at h
    obtain ⟨⟨⟨h1, h2⟩, h3⟩, h4⟩ := h
    obtain ⟨result, hres⟩ := ih _ (value ++ [slice start (ptr + 4)
      (BigEndian.read 4 (slice start ptr 4)).toNat]) h4
    refine ⟨result, ?_⟩
    unfold Results_base.fieldLoop_ARRAY_TEXT ARRAY_SIZE.sizeof
    rw [deref_slice 4 start ptr h1, ok_bind]
    dsimp only
    rw [if_neg (by omega), load_ok start (ptr + 4) _ h3, ok_bind]
    exact hres

theorem fieldLoop_ARRAY_WTEXT_framed (converter : wstring_convert) (start : Buffer) :
    ∀ (n ptr : Nat) (value : List (List Nat)), framed start n ptr = true →
      ∃ result, Results_base.fieldLoop_ARRAY_WTEXT converter start n ptr value
        = .ok result := by
  intro n
  induction n with
  | zero =>
    intro ptr value _
    exact ⟨value, rfl⟩
  | succ n ih =>
    intro ptr value h
    simp only [framed, Bool.and_eq_true, decide_eq_true_eq] at h
    obtain ⟨⟨⟨h1, h2⟩, h3⟩, h4⟩ := h
    unfold Results_base.fieldLoop_ARRAY_WTEXT ARRAY_SIZE.sizeof
    rw [deref_slice 4 start ptr h1, ok_bind]
    dsimp only
    rw [if_neg (by omega), load_ok start (ptr + 4) _ h3, ok_bind]
    cases hc : converter.from_bytes
        ((start.drop (ptr + 4)).take (BigEndian.read 4 (slice start ptr 4)).toNat) with
    | none => exact ⟨value, rfl⟩
    | some wide =>
      obtain ⟨result, hres⟩ := ih _ (value ++ [wide]) h4
      exact ⟨result, hres⟩

/-! ## Column types, and indexing an array parameter -/

/-- Claim C31. For every result column with declared OID `o` and declared
field size `s`, `verifyType` for `BOOL`, `SMALLINT`, `INTEGER`, `BIGINT`,
`REAL`, `DOUBLE_PRECISION`, `TIMESTAMPTZ` and `DATE` is true exactly when `o`
is the OID of the type and `s` is 1, 2, 4, 8, 4, 8, 8 and 4 in turn; for
`TEXT`, `WTEXT`, `BYTEA` and every array type it is true exactly when `o` is
the OID of the type, whatever `s` is. `verifyColumn` returns what `verifyType`
does. -/
theorem column_type_verifier (result : PGresult) (column : Int) :
    (Traits.verifyType .BOOL result column = true ↔
      result.PQftype column = Traits.oid .BOOL ∧ result.PQfsize column = 1) ∧
    (Traits.verifyType .SMALLINT result column = true ↔
      result.PQftype column = Traits.oid .SMALLINT ∧ result.PQfsize column = 2) ∧
    (Traits.verifyType .INTEGER result column = true ↔
      result.PQftype column = Traits.oid .INTEGER ∧ result.PQfsize column = 4) ∧
    (Traits.verifyType .BIGINT result column = true ↔
      result.PQftype column = Traits.oid .BIGINT ∧ result.PQfsize column = 8) ∧
    (Traits.verifyType .REAL result column = true ↔
      result.PQftype column = Traits.oid .REAL ∧ result.PQfsize column = 4) ∧
    (Traits.verifyType .DOUBLE_PRECISION result column = true ↔
      result.PQftype column = Traits.oid .DOUBLE_PRECISION ∧ result.PQfsize column = 8) ∧
    (Traits.verifyType .TIMESTAMPTZ result column = true ↔
      result.PQftype column = Traits.oid .TIMESTAMPTZ ∧ result.PQfsize column = 8) ∧
    (Traits.verifyType .DATE result column = true ↔
      result.PQftype column = Traits.oid .DATE ∧ result.PQfsize column = 4) ∧
    (∀ T ∈ [SqlType.TEXT, .WTEXT, .BYTEA, .ARRAY_SMALLINT, .ARRAY_INTEGER, .ARRAY_BIGINT,
        .ARRAY_REAL, .ARRAY_DOUBLE_PRECISION, .ARRAY_TEXT, .ARRAY_WTEXT],
      (Traits.verifyType T result column = true ↔ result.PQftype column = Traits.oid T)) ∧
    (∀ T : SqlType,
      Results_base.verifyColumn T result column = Traits.verifyType T result column) := by
  refine ⟨?_, ?_, ?_, ?_, ?_, ?_, ?_, ?_, ?_, fun _ => rfl⟩
  · simp [Traits.verifyType]
  · simp [Traits.verifyType]
  · simp [Traits.verifyType]
  · simp [Traits.verifyType]
  · simp [Traits.verifyType]
  · simp [Traits.verifyType]
  · simp [Traits.verifyType]
  · simp [Traits.verifyType]
  · intro T hT
    simp only [List.mem_cons, List.mem_singleton, List.not_mem_nil, or_false] at hT
    rcases hT with h | h | h | h | h | h | h | h | h | h <;> subst h <;>
      simp [Traits.verifyType]

/-- Claim C33, amended. For every sequence `xs` of `N` values of a numeric
type `T` of width `w` with `20 + N * (4 + w) < 2 ^ 32` and every `i < N`, the
parameter built from `xs` reads `xs[i]` at index `i`: `operator[](i)`
designates the `w` bytes at offset `24 + i * (4 + w)`, which lie in the
buffer and hold `xs[i]` big-endian. -/
theorem numeric_array_index (T : Numeric) (heap : Nat → Byte) (xs : List Int) (i : Nat)
    (v : Int) (hsize : 20 + xs.length * (4 + T.sizeof) < 2 ^ 32)
    (hrange : ∀ x ∈ xs, T.InRange x) (hi : xs[i]? = some v) :
    ∃ p, Parameter_ARRAY.assign T heap xs = .ok p ∧
      Parameter_ARRAY.get T p i = .ok v ∧
      Parameter_ARRAY.slot T i = 24 + i * (4 + T.sizeof) ∧
      Parameter_ARRAY.slot T i + T.sizeof ≤ p.size ∧
      slice p.data (Parameter_ARRAY.slot T i) T.sizeof = BigEndian.write T.sizeof v := by
  have hlt : i < xs.length := by
    rcases Nat.lt_or_ge i xs.length with h | h
    · exact h
    · rw [List.getElem?_eq_none h] at hi
      cases hi
  have hv : T.InRange v := hrange v (List.getElem?_mem hi)
  obtain ⟨pre, suf, hsplit, hpre⟩ := wireNumericElements_split T xs i v hi
  have hslot := slot_eq T xs.length i hlt hsize
  have hdata : wireHeader (Traits.oid T.toType) xs.length ++ wireNumericElements T xs
      = (wireHeader (Traits.oid T.toType) xs.length ++ pre ++ BigEndian.write 4 T.sizeof)
        ++ BigEndian.write T.sizeof v ++ suf := by
    rw [hsplit]
    simp only [List.append_assoc]
  have hprelen : (wireHeader (Traits.oid T.toType) xs.length ++ pre
      ++ BigEndian.write 4 T.sizeof).length = 24 + i * (4 + T.sizeof) := by
    simp only [List.length_append, length_wireHeader, length_write, hpre]
    omega
  refine ⟨_, assign_ARRAY_ok T heap xs hsize, ?_, hslot, ?_, ?_⟩
  · exact get_at T _ xs.length i _ suf v hlt hsize hdata hprelen hv
  · rw [hslot]
    exact slot_bound T xs.length i hlt
  · rw [hslot]
    show slice (wireHeader (Traits.oid T.toType) xs.length ++ wireNumericElements T xs) _ _ = _
    rw [hdata]
    unfold slice
    rw [List.append_assoc, List.drop_left' hprelen, List.take_left' (length_write _ _)]

/-- The read-back of C33 on the array `eight` of the test: the parameter
built from it reads -5209 at index 2, from the two bytes at offset 36. -/
theorem numeric_array_index_eight :
    ∃ p, Parameter_ARRAY.assign .SMALLINT (fun _ => 0xAA) eight = .ok p ∧
      Parameter_ARRAY.get .SMALLINT p 2 = .ok (-5209) ∧
      Parameter_ARRAY.slot .SMALLINT 2 = 36 := by
  obtain ⟨p, hp, hget, hslot, _, _⟩ :=
    numeric_array_index .SMALLINT (fun _ => 0xAA) eight 2 (-5209) (by decide) (by decide)
      (by decide)
  exact ⟨p, hp, hget, hslot⟩

/-- Claim C33 as stated fails: for 536870910 `INTEGER` values the size
`20 + N * 8` is `2 ^ 32 + 4`; `m_size` wraps to 4 and the constructor writes
outside the four bytes it allocated, so there is no parameter to index. -/
theorem numeric_array_index_overflow :
    20 + (List.replicate 536870910 (0 : Int)).length * (4 + Numeric.INTEGER.sizeof)
      = 2 ^ 32 + 4 ∧
    Parameter_ARRAY.assign .INTEGER (fun _ => 0) (List.replicate 536870910 0)
      = .error .outOfBounds ∧
    ¬ ∃ p, Parameter_ARRAY.assign .INTEGER (fun _ => 0) (List.replicate 536870910 0) = .ok p ∧
      Parameter_ARRAY.get .INTEGER p 0 = .ok 0 := by
  have hres : Parameter_ARRAY.resize .INTEGER (fun _ => 0) 536870910
      = .error .outOfBounds := by decide
  have hfail : Parameter_ARRAY.assign .INTEGER (fun _ => 0) (List.replicate 536870910 0)
      = .error .outOfBounds := by
    unfold Parameter_ARRAY.assign
    rw [List.length_replicate, hres]
    rfl
  refine ⟨by rw [List.length_replicate]; decide, hfail, ?_⟩
  rintro ⟨p, hp, _⟩
  rw [hfail] at hp
  cases hp

/-- Claim C36 fails in the code. For every sequence `xs` of `N` values whose
encoding fits the size member, the parameter built from the size `N` and
filled through `operator[]` has the `size()` of the parameter built from `xs`
and the same header, but each of its length words still holds the bytes that
`new char[]` left there, where the parameter built from `xs` holds the word
`sizeof(T)`: `resize` writes the header only and `operator[]` the values
only. -/
theorem sized_array_length_words (T : Numeric) (heap : Nat → Byte) (xs : List Int)
    (hsize : 20 + xs.length * (4 + T.sizeof) < 2 ^ 32) :
    ∃ p q, (Parameter_ARRAY.mk_of_size T heap xs.length >>= Parameter_ARRAY.fill T xs 0)
        = .ok p ∧
      Parameter_ARRAY.assign T heap xs = .ok q ∧
      p.size = q.size ∧ p.data.length = q.data.length ∧
      (∀ k, k < 20 → p.data[k]? = q.data[k]?) ∧
      (∀ i r, i < xs.length → r < 4 →
        p.data[20 + i * (4 + T.sizeof) + r]? = some (heap (20 + i * (4 + T.sizeof) + r)) ∧
        q.data[20 + i * (4 + T.sizeof) + r]? = (BigEndian.write 4 T.sizeof)[r]?) := by
  have hres := resize_ok T heap xs.length hsize
  obtain ⟨p, hfill, hsz, hlen, hkeep⟩ := fill_keeps T xs.length hsize xs 0
    ⟨20 + xs.length * (4 + T.sizeof),
      wireHeader (Traits.oid T.toType) xs.length
        ++ (alloc heap (20 + xs.length * (4 + T.sizeof))).drop 20⟩
    (by simp only [List.length_append, length_wireHeader, List.length_drop, length_alloc]
        omega)
    (by omega)
  have hplen : p.m_data.length = 20 + xs.length * (4 + T.sizeof) := by
    rw [hlen]
    simp only [List.length_append, length_wireHeader, List.length_drop, length_alloc]
    omega
  refine ⟨p, _, ?_, assign_ARRAY_ok T heap xs hsize, hsz, ?_, ?_, ?_⟩
  · unfold Parameter_ARRAY.mk_of_size
    rw [hres, ok_bind, hfill]
  · show p.m_data.length = _
    rw [hplen]
    simp only [ArrayParameter.data, List.length_append, length_wireHeader,
      length_wireNumericElements]
  · intro k hk
    simp only [ArrayParameter.data]
    rw [hkeep k (Or.inl (by omega))]
    show (wireHeader (Traits.oid T.toType) xs.length
        ++ (alloc heap (20 + xs.length * (4 + T.sizeof))).drop 20)[k]?
      = (wireHeader (Traits.oid T.toType) xs.length ++ wireNumericElements T xs)[k]?
    rw [List.getElem?_append_left (by rw [length_wireHeader]; exact hk),
      List.getElem?_append_left (by rw [length_wireHeader]; exact hk)]
  · intro i r hi hr
    have hb := slot_bound T xs.length i hi
    simp only [ArrayParameter.data]
    constructor
    · rw [hkeep _ (Or.inr ⟨i, r, hr, rfl⟩)]
      show (wireHeader (Traits.oid T.toType) xs.length
          ++ (alloc heap (20 + xs.length * (4 + T.sizeof))).drop 20)[_]? = _
      rw [List.getElem?_append_right (by rw [length_wireHeader]; omega), length_wireHeader,
        List.getElem?_drop, alloc_get heap _ _ (by omega)]
      congr 2
      omega
    · obtain ⟨v, hv⟩ : ∃ v, xs[i]? = some v := ⟨xs[i], List.getElem?_eq_getElem hi⟩
      obtain ⟨pre, suf, hsplit, hpre⟩ := wireNumericElements_split T xs i v hv
      show (wireHeader (Traits.oid T.toType) xs.length ++ wireNumericElements T xs)[_]? = _
      rw [List.getElem?_append_right (by rw [length_wireHeader]; omega), length_wireHeader,
        hsplit, List.append_assoc, List.append_assoc,
        List.getElem?_append_right (by rw [hpre]; omega),
        List.getElem?_append_left (by rw [length_write, hpre]; omega)]
      congr 1
      rw [hpre]
      omega

/-- The divergence of C36 on the one `SMALLINT` value 1 with an allocator
that leaves the byte `AA` everywhere: the first byte of the length word is
`AA` in the parameter built from the size, and `00` in the one built from the
value. -/
theorem sized_array_length_words_one :
    ∃ p q, (Parameter_ARRAY.mk_of_size .SMALLINT (fun _ => 0xAA) 1
          >>= Parameter_ARRAY.fill .SMALLINT [1] 0) = .ok p ∧
      Parameter_ARRAY.assign .SMALLINT (fun _ => 0xAA) [1] = .ok q ∧
      p.data[20]? = some 0xAA ∧ q.data[20]? = some 0x00 ∧
      p.data = [0x00, 0x00, 0x00, 0x01,
                0x00, 0x00, 0x00, 0x00,
                0x00, 0x00, 0x00, 0x15,
                0x00, 0x00, 0x00, 0x01,
                0x00, 0x00, 0x00, 0x01,
                0xAA, 0xAA, 0xAA, 0xAA,
                0x00, 0x01] := by
  obtain ⟨p, q, hp, hq, _, _, _, hw⟩ :=
    sized_array_length_words .SMALLINT (fun _ => 0xAA) [1] (by decide)
  have h := hw 0 0 (by decide) (by decide)
  have hp2 : (Parameter_ARRAY.mk_of_size .SMALLINT (fun _ => 0xAA) 1
      >>= Parameter_ARRAY.fill .SMALLINT [1] 0)
      = .ok ⟨26, [0x00, 0x00, 0x00, 0x01,
                  0x00, 0x00, 0x00, 0x00,
                  0x00, 0x00, 0x00, 0x15,
                  0x00, 0x00, 0x00, 0x01,
                  0x00, 0x00, 0x00, 0x01,
                  0xAA, 0xAA, 0xAA, 0xAA,
                  0x00, 0x01]⟩ := by decide
  have hpe := hp.symm.trans hp2
  cases hpe
  exact ⟨_, q, hp, hq, h.1, h.2, rfl⟩

/-- Claim C37. For every numeric array parameter of `N` elements of width
`w`, whose buffer has the `size() = 20 + N * (4 + w)` bytes, every `i < N` and
every value `v` of the type, the store of `v` through `operator[](i)` writes
the `w` bytes at offsets `24 + i * (4 + w)` to `24 + i * (4 + w) + w - 1`,
which lie in the buffer, and no other byte: the header, every length word and
every other element keep their bytes, `size()` keeps its value, and
`operator[](i)` then reads `v`. -/
theorem element_write_frame (T : Numeric) (p : ArrayParameter) (N i : Nat) (v : Int)
    (hlen : p.data.length = 20 + N * (4 + T.sizeof)) (hsize : p.size = p.data.length)
    (h32 : p.size < 2 ^ 32) (hi : i < N) (hv : T.InRange v) :
    ∃ q, Parameter_ARRAY.set T p i v = .ok q ∧
      q.size = p.size ∧ q.data.length = p.data.length ∧
      24 + i * (4 + T.sizeof) + T.sizeof ≤ p.size ∧
      (∀ k, k < 24 + i * (4 + T.sizeof) ∨ 24 + i * (4 + T.sizeof) + T.sizeof ≤ k →
        q.data[k]? = p.data[k]?) ∧
      slice q.data (24 + i * (4 + T.sizeof)) T.sizeof = BigEndian.write T.sizeof v ∧
      Parameter_ARRAY.get T q i = .ok v := by
  have h32b : 20 + N * (4 + T.sizeof) < 2 ^ 32 := by
    rw [← hlen, ← hsize]
    exact h32
  have hb := slot_bound T N i hi
  obtain ⟨q, hset, hsz, hqlen, hframe, hdata⟩ := set_frame T p N i v hlen h32b hi
  have htake : (p.m_data.take (24 + i * (4 + T.sizeof))).length
      = 24 + i * (4 + T.sizeof) := by
    rw [List.length_take]
    have : p.m_data.length = 20 + N * (4 + T.sizeof) := hlen
    omega
  refine ⟨q, hset, hsz, hqlen, ?_, hframe, ?_, ?_⟩
  · rw [hsize, hlen]
    exact hb
  · show slice q.m_data _ _ = _
    rw [hdata]
    unfold slice
    rw [List.append_assoc, List.drop_left' htake, List.take_left' (length_write _ _)]
  · exact get_at T q N i _ _ v hi h32b hdata htake hv

/-- The frame of C37 on the parameter built from the array `eight` of the
test: the store of 7 at index 2 changes the bytes 36 and 37 of `properEight`
and nothing else. -/
theorem element_write_frame_eight :
    Parameter_ARRAY.set .SMALLINT ⟨50, properEight⟩ 2 7
      = .ok ⟨50, (properEight.set 36 0x00).set 37 0x07⟩ ∧
    Parameter_ARRAY.get .SMALLINT ⟨50, (properEight.set 36 0x00).set 37 0x07⟩ 2 = .ok 7 := by
  obtain ⟨q, hset, _, _, _, _, _, hget⟩ :=
    element_write_frame .SMALLINT ⟨50, properEight⟩ 5 2 7 (by decide) (by decide) (by decide)
      (by decide) (by decide)
  have hq : Parameter_ARRAY.set .SMALLINT ⟨50, properEight⟩ 2 7
      = .ok ⟨50, (properEight.set 36 0x00).set 37 0x07⟩ := by decide
  have e := hset.symm.trans hq
  cases e
  exact ⟨hset, hget⟩

/-- Claim C34, amended. For every sequence `xs` of `N` byte strings, each
shorter than `2 ^ 31` bytes, whose encoded size `20 + 4 * N + sum of the
lengths` is below `2 ^ 32`, and every `i < N`, `operator[](i)` of the
parameter built from `xs` returns `xs[i]` after reading `i + 1` length words,
all its reads lying in the encoded buffer. -/
theorem text_array_index (heap : Nat → Byte) (xs : List (List Byte)) (i : Nat)
    (s : List Byte) (hsize : 20 + 4 * xs.length + totalLength xs < 2 ^ 32)
    (hlen : ∀ u ∈ xs, u.length < 2 ^ 31) (hi : xs[i]? = some s) :
    ∃ p, Parameter_ARRAY_TEXT.assign heap xs = .ok p ∧
      Parameter_ARRAY_TEXT.index p i = .ok (s, i + 1) := by
  have hlt : i < xs.length := by
    rcases Nat.lt_or_ge i xs.length with h | h
    · exact h
    · rw [List.getElem?_eq_none h] at hi
      cases hi
  refine ⟨_, assign_ARRAY_TEXT_ok heap xs hsize, ?_⟩
  unfold Parameter_ARRAY_TEXT.index ARRAY_SIZE.sizeof
  rw [Nat.mod_eq_of_lt (by omega),
    indexLoop_ok xs i 0 (5 * 4) (wireHeader (Traits.oid .TEXT) xs.length) s _ rfl
      (by rw [length_wireHeader]) hlen hi]
  congr 2
  omega

/-- The read-back of C34 on the array `nine` of the test: index 1 gives the
second title after two length words. -/
theorem text_array_index_nine :
    ∃ p, Parameter_ARRAY_TEXT.assign (fun _ => 0xAA) nine = .ok p ∧
      Parameter_ARRAY_TEXT.index p 1 = .ok (bytesOf "The Two Towers", 2) :=
  text_array_index (fun _ => 0xAA) nine 1 (bytesOf "The Two Towers") (by decide) (by decide)
    (by decide)

/-- Claim C34 as stated fails in two places. For one string of `2 ^ 33`
bytes the sum of the sizes wraps, 24 bytes are allocated and the copy of the
string leaves them, so there is no parameter to index. For one string of
`2 ^ 31` bytes the parameter is built, but `operator[](0)` reads its length
word as a negative `int32_t` and the constructor of the string it returns
throws `std::length_error`. -/
theorem text_array_index_fails :
    Parameter_ARRAY_TEXT.assign (fun _ => 0) [List.replicate (2 ^ 33) 0]
      = .error .outOfBounds ∧
    (∃ p, Parameter_ARRAY_TEXT.assign (fun _ => 0) [List.replicate (2 ^ 31) 0] = .ok p ∧
      Parameter_ARRAY_TEXT.index p 0 = .error .lengthError) :=
  ⟨assign_singleton_wrap (fun _ => 0) (List.replicate (2 ^ 33) 0)
      (by rw [List.length_replicate]; decide) (by rw [List.length_replicate]; decide),
    index_long_string (fun _ => 0) (List.replicate (2 ^ 31) 0)
      (by rw [List.length_replicate])⟩

/-! ## The stores of the TEXT array encoder -/

/-- Claim C38. For every sequence `xs` of `N` byte strings whose encoded size
`20 + 4 * N + sum of the lengths` is below `2 ^ 32`, `assign` allocates that
many bytes, its write cursor ends exactly `size()` bytes past the start, and
its stores, the five header words and then a length word and a string per
element, follow one another from offset 0 to offset `size()` without gap or
overlap: every byte of the buffer is written by exactly one store and no byte
outside it is written. -/
theorem text_array_fill (heap : Nat → Byte) (xs : List (List Byte))
    (hsize : 20 + 4 * xs.length + totalLength xs < 2 ^ 32) :
    ∃ p cursor stores,
      Parameter_ARRAY_TEXT.tracedAssign heap xs = .ok (p, cursor, stores) ∧
      Parameter_ARRAY_TEXT.assign heap xs = .ok p ∧
      p.size = 20 + 4 * xs.length + totalLength xs ∧
      p.data.length = p.size ∧
      cursor = p.size ∧
      contiguous stores 0 p.size = true ∧
      (∀ k, k < p.size → stores.countP (writes k) = 1) ∧
      (∀ k, p.size ≤ k → stores.countP (writes k) = 0) := by
  have hsz : (4 * (5 + xs.length) + totalLength xs) % 2 ^ 32
      = 20 + 4 * xs.length + totalLength xs := by
    rw [Nat.mod_eq_of_lt (by omega)]
    omega
  have hwl := length_wireTextElements xs
  obtain ⟨more, hloop, hcont⟩ := tracedLoop_ok xs (5 * 4)
    (wireHeader (Traits.oid .TEXT) xs.length)
    ((alloc heap (20 + 4 * xs.length + totalLength xs)).drop 20)
    ((List.range 5).map (fun k => (k * 4, 4)))
    (by rw [length_wireHeader])
    (by rw [List.length_drop, length_alloc, hwl]; omega)
  have hall : contiguous ((List.range 5).map (fun k => (k * 4, 4)) ++ more) 0
      (20 + 4 * xs.length + totalLength xs) = true := by
    apply contiguous_append _ 0 20
    · decide
    · rw [show 20 + 4 * xs.length + totalLength xs = 5 * 4 + (wireTextElements xs).length by
        rw [hwl]; omega]
      exact hcont
  refine ⟨⟨20 + 4 * xs.length + totalLength xs,
      wireHeader (Traits.oid .TEXT) xs.length ++ wireTextElements xs⟩,
    20 + 4 * xs.length + totalLength xs,
    (List.range 5).map (fun k => (k * 4, 4)) ++ more, ?_,
    assign_ARRAY_TEXT_ok heap xs hsize, rfl, ?_, rfl, hall, ?_, ?_⟩
  · unfold Parameter_ARRAY_TEXT.tracedAssign ARRAY_SIZE.sizeof
    simp only [dataSize_eq xs (by omega), hsz]
    rw [writeHeader_ok _ _ _ (by rw [length_alloc]; omega), ok_bind, hloop, ok_bind]
    simp only [pure, Except.pure, hwl]
    congr 3
    omega
  · simp only [ArrayParameter.data, ArrayParameter.size, List.length_append,
      length_wireHeader, hwl]
    omega
  · intro k hk
    rw [contiguous_countP _ 0 _ k hall, if_pos ⟨Nat.zero_le k, hk⟩]
  · intro k hk
    rw [contiguous_countP _ 0 _ k hall, if_neg (by
      simp only [ArrayParameter.size] at hk
      omega)]

/-- The fill of C38 on the array `nine` of the test: 94 bytes, the cursor at
94, and eleven stores. -/
theorem text_array_fill_nine :
    ∃ p stores, Parameter_ARRAY_TEXT.tracedAssign (fun _ => 0xAA) nine = .ok (p, 94, stores) ∧
      p.size = 94 ∧ p.data = properNine ∧ stores.length = 11 := by
  obtain ⟨p, cursor, stores, ht, _, hs, _, hc, _, _, _⟩ :=
    text_array_fill (fun _ => 0xAA) nine (by decide)
  have hd : Parameter_ARRAY_TEXT.tracedAssign (fun _ => 0xAA) nine
      = .ok (⟨94, properNine⟩, 94,
          [(0, 4), (4, 4), (8, 4), (12, 4), (16, 4), (20, 4), (24, 26), (50, 4), (54, 14),
            (68, 4), (72, 22)]) := by decide
  have e := ht.symm.trans hd
  cases e
  exact ⟨_, _, ht, rfl, rfl, rfl⟩

/-! ## The count of affected rows -/

/-- Claim C35. For every result whose affected-row text is the decimal
numeral of `n` with `n < 2 ^ 31`, `affectedRows()` returns `n`; and for the
empty text it returns 0. -/
theorem affected_rows_decimal (m_res : PGresult) :
    (∀ n : Nat, n < 2 ^ 31 → m_res.PQcmdTuples = decimal n →
      Results_base.affectedRows m_res = .ok n) ∧
    (m_res.PQcmdTuples = [] → Results_base.affectedRows m_res = .ok 0) := by
  constructor
  · intro n hn h
    unfold Results_base.affectedRows
    rw [h, atoi_decimal n hn, ok_bind, toUInt32_cast n (by omega)]
    rfl
  · intro h
    unfold Results_base.affectedRows
    rw [h]
    rfl

/-- The count of C35 on the result of the `DELETE` of the test, whose text is
the numeral `1`: one row. -/
theorem affected_rows_decimal_delete :
    deleteResult.PQcmdTuples = decimal 1 ∧
    Results_base.affectedRows deleteResult = .ok 1 :=
  ⟨by simp [deleteResult, decimal],
    (affected_rows_decimal deleteResult).1 1 (by decide) (by simp [deleteResult, decimal])⟩

/-! ## What the array decoders read -/

/-- Claim C40. For every two fields of the same length that differ at most in
the header bytes 16 to 19, the lower bound, the numeric array decoder run on
the one and on the other ends the same way, with the same sequence, and so
does the `ARRAY<TEXT>` decoder. -/
theorem decoders_ignore_lBound (a b : Buffer) (hlen : a.length = b.length)
    (h : ∀ k, k < 16 ∨ 20 ≤ k → a[k]? = b[k]?) :
    (∀ (T : Numeric) (value : List Int),
      Results_base.field_ARRAY T a value = Results_base.field_ARRAY T b value) ∧
    (∀ value : List (List Byte),
      Results_base.field_ARRAY_TEXT a value = Results_base.field_ARRAY_TEXT b value) := by
  constructor
  · intro T value
    unfold Results_base.field_ARRAY ARRAY_SIZE.sizeof
    rw [deref_agree a b hlen h 4 (0 * 4) (Or.inl (by omega)),
      deref_agree a b hlen h 4 (1 * 4) (Or.inl (by omega)),
      deref_agree a b hlen h 4 (2 * 4) (Or.inl (by omega)),
      deref_agree a b hlen h 4 (3 * 4) (Or.inl (by omega))]
    simp only [fieldLoop_ARRAY_agree T a b hlen h]
  · intro value
    unfold Results_base.field_ARRAY_TEXT ARRAY_SIZE.sizeof
    rw [deref_agree a b hlen h 4 0 (Or.inl (by omega)),
      deref_agree a b hlen h 4 4 (Or.inl (by omega)),
      deref_agree a b hlen h 4 (2 * 4) (Or.inl (by omega)),
      deref_agree a b hlen h 4 (3 * 4) (Or.inl (by omega))]
    simp only [fieldLoop_ARRAY_TEXT_agree a b hlen h _ (5 * 4) _ (by omega)]

/-- The indifference of C40 on the arrays of the test: `properEight` with the
lower bound 0 decodes to `eight`, and `properNine` with the lower bound 7 to
`nine`. -/
theorem decoders_ignore_lBound_test :
    Results_base.field_ARRAY .SMALLINT eightFromZero [] = .ok eight ∧
    Results_base.field_ARRAY_TEXT nineFromSeven [] = .ok nine := by
  have h8 := (decoders_ignore_lBound eightFromZero properEight (by decide)
    (by
      intro k hk
      unfold eightFromZero
      rw [List.getElem?_set_ne (by omega)])).1 .SMALLINT []
  have h9 := (decoders_ignore_lBound nineFromSeven properNine (by decide)
    (by
      intro k hk
      unfold nineFromSeven
      rw [List.getElem?_set_ne (by omega)])).2 []
  exact ⟨h8.trans (by decide), h9.trans (by decide)⟩

/-! ## Null flags -/

/-- Claim C39. Every column of a fresh parameter tuple is non-null;
`setNull(c)` for `c < size()` sets the flag of column `c` and leaves the flag
of every other column as it was; `build()` changes no flag. Every sequence of
`setNull` calls on columns below `size()` and of `build()` calls runs to its
end, and after any sequence of operations `isNull(i)` is true exactly for the
columns `i` that were passed to `setNull`; so a column once null stays
null. -/
theorem null_flags_sticky (tuple : List Parameter) :
    (∀ i, i < tuple.length → (Parameters.mk_of tuple).isNull i = .ok false) ∧
    (∀ (p : Parameters) (c : Nat), p.WellFormed → c < p.size →
      ∃ q, p.setNull c = .ok q ∧ q.isNull c = .ok true ∧
        ∀ i, i ≠ c → q.isNull i = p.isNull i) ∧
    (∀ p q : Parameters, p.WellFormed → p.build = .ok q → ∀ i, q.isNull i = p.isNull i) ∧
    (∀ ops : List Operation,
      (∀ op ∈ ops, op = Operation.build ∨ ∃ c, c < tuple.length ∧ op = Operation.setNull c) →
      ∃ q, (Parameters.mk_of tuple).run ops = .ok q) ∧
    (∀ (ops : List Operation) (q : Parameters) (i : Nat),
      (Parameters.mk_of tuple).run ops = .ok q → i < tuple.length →
      q.isNull i = .ok (decide (Operation.setNull i ∈ ops))) ∧
    (∀ (ops more : List Operation) (q r : Parameters) (i : Nat),
      (Parameters.mk_of tuple).run ops = .ok q →
      (Parameters.mk_of tuple).run (ops ++ more) = .ok r → i < tuple.length →
      q.isNull i = .ok true → r.isNull i = .ok true) := by
  have hwf := mk_of_wellFormed tuple
  have hsize : (Parameters.mk_of tuple).m_size = tuple.length := by
    simp [Parameters.mk_of, Parameters.s_oids]
  have hfresh : ∀ i, i < tuple.length → (Parameters.mk_of tuple).m_nulls[i]? = some false := by
    intro i hi
    simp [Parameters.mk_of, Parameters.s_oids, hi]
  have hfinal : ∀ (ops : List Operation) (q : Parameters) (i : Nat),
      (Parameters.mk_of tuple).run ops = .ok q → i < tuple.length →
      q.isNull i = .ok (decide (Operation.setNull i ∈ ops)) := by
    intro ops q i h hi
    have := run_nulls ops _ q hwf h i false (hfresh i hi)
    unfold Parameters.isNull
    rw [vget_ok _ _ _ this]
    simp
  refine ⟨?_, ?_, ?_, ?_, hfinal, ?_⟩
  · intro i hi
    unfold Parameters.isNull
    rw [vget_ok _ _ _ (hfresh i hi)]
  · intro p c hp hc
    have hcl : c < p.m_nulls.length := by
      rw [hp.2.1]
      exact hc
    refine ⟨{ p with m_nulls := p.m_nulls.set c true }, ?_, ?_, ?_⟩
    · unfold Parameters.setNull
      rw [vset_ok _ _ _ hcl, ok_bind]
      rfl
    · unfold Parameters.isNull
      rw [vget_ok _ _ true (List.getElem?_set_self hcl)]
    · intro i hic
      unfold Parameters.isNull vget
      dsimp only
      rw [List.getElem?_set_ne (Ne.symm hic)]
  · intro p q hp h i
    obtain ⟨q1, hq1, _, _, _, hn, _⟩ := build_ok p hp
    rw [hq1] at h
    cases h
    unfold Parameters.isNull
    rw [hn]
  · intro ops hops
    exact run_total ops _ hwf (fun op hop => by
      rw [hsize]
      exact hops op hop)
  · intro ops more q r i hq hr hi hnull
    rw [hfinal ops q i hq hi] at hnull
    rw [hfinal (ops ++ more) r i hr hi]
    have hmem : Operation.setNull i ∈ ops := by
      have := Except.ok.inj hnull
      simpa using this
    have : Operation.setNull i ∈ ops ++ more := List.mem_append_left more hmem
    simp [this]

/-- The flags of C39 on the tuple `twoColumns`: after `setNull(1)`, `build()`
and `setNull(1)` again, column 1 is null and column 0 is not. -/
theorem null_flags_sticky_two :
    ∃ q, (Parameters.mk_of twoColumns).run [.setNull 1, .build, .setNull 1] = .ok q ∧
      q.isNull 0 = .ok false ∧ q.isNull 1 = .ok true := by
  obtain ⟨q, hq⟩ := (null_flags_sticky twoColumns).2.2.2.1 [.setNull 1, .build, .setNull 1]
    (by decide)
  have h0 := (null_flags_sticky twoColumns).2.2.2.2.1 _ q 0 hq (by decide)
  have h1 := (null_flags_sticky twoColumns).2.2.2.2.1 _ q 1 hq (by decide)
  exact ⟨q, hq, h0.trans (by decide), h1.trans (by decide)⟩

/-! ## Fields that a decoder cannot take -/

/-- Claim C32, amended. On a field that holds a header which passes the
checks, with `dim = n` not negative, the numeric array decoder returns
normally when the field holds its `n` slots, whatever their length words are;
the `ARRAY<TEXT>` and `ARRAY<WTEXT>` decoders return normally when each of the
`n` elements has a length word that is not negative and counts bytes of the
field. With a negative `dim` each of the three decoders throws
`std::length_error`, from `reserve`, and the exception leaves the decoder. -/
theorem array_decoders_return (start : Buffer) (hlen : 16 ≤ start.length)
    (hndim : headerWord start 0 = 1) (hnull : headerWord start 1 = 0) :
    (∀ (T : Numeric) (n : Nat) (value : List Int),
      toUInt32 (headerWord start 2) = Traits.oid T.toType → headerWord start 3 = n →
      20 + n * (4 + T.sizeof) ≤ start.length →
      ∃ result, Results_base.field_ARRAY T start value = .ok result) ∧
    (∀ n : Nat, toUInt32 (headerWord start 2) = 25 → headerWord start 3 = n →
      framed start n 20 = true →
      (∀ value, ∃ result, Results_base.field_ARRAY_TEXT start value = .ok result) ∧
      (∀ converter value, ∃ result,
        Results_base.field_ARRAY_WTEXT converter start value = .ok result)) ∧
    (headerWord start 3 < 0 →
      (∀ (T : Numeric) (value : List Int),
        toUInt32 (headerWord start 2) = Traits.oid T.toType →
        Results_base.field_ARRAY T start value = .error .lengthError) ∧
      (toUInt32 (headerWord start 2) = 25 →
        (∀ value, Results_base.field_ARRAY_TEXT start value = .error .lengthError) ∧
        (∀ converter value,
          Results_base.field_ARRAY_WTEXT converter start value = .error .lengthError))) := by
  have e0 : BigEndian.deref 4 start 0 = .ok 1 := by
    rw [deref_slice 4 start 0 (by omega)]
    exact congrArg Except.ok hndim
  have e1 : BigEndian.deref 4 start 4 = .ok 0 := by
    rw [deref_slice 4 start 4 (by omega)]
    exact congrArg Except.ok hnull
  have e2 : BigEndian.deref 4 start 8 = .ok (headerWord start 2) :=
    deref_slice 4 start 8 (by omega)
  have e3 : BigEndian.deref 4 start 12 = .ok (headerWord start 3) :=
    deref_slice 4 start 12 (by omega)
  have hnum : ∀ (T : Numeric) (value : List Int),
      toUInt32 (headerWord start 2) = Traits.oid T.toType →
      Results_base.field_ARRAY T start value
        = (if headerWord start 3 < 0 then .error .lengthError
          else Results_base.fieldLoop_ARRAY T start (headerWord start 3).toNat 0 []) := by
    intro T value hoid
    unfold Results_base.field_ARRAY ARRAY_SIZE.sizeof
    rw [show 0 * 4 = 0 from rfl, e0, ok_bind, if_neg (by simp),
      show 1 * 4 = 4 from rfl, e1, ok_bind, if_neg (by simp),
      show 2 * 4 = 8 from rfl, e2, ok_bind, if_neg (by simp [hoid]),
      show 3 * 4 = 12 from rfl, e3, ok_bind]
    rfl
  have htext : toUInt32 (headerWord start 2) = 25 → ∀ value : List (List Byte),
      Results_base.field_ARRAY_TEXT start value
        = (if headerWord start 3 < 0 then .error .lengthError
          else Results_base.fieldLoop_ARRAY_TEXT start (headerWord start 3).toNat 20 []) := by
    intro hoid value
    have hoid2 : toUInt32 (headerWord start 2) = Traits.oid .TEXT := hoid
    unfold Results_base.field_ARRAY_TEXT ARRAY_SIZE.sizeof
    rw [e0, ok_bind, if_neg (by simp), e1, ok_bind, if_neg (by simp),
      show 2 * 4 = 8 from rfl, e2, ok_bind, if_neg (by simp [hoid2]),
      show 3 * 4 = 12 from rfl, e3, ok_bind]
    rfl
  have hwide : toUInt32 (headerWord start 2) = 25 →
      ∀ (converter : wstring_convert) (value : List (List Nat)),
      Results_base.field_ARRAY_WTEXT converter start value
        = (if headerWord start 3 < 0 then .error .lengthError
          else Results_base.fieldLoop_ARRAY_WTEXT converter start
            (headerWord start 3).toNat 20 []) := by
    intro hoid converter value
    have hoid2 : toUInt32 (headerWord start 2) = Traits.oid .TEXT := hoid
    unfold Results_base.field_ARRAY_WTEXT ARRAY_SIZE.sizeof
    rw [e0, ok_bind, if_neg (by simp), e1, ok_bind, if_neg (by simp),
      show 2 * 4 = 8 from rfl, e2, ok_bind, if_neg (by simp [hoid2]),
      show 3 * 4 = 12 from rfl, e3, ok_bind]
    rfl
  refine ⟨?_, ?_, ?_⟩
  · intro T n value hoid hdim hfit
    rw [hnum T value hoid, hdim, if_neg (by omega), Int.toNat_ofNat,
      fieldLoop_ARRAY_kept T start n 0 [] (by rw [Nat.zero_add]; exact hfit)]
    exact ⟨_, rfl⟩
  · intro n hoid hdim hframed
    constructor
    · intro value
      rw [htext hoid value, hdim, if_neg (by omega), Int.toNat_ofNat]
      exact fieldLoop_ARRAY_TEXT_framed start n 20 [] hframed
    · intro converter value
      rw [hwide hoid converter value, hdim, if_neg (by omega), Int.toNat_ofNat]
      exact fieldLoop_ARRAY_WTEXT_framed converter start n 20 [] hframed
  · intro hneg
    refine ⟨?_, ?_⟩
    · intro T value hoid
      rw [hnum T value hoid, if_pos hneg]
    · intro hoid
      refine ⟨?_, ?_⟩
      · intro value
        rw [htext hoid value, if_pos hneg]
      · intro converter value
        rw [hwide hoid converter value, if_pos hneg]

/-- The returns of C32 on the field `secondSlotMalformed`, whose second length
word is wrong, and on the field `properNine` of the test, for the decoders of
`TEXT` and of wide strings. -/
theorem array_decoders_return_test :
    (∃ result, Results_base.field_ARRAY .SMALLINT secondSlotMalformed [] = .ok result) ∧
    (∃ result, Results_base.field_ARRAY_TEXT properNine [] = .ok result) ∧
    (∃ result, Results_base.field_ARRAY_WTEXT utf8_converter properNine [] = .ok result) :=
  ⟨(array_decoders_return secondSlotMalformed (by decide) (by decide) (by decide)).1
      .SMALLINT 3 [] (by decide) (by decide) (by decide),
    ((array_decoders_return properNine (by decide) (by decide) (by decide)).2.1
      3 (by decide) (by decide) (by decide)).1 [],
    ((array_decoders_return properNine (by decide) (by decide) (by decide)).2.1
      3 (by decide) (by decide) (by decide)).2 utf8_converter []⟩

/-- Claim C32 as stated fails: on a field whose header passes the checks and
has `dim = -1`, the numeric, the `ARRAY<TEXT>` and the `ARRAY<WTEXT>` decoder
each throw `std::length_error`; and on a field with `dim = 1` whose element
has the length word -2, the `ARRAY<TEXT>` decoder throws it from the
constructor of the string. -/
theorem array_decoder_throws :
    headerWord negativeDim 3 = -1 ∧
    Results_base.field_ARRAY .SMALLINT negativeDim [] = .error .lengthError ∧
    Results_base.field_ARRAY_TEXT negativeDimText [] = .error .lengthError ∧
    Results_base.field_ARRAY_WTEXT utf8_converter negativeDimText [] = .error .lengthError ∧
    Results_base.field_ARRAY_TEXT negativeLength [] = .error .lengthError := by
  decide

end Fastcgipp
